import Mathlib

/-!
# CrashMonkey permuter core: epoch builder, random permuter, crash-state driver

A shallow embedding of `code/permuter/Permuter.cpp` and
`code/permuter/RandomPermuter.cpp`, followed by the theorems that settle the
properties claimed of them.

Conventions of the embedding.

* Machine integers are natural numbers with the wrap-around written out: the
  counter `abs_index` and the sector arithmetic are reduced modulo `2 ^ 32`,
  `retries` and `max_retries` modulo `2 ^ 64`, and `--slots` on zero wraps.
  Element counts of vectors held in memory (`ops.size()`, `total_elements`,
  `req_size`) stay below `2 ^ 32` and are not reduced.
* `curr_checkpoint_epoch` is an `int` that starts at -1; it is an `Int` here and
  is converted where the source stores it into an `unsigned int`.
* `std::vector` is `List`; an iterator into a vector is the index it points at.
* The pseudo random draws (`permute_epochs(rand)`, `permute_requests(rand)` and
  the outcome of `std::random_shuffle`) are explicit arguments of
  `gen_one_state`; `RandomPermuter.gen_one_state` takes them from generators
  that are functions of a generator state.
* `std::mt19937`, `std::uniform_int_distribution` and `std::random_shuffle`
  belong to the C++ library, not to the sources: they are the fields of a
  `Library`. The constructors that seed the two generators `rand` and
  `subset_random_` with 42, and `GenRandom::operator()`, are embedded over it.
* A computation that would run into undefined behaviour, a failed `assert` or a
  throwing `at()` yields `none`.
* `epoch::num_meta` is left out: the source never initialises it
  (`struct epoch current_epoch;` followed by `+=`), and nothing below reads it.
-/

namespace fs_testing

/-! ## Data model -/

/-- Modelled from the spec: the record `fs_testing::utils::disk_write` of
`utils/utils.h`, which is not among the sources. The spec (section 3) lists the
attributes the permuter reads: `write_sector`, `size` and seven boolean flags. -/
structure disk_write where
  write_sector : Nat
  size : Nat
  flush_flag : Bool
  flush_seq_flag : Bool
  FUA_flag : Bool
  write_flag : Bool
  meta_flag : Bool
  barrier_flag : Bool
  checkpoint_flag : Bool
deriving DecidableEq, Repr

namespace disk_write

/-- Modelled from the spec: the default constructed `disk_write` ("a
default-valued DiskWrite"): no flag set, sector and size zero. -/
def default : disk_write :=
  { write_sector := 0, size := 0, flush_flag := false, flush_seq_flag := false,
    FUA_flag := false, write_flag := false, meta_flag := false,
    barrier_flag := false, checkpoint_flag := false }

/-- Modelled from the spec: `is_barrier_write()`, "supplied by the model"; the
spec writes barriers with the flag `B`. -/
def is_barrier_write (w : disk_write) : Bool := w.barrier_flag

/-- Modelled from the spec: `is_checkpoint()`, the flag `C`. -/
def is_checkpoint (w : disk_write) : Bool := w.checkpoint_flag

/-- Modelled from the spec: `has_flush_flag()`, the flag `F`. -/
def has_flush_flag (w : disk_write) : Bool := w.flush_flag

/-- Modelled from the spec: `has_flush_seq_flag()`, the flag `S`. -/
def has_flush_seq_flag (w : disk_write) : Bool := w.flush_seq_flag

/-- Modelled from the spec: `has_write_flag()`, the flag `W`. -/
def has_write_flag (w : disk_write) : Bool := w.write_flag

/-- Modelled from the spec: `has_FUA_flag()`, the flag `U`. -/
def has_FUA_flag (w : disk_write) : Bool := w.FUA_flag

/-- Modelled from the spec: the mutator `set_flush_flag()`. -/
def set_flush_flag (w : disk_write) : disk_write := { w with flush_flag := true }

/-- Modelled from the spec: the mutator `clear_flush_flag()`. -/
def clear_flush_flag (w : disk_write) : disk_write := { w with flush_flag := false }

/-- Modelled from the spec: the mutator `set_flush_seq_flag()`. -/
def set_flush_seq_flag (w : disk_write) : disk_write := { w with flush_seq_flag := true }

/-- Modelled from the spec: the mutator `clear_flush_seq_flag()`. -/
def clear_flush_seq_flag (w : disk_write) : disk_write := { w with flush_seq_flag := false }

end disk_write

/-- Modelled from the spec: the fields of `PermuteTestResult`
(`results/PermuteTestResult.h`, not among the sources) that the permuter
writes: `crash_state : Vec<u32>` and `last_checkpoint : i32`. -/
structure PermuteTestResult where
  crash_state : List Nat
  last_checkpoint : Int
deriving DecidableEq, Repr

namespace permuter

/-- The `struct epoch_op` of `Permuter.h`. -/
structure epoch_op where
  abs_index : Nat
  op : disk_write
deriving DecidableEq, Repr

/-- The `struct epoch` of `Permuter.h` (without `num_meta`, see the header of
this file). `checkpoint_epoch` is an `unsigned int` in the source. -/
structure epoch where
  checkpoint_epoch : Nat
  has_barrier : Bool
  overlaps : Bool
  ops : List epoch_op
deriving DecidableEq, Repr

/-- The `struct range` of `Permuter.cpp`. -/
structure range where
  start : Nat
  end_ : Nat
deriving DecidableEq, Repr

/-- The constant `kRetryMultiplier` of `Permuter.cpp`. -/
def kRetryMultiplier : Nat := 2

/-- The constant `kMinRetries` of `Permuter.cpp`. -/
def kMinRetries : Nat := 1000

/-! ## The crash-state driver `Permuter::GenerateCrashState` -/

/-- The pure virtual `gen_one_state`: given the strategy's own state, the
vector `res` and the log record it is handed by reference, it returns its
boolean together with the new contents of both and its new state. -/
abbrev GenOneState (σ : Type) : Type :=
  σ → List epoch_op → PermuteTestResult → Bool × List epoch_op × PermuteTestResult × σ

/-- `completed_permutations_.count(key)`: `BioVectorEqual` is elementwise
equality of the two vectors, so the unordered set is a duplicate-free list of
keys. -/
def count (completed : List (List Nat)) (key : List Nat) : Nat :=
  if key ∈ completed then 1 else 0

/-- `completed_permutations_.insert(key)`: no effect when an equal key is
present. -/
def insert (completed : List (List Nat)) (key : List Nat) : List (List Nat) :=
  if key ∈ completed then completed else key :: completed

/-- The part of a `Permuter` that `GenerateCrashState` reads and writes: the
dedup set and the state of the concrete strategy. -/
structure Permuter (σ : Type) where
  completed_permutations_ : List (List Nat)
  strategy : σ

/-- The local variables of `GenerateCrashState` that live across iterations of
its `do ... while` loop, with `log_data` and the strategy state. -/
structure LoopVars (σ : Type) where
  crash_state : List epoch_op
  retries : Nat
  exists_ : Nat
  new_state : Bool
  crash_state_hash : List Nat
  log_data : PermuteTestResult
  strategy : σ

/-- `max_retries` (Permuter.cpp:185-188); `n` is
`completed_permutations_.size()` and the product is a `size_t`. -/
def max_retries (n : Nat) : Nat :=
  if (kRetryMultiplier * n) % 2 ^ 64 < kMinRetries then kMinRetries
  else (kRetryMultiplier * n) % 2 ^ 64

/-- The `do ... while (exists > 0)` loop of `GenerateCrashState`
(Permuter.cpp:189-208). Each unit of fuel pays for one iteration; `none` means
the fuel ran out before the loop was left. -/
def GenerateCrashState.loop {σ : Type} (gen : GenOneState σ)
    (completed : List (List Nat)) (maxRetries : Nat) :
    Nat → LoopVars σ → Option (LoopVars σ)
  | 0, _ => none
  | fuel + 1, v =>
    -- new_state = gen_one_state(crash_state, log_data);
    let g := gen v.strategy v.crash_state v.log_data
    let new_state := g.1
    let crash_state := g.2.1
    -- crash_state_hash.at(i) = crash_state.at(i).abs_index;
    let crash_state_hash := crash_state.map epoch_op.abs_index
    -- ++retries;
    let retries := (v.retries + 1) % 2 ^ 64
    -- exists = completed_permutations_.count(crash_state_hash);
    let exists_ := count completed crash_state_hash
    let v1 : LoopVars σ :=
      { crash_state := crash_state, retries := retries, exists_ := exists_,
        new_state := new_state, crash_state_hash := crash_state_hash,
        log_data := g.2.2.1, strategy := g.2.2.2 }
    if !new_state || decide (retries ≥ maxRetries) then
      some v1
    else if exists_ > 0 then
      GenerateCrashState.loop gen completed maxRetries fuel v1
    else
      some v1

/-- What one call of `GenerateCrashState` leaves behind: the returned boolean,
the output vector `res`, the log record, the permuter, and (for reference in
the theorems) the loop variables at the moment the loop was left. -/
structure CallResult (σ : Type) where
  ret : Bool
  res : List disk_write
  log_data : PermuteTestResult
  permuter : Permuter σ
  vars : LoopVars σ

/-- `Permuter::GenerateCrashState` (Permuter.cpp:177-227). The incoming `res`
is cleared before it is written, so only `log_data` is an input. The loop is
given `max_retries` units of fuel. -/
def GenerateCrashState {σ : Type} (gen : GenOneState σ) (p : Permuter σ)
    (log_data : PermuteTestResult) : Option (CallResult σ) :=
  let maxRetries := max_retries p.completed_permutations_.length
  let v0 : LoopVars σ :=
    { crash_state := [], retries := 0, exists_ := 0, new_state := true,
      crash_state_hash := [], log_data := log_data, strategy := p.strategy }
  match GenerateCrashState.loop gen p.completed_permutations_ maxRetries maxRetries v0 with
  | none => none
  | some v =>
    -- res.at(i) = crash_state.at(i).op;
    let res := v.crash_state.map epoch_op.op
    if v.exists_ = 0 then
      some { ret := v.new_state, res := res, log_data := v.log_data,
             permuter := { completed_permutations_ :=
                             insert p.completed_permutations_ v.crash_state_hash,
                           strategy := v.strategy },
             vars := v }
    else
      some { ret := false, res := res, log_data := v.log_data,
             permuter := { completed_permutations_ := p.completed_permutations_,
                           strategy := v.strategy },
             vars := v }

/-- A caller invoking `GenerateCrashState` once per element of `logs`, each time
on the permuter the previous call left behind. Every entry of the result pairs
the permuter as it was before the call with what the call produced. -/
def calls {σ : Type} (gen : GenOneState σ) :
    Permuter σ → List PermuteTestResult → Option (List (Permuter σ × CallResult σ))
  | _, [] => some []
  | p, l :: ls =>
    match GenerateCrashState gen p l with
    | none => none
    | some r =>
      match calls gen r.permuter ls with
      | none => none
      | some rs => some ((p, r) :: rs)

/-- One invocation `new_state = gen_one_state(crash_state, log_data)` seen as a
map on (returned boolean, `crash_state`, `log_data`, strategy state). -/
def genStep {σ : Type} (gen : GenOneState σ)
    (x : Bool × List epoch_op × PermuteTestResult × σ) :
    Bool × List epoch_op × PermuteTestResult × σ :=
  gen x.2.2.2 x.2.1 x.2.2.1

/-- The outcome of the `n`-th of `n` consecutive `gen_one_state` invocations
that start from an empty `crash_state`, as inside one `GenerateCrashState`. -/
def genCalls {σ : Type} (gen : GenOneState σ) (n : Nat) (s : σ)
    (log_data : PermuteTestResult) : Bool × List epoch_op × PermuteTestResult × σ :=
  Nat.iterate (genStep gen) n (true, [], log_data, s)

/-! ## The epoch builder `Permuter::InitDataVector` -/

/-- Conversion of an `int` to `unsigned int`, as in
`current_epoch.checkpoint_epoch = curr_checkpoint_epoch`. -/
def toUnsigned (i : Int) : Nat := (i % 2 ^ 32).toNat

/-- The variables of `InitDataVector` that live across epochs
(Permuter.cpp:52-60): the member `epochs_` and the locals declared before the
outer loop. -/
structure BuildVars where
  epochs_ : List epoch
  prev_epoch_flush_op : Bool
  data_half : disk_write
  overlaps : List range
  curr_checkpoint_epoch : Int
  abs_index : Nat
deriving DecidableEq, Repr

/-- The walk over the list `overlaps` for one op covering `[start, end_]`
(Permuter.cpp:98-118). It returns the list as the walk leaves it and whether
`current_epoch.overlaps = true` was executed. On a hit only the local copy `r`
is widened and the walk stops; when `r.start > end` a new range is inserted
before the element visited and the walk goes on with the next element. -/
def find_overlaps (start end_ : Nat) : List range → List range × Bool
  | [] => ([], false)
  | r :: rest =>
    if (r.start ≤ start ∧ r.end_ ≥ start) ∨ (r.start ≤ end_ ∧ r.end_ ≥ end_) then
      (r :: rest, true)
    else if r.start > end_ then
      let w := find_overlaps start end_ rest
      ({ start := start, end_ := end_ } :: r :: w.1, w.2)
    else
      let w := find_overlaps start end_ rest
      (r :: w.1, w.2)

/-- The `flag_half` built when the barrier `curr_op` is split
(Permuter.cpp:137-148): a default constructed record that receives the flush
flags of `curr_op`. -/
def split_flag_half (curr_op : disk_write) : disk_write :=
  let flag_half := disk_write.default
  let flag_half := if curr_op.has_flush_flag then flag_half.set_flush_flag else flag_half
  if curr_op.has_flush_seq_flag then flag_half.set_flush_seq_flag else flag_half

/-- The `data_half` built when the barrier `curr_op` is split
(Permuter.cpp:138-148): a copy of `curr_op` with its flush flags cleared. -/
def split_data_half (curr_op : disk_write) : disk_write :=
  let data_half := curr_op
  let data_half := if curr_op.has_flush_flag then data_half.clear_flush_flag else data_half
  if curr_op.has_flush_seq_flag then data_half.clear_flush_seq_flag else data_half

/-- The test of Permuter.cpp:135-136 that decides whether a barrier is split. -/
def is_split_barrier (curr_op : disk_write) : Bool :=
  (curr_op.has_flush_flag || curr_op.has_flush_seq_flag)
    && curr_op.has_write_flag && !curr_op.has_FUA_flag

/-- The `current_epoch` as the outer loop sets it up (Permuter.cpp:64-67). -/
def new_epoch (v : BuildVars) : epoch :=
  { checkpoint_epoch := toUnsigned v.curr_checkpoint_epoch, has_barrier := false,
    overlaps := false, ops := [] }

/-- The two nested `while` loops of `InitDataVector` (Permuter.cpp:63-169).
Both advance the one cursor `curr_op`, so they are one recursion over the
records from the cursor on: `scan v current_epoch records` stands at the head
of the inner loop. A record that is no barrier is handled by the body of the
inner loop; a barrier, or the end of the trace, leaves the inner loop and runs
lines 130-168, after which the outer loop starts a new epoch if records are
left. -/
def InitDataVector.scan : BuildVars → epoch → List disk_write → BuildVars
  | v, current_epoch, [] =>
    -- curr_op == data->end(): line 168, then the outer loop ends
    { v with epochs_ := v.epochs_ ++ [current_epoch] }
  | v, current_epoch, curr_op :: rest =>
    if curr_op.is_barrier_write then
      if is_split_barrier curr_op then
        -- lines 137-158: split into flag half and data half
        let flag_half := split_flag_half curr_op
        let data_half := split_data_half curr_op
        let pushed : epoch :=
          { current_epoch with
            ops := current_epoch.ops ++ [{ abs_index := v.abs_index, op := flag_half }] }
        -- epochs_.push_back(current_epoch) comes before has_barrier = true, which
        -- is then set on a local that the `continue` discards
        let v1 : BuildVars :=
          { v with epochs_ := v.epochs_ ++ [pushed], prev_epoch_flush_op := true,
                   data_half := data_half, abs_index := (v.abs_index + 1) % 2 ^ 32 }
        if rest.isEmpty then v1 else InitDataVector.scan v1 (new_epoch v1) rest
      else
        -- lines 161-168: the barrier closes the epoch
        let pushed : epoch :=
          { current_epoch with
            ops := current_epoch.ops ++ [{ abs_index := v.abs_index, op := curr_op }],
            has_barrier := true }
        let v1 : BuildVars :=
          { v with epochs_ := v.epochs_ ++ [pushed], abs_index := (v.abs_index + 1) % 2 ^ 32 }
        if rest.isEmpty then v1 else InitDataVector.scan v1 (new_epoch v1) rest
    else if curr_op.is_checkpoint then
      -- lines 75-83
      let c := v.curr_checkpoint_epoch + 1
      InitDataVector.scan
        { v with curr_checkpoint_epoch := c, abs_index := (v.abs_index + 1) % 2 ^ 32 }
        { current_epoch with checkpoint_epoch := toUnsigned c } rest
    else
      -- lines 85-93: the data half carried over from a split barrier
      let current_epoch : epoch :=
        if v.prev_epoch_flush_op then
          { current_epoch with
            ops := current_epoch.ops ++ [{ abs_index := v.abs_index, op := v.data_half }] }
        else current_epoch
      -- lines 95-118
      let start := curr_op.write_sector % 2 ^ 32
      let end_ := (start + curr_op.size) % 2 ^ 32
      let w := find_overlaps start end_ v.overlaps
      -- lines 120-124
      InitDataVector.scan
        { v with prev_epoch_flush_op := false, overlaps := w.1,
                 abs_index := (v.abs_index + 1) % 2 ^ 32 }
        { current_epoch with
          overlaps := current_epoch.overlaps || w.2,
          ops := current_epoch.ops ++ [{ abs_index := v.abs_index, op := curr_op }] }
        rest

/-- The locals of `InitDataVector` before the first epoch (Permuter.cpp:52-60). -/
def InitDataVector.init : BuildVars :=
  { epochs_ := [], prev_epoch_flush_op := false, data_half := disk_write.default,
    overlaps := [], curr_checkpoint_epoch := -1, abs_index := 0 }

/-- `Permuter::InitDataVector` (Permuter.cpp:51-170): the value of `epochs_`
it leaves behind. -/
def InitDataVector (data : List disk_write) : List epoch :=
  if data.isEmpty then []
  else (InitDataVector.scan InitDataVector.init (new_epoch InitDataVector.init) data).epochs_

/-! ## The random strategy: `RandomPermuter::subset_epoch` and `gen_one_state` -/

/-- The value `vector::resize` fills new elements with: a value-initialised
`epoch_op`. -/
def epoch_op.default : epoch_op := { abs_index := 0, op := disk_write.default }

/-- `vector::resize(n)`: keep the first `n` elements, pad with `d`. -/
def resize {α : Type} (l : List α) (n : Nat) (d : α) : List α :=
  l.take n ++ List.replicate (n - l.length) d

/-- `slots` in `subset_epoch` (RandomPermuter.cpp:128-131); `--slots` on an
`unsigned int` that is zero wraps around. -/
def slots (e : epoch) : Nat :=
  if e.has_barrier then (if e.ops.length = 0 then 2 ^ 32 - 1 else e.ops.length - 1)
  else e.ops.length

/-- The loop `for (int i = 0; i < req_size; i++) epoch_op_bitmap[indices[i]] = 1;`
(RandomPermuter.cpp:148-150). `k` counts the iterations left. Reading
`indices[i]` or writing the bitmap out of bounds yields `none`. -/
def subset_epoch.mark (indices : List Nat) : Nat → Nat → List Nat → Option (List Nat)
  | 0, _, epoch_op_bitmap => some epoch_op_bitmap
  | k + 1, i, epoch_op_bitmap =>
    match indices[i]? with
    | none => none
    | some j =>
      if j < epoch_op_bitmap.length then
        subset_epoch.mark indices k (i + 1) (epoch_op_bitmap.set j 1)
      else none

/-- The loop over `filled` (RandomPermuter.cpp:153-159), as a recursion over
the bitmap entries from position `filled` on. It returns `res` and `res_start`
as the loop leaves them. -/
def subset_epoch.place (ops : List epoch_op) (res_end : Nat) :
    List Nat → Nat → List epoch_op → Nat → Option (List epoch_op × Nat)
  | [], _, res, res_start => some (res, res_start)
  | b :: bitmap_rest, filled, res, res_start =>
    if res_start = res_end then some (res, res_start)
    else if b = 1 then
      match ops[filled]? with
      | none => none
      | some o =>
        if res_start < res.length then
          subset_epoch.place ops res_end bitmap_rest (filled + 1) (res.set res_start o)
            (res_start + 1)
        else none
    else subset_epoch.place ops res_end bitmap_rest (filled + 1) res res_start

/-- The ops whose bitmap entry is 1, in the order of the epoch: what the loop
over `filled` writes when it runs over the whole bitmap. Used to state what
`subset_epoch.place` returns. -/
def subset_epoch.selected (epoch_op_bitmap : List Nat) (ops : List epoch_op) : List epoch_op :=
  ((epoch_op_bitmap.zip ops).filter (fun p => decide (p.1 = 1))).map Prod.snd

/-- `RandomPermuter::subset_epoch` (RandomPermuter.cpp:118-172). The iterators
`res_start` and `res_end` are positions in `res`; `indices` is the vector
`indices` after `std::random_shuffle`, a rearrangement of `0 .. slots - 1`.
The result is `res` and `res_start` at return, and whether the code after the
early `return` (the assertion and the placement of the barrier) was run. -/
def subset_epoch (indices : List Nat) (res : List epoch_op) (res_start res_end : Nat)
    (e : epoch) : Option (List epoch_op × Nat × Bool) :=
  let req_size := res_end - res_start
  -- assert(req_size <= epoch.ops.size());
  if req_size > e.ops.length then none
  else
    let epoch_op_bitmap := List.replicate e.ops.length 0
    match subset_epoch.mark indices req_size 0 epoch_op_bitmap with
    | none => none
    | some epoch_op_bitmap =>
      match subset_epoch.place e.ops res_end epoch_op_bitmap 0 res res_start with
      | none => none
      | some (res, res_start) =>
        if res_start = res_end then some (res, res_start, false)
        -- assert(epoch.has_barrier);
        else if !e.has_barrier then none
        else
          -- *res_start = epoch.ops.back();
          match e.ops.getLast? with
          | none => none
          | some barrier =>
            if res_start < res.length then some (res.set res_start barrier, res_start, true)
            else none

/-- The outcome of the pseudo random draws of one `gen_one_state` call:
`permute_epochs(rand)`, `permute_requests(rand)` and the shuffled `indices` of
the `subset_epoch` call, if one is made. -/
structure Draws where
  num_epochs : Nat
  num_requests : Nat
  indices : List Nat
deriving DecidableEq, Repr

/-- The copy loop of `gen_one_state` (RandomPermuter.cpp:102-106):
`*curr_iter = *epoch_iter; ++curr_iter;` for every op of the epoch. -/
def gen_one_state.copy : List epoch_op → List epoch_op → Nat → Option (List epoch_op × Nat)
  | [], res, curr_iter => some (res, curr_iter)
  | o :: os, res, curr_iter =>
    if curr_iter < res.length then gen_one_state.copy os (res.set curr_iter o) (curr_iter + 1)
    else none

/-- The loop `for (unsigned int i = 0; i < num_epochs; ++i)` of `gen_one_state`
(RandomPermuter.cpp:82-108), as a recursion over the epochs `i, i + 1, ...`
still to be visited. -/
def gen_one_state.emit (num_epochs num_requests : Nat) (target : epoch) (indices : List Nat) :
    List epoch → Nat → List epoch_op → Nat → Option (List epoch_op × Nat)
  | [], _, res, curr_iter => some (res, curr_iter)
  | e :: es, i, res, curr_iter =>
    if i = num_epochs - 1 ∧ num_requests < target.ops.length then
      let size := num_requests
      let res_end := curr_iter + size
      match subset_epoch indices res curr_iter res_end e with
      | none => none
      | some r => gen_one_state.emit num_epochs num_requests target indices es (i + 1) r.1 res_end
    else
      match gen_one_state.copy e.ops res curr_iter with
      | none => none
      | some r =>
        gen_one_state.emit num_epochs num_requests target indices es (i + 1) r.1 r.2

/-- The loop `log_data.crash_state.at(i) = res.at(i).abs_index`
(RandomPermuter.cpp:111-113), as a recursion over the elements of `res` from
position `i` on; `at` throws when `i` is out of range. -/
def gen_one_state.log : List epoch_op → Nat → List Nat → Option (List Nat)
  | [], _, crash_state => some crash_state
  | o :: os, i, crash_state =>
    if i < crash_state.length then gen_one_state.log os (i + 1) (crash_state.set i o.abs_index)
    else none

/-- Modelled from the spec: the conversion of the `unsigned int`
`checkpoint_epoch` to the `i32` field `last_checkpoint` of `PermuteTestResult`
(a header that is not among the sources). -/
def toSigned (n : Nat) : Int :=
  if n % 2 ^ 32 < 2 ^ 31 then (n % 2 ^ 32 : Nat) else (n % 2 ^ 32 : Nat) - 2 ^ 32

/-- `RandomPermuter::gen_one_state` (RandomPermuter.cpp:37-115) on the epochs
`GetEpochs()` returns, with the outcome `d` of its draws. A draw outside the
range of its distribution yields `none`, as does undefined behaviour. -/
def gen_one_state (epochs : List epoch) (d : Draws) (res : List epoch_op)
    (log_data : PermuteTestResult) : Option (Bool × List epoch_op × PermuteTestResult) :=
  if epochs.length = 0 then some (false, res, log_data)
  else
    -- permute_epochs(1, GetEpochs()->size())
    let num_epochs := d.num_epochs
    if num_epochs < 1 ∨ epochs.length < num_epochs then none
    else
      match epochs[num_epochs - 1]? with
      | none => none
      | some target =>
        -- permute_requests(1, target.ops.size()), overridden when the epoch is empty
        if target.ops.length ≠ 0 ∧ (d.num_requests < 1 ∨ target.ops.length < d.num_requests)
        then none
        else
          let num_requests := if target.ops.length = 0 then 0 else d.num_requests
          let total_elements :=
            ((epochs.take (num_epochs - 1)).map (fun e => e.ops.length)).sum + num_requests
          let res := resize res total_elements epoch_op.default
          let crash_state := resize log_data.crash_state total_elements 0
          let last_checkpoint : Option Int :=
            if num_requests ≠ target.ops.length then
              (if num_epochs > 1 then
                (epochs[num_epochs - 2]?).map (fun prev => toSigned prev.checkpoint_epoch)
               else some 0)
            else some (toSigned target.checkpoint_epoch)
          match last_checkpoint with
          | none => none
          | some last_checkpoint =>
            match gen_one_state.emit num_epochs num_requests target d.indices
                (epochs.take num_epochs) 0 res 0 with
            | none => none
            | some r =>
              match gen_one_state.log r.1 0 crash_state with
              | none => none
              | some crash_state =>
                some (true, r.1,
                  { crash_state := crash_state, last_checkpoint := last_checkpoint })

/-! ## The random strategy with its generators -/

/-- The library the strategy draws from (`std::mt19937`,
`std::uniform_int_distribution`, `std::random_shuffle`), which is outside the
sources: each draw is a function of the state `ρ` of the two generators `rand`
and `subset_random_` and returns its outcome with the new state.
`permute_epochs s n` is `uniform_int_distribution(1, n)(rand)`,
`permute_requests s n` likewise, and `random_shuffle s n` is the vector
`0 .. n - 1` after the shuffle. -/
structure Prng (ρ : Type) where
  permute_epochs : ρ → Nat → Nat × ρ
  permute_requests : ρ → Nat → Nat × ρ
  random_shuffle : ρ → Nat → List Nat × ρ

/-- `RandomPermuter::gen_one_state` as the virtual function that
`GenerateCrashState` calls: the draws are taken from the generators in the
order of the source (RandomPermuter.cpp:45-51 and 145), the shuffle only when
`subset_epoch` is called. An execution that would leave defined behaviour is
cut short: it reports `false` and leaves its outputs as they are. -/
def RandomPermuter.gen_one_state {ρ : Type} (prng : Prng ρ) (epochs : List epoch) :
    GenOneState ρ :=
  fun s res log_data =>
    if epochs.length = 0 then (false, res, log_data, s)
    else
      let e := prng.permute_epochs s epochs.length
      match epochs[e.1 - 1]? with
      | none => (false, res, log_data, e.2)
      | some target =>
        let r := prng.permute_requests e.2 target.ops.length
        let num_requests := if target.ops.length = 0 then 0 else r.1
        let sh :=
          if num_requests < target.ops.length then prng.random_shuffle r.2 (slots target)
          else ([], r.2)
        match permuter.gen_one_state epochs
            { num_epochs := e.1, num_requests := r.1, indices := sh.1 } res log_data with
        | some out => (out.1, out.2.1, out.2.2, sh.2)
        | none => (false, res, log_data, sh.2)

/-- What a caller observes of one `GenerateCrashState` call: the returned
boolean, `res`, and the log record. -/
def CallResult.observed {σ : Type} (r : CallResult σ) :
    Bool × List disk_write × PermuteTestResult :=
  (r.ret, r.res, r.log_data)

/-- The function object `GenRandom` (RandomPermuter.cpp:22-27) that
`subset_epoch` hands to `std::random_shuffle`: it owns one engine, `rand`. -/
structure GenRandom (ε : Type) where
  rand : ε

/-- The parts of the C++ standard library the strategy is built on, which are
outside the sources; `ε` is the state of a `std::mt19937`.
`mt19937 seed` is the engine constructed from `seed`;
`uniform_int_distribution a b g` is one draw `uid(g)` of a
`uniform_int_distribution<unsigned int> uid(a, b)` with the engine after the
draw; `random_shuffle r v g` is `std::random_shuffle(v.begin(), v.end(), r)`
for a function object `r` in state `g`: the vector after the shuffle and the
state the object is left in. -/
structure Library (ε : Type) where
  mt19937 : Nat → ε
  uniform_int_distribution : Nat → Nat → ε → Nat × ε
  random_shuffle :
    (GenRandom ε → Int → Int × GenRandom ε) → List Nat → GenRandom ε → List Nat × GenRandom ε

/-- What the C++ standard promises of the library: a draw of
`uniform_int_distribution(a, b)` with `a ≤ b` lies in `[a, b]`, and
`random_shuffle` rearranges the elements of its range. -/
def Library.conforming {ε : Type} (lib : Library ε) : Prop :=
  (∀ (a b : Nat) (g : ε), a ≤ b →
    a ≤ (lib.uniform_int_distribution a b g).1 ∧ (lib.uniform_int_distribution a b g).1 ≤ b) ∧
  (∀ (r : GenRandom ε → Int → Int × GenRandom ε) (v : List Nat) (g : GenRandom ε),
    (lib.random_shuffle r v g).1.Perm v)

/-- The constructor `GenRandom::GenRandom() : rand(mt19937(42))`
(RandomPermuter.cpp:22). -/
def GenRandom.new {ε : Type} (lib : Library ε) : GenRandom ε :=
  { rand := lib.mt19937 42 }

/-- `int GenRandom::operator()(int max)` (RandomPermuter.cpp:24-27): one draw of
a `uniform_int_distribution<unsigned int> uid(0, max - 1)` from `rand`, returned
as an `int`. -/
def GenRandom.call {ε : Type} (lib : Library ε) (self : GenRandom ε) (max : Int) :
    Int × GenRandom ε :=
  let uid := lib.uniform_int_distribution 0 (toUnsigned (max - 1)) self.rand
  (toSigned uid.1, { rand := uid.2 })

/-- Modelled from the spec: the data members of `RandomPermuter`, declared in
`RandomPermuter.h`, which is not among the sources. The spec (section 4.2)
gives the strategy two generators: `rand`, the engine of the distributions of
`gen_one_state`, and `subset_random_`, the function object of the shuffle. -/
structure RandomPermuter (ε : Type) where
  rand : ε
  subset_random_ : GenRandom ε

/-- The constructor `RandomPermuter::RandomPermuter(vector<disk_write> *data)`
(RandomPermuter.cpp:29-32): `rand = mt19937(42);`. The argument is not read, and
the member `subset_random_` is default constructed. -/
def RandomPermuter.new {ε : Type} (lib : Library ε) (_data : List disk_write) :
    RandomPermuter ε :=
  { rand := lib.mt19937 42, subset_random_ := GenRandom.new lib }

/-- The draws of a `RandomPermuter` on its two generators: `permute_epochs(rand)`
and `permute_requests(rand)` are draws of a
`uniform_int_distribution<unsigned int>(1, n)` from the member `rand`
(RandomPermuter.cpp:45-51), and the shuffle of `subset_epoch` rearranges the
vector `0 .. n - 1` that `iota` filled, drawing from the member
`subset_random_` (RandomPermuter.cpp:142-145). -/
def RandomPermuter.prng {ε : Type} (lib : Library ε) : Prng (RandomPermuter ε) :=
  { permute_epochs := fun self n =>
      let d := lib.uniform_int_distribution 1 n self.rand
      (d.1, { self with rand := d.2 }),
    permute_requests := fun self n =>
      let d := lib.uniform_int_distribution 1 n self.rand
      (d.1, { self with rand := d.2 }),
    random_shuffle := fun self n =>
      let sh := lib.random_shuffle (GenRandom.call lib) (List.range n) self.subset_random_
      (sh.1, { self with subset_random_ := sh.2 }) }

/-- A toy library for the examples: the engine is a counter that starts at its
seed, a draw of `uniform_int_distribution(a, b)` is `a + counter mod (b - a + 1)`
and advances the counter, and the shuffle rotates the vector by one draw of the
function object. -/
def counting_library : Library Nat :=
  { mt19937 := fun seed => seed,
    uniform_int_distribution := fun a b g => (a + g % (b - a + 1), g + 1),
    random_shuffle := fun r v g =>
      let d := r g v.length
      (v.rotate d.1.toNat, d.2) }

/-! ## The traces of the scenarios

Records are written as in the scenarios of the spec: `[flags] sector size`
with `W` = write, `B` = barrier, `F` = flush, `C` = checkpoint. -/

/-- The record `[W] sector size`. -/
def bio_W (sector size : Nat) : disk_write :=
  { disk_write.default with write_sector := sector, size := size, write_flag := true }

/-- The record `[W,B] sector size`. -/
def bio_WB (sector size : Nat) : disk_write :=
  { bio_W sector size with barrier_flag := true }

/-- The record `[W,B,F] sector size`. -/
def bio_WBF (sector size : Nat) : disk_write :=
  { bio_WB sector size with flush_flag := true }

/-- The record `[B] 0 0`. -/
def bio_B : disk_write := { disk_write.default with barrier_flag := true }

/-- The record `[C]`. -/
def bio_C : disk_write := { disk_write.default with checkpoint_flag := true }

/-- Scenario S1: `[W] 0 512`, `[W,B,F] 8 512`. -/
def trace_S1 : List disk_write := [bio_W 0 512, bio_WBF 8 512]

/-- Scenario S1 followed by one more write: `[W] 0 512`, `[W,B,F] 8 512`,
`[W] 16 512`. -/
def trace_S1_then_write : List disk_write := [bio_W 0 512, bio_WBF 8 512, bio_W 16 512]

/-- A split barrier directly followed by another barrier: `[W] 0 512`,
`[W,B,F] 8 512`, `[B] 0 0`, `[W] 16 512`. -/
def trace_split_then_barrier : List disk_write :=
  [bio_W 0 512, bio_WBF 8 512, bio_B, bio_W 16 512]

/-- Scenario S3: `[W] 0 4096`, `[W] 2048 2048`, `[B] 0 0`. -/
def trace_S3 : List disk_write := [bio_W 0 4096, bio_W 2048 2048, bio_B]

/-- Scenario S4: `[C]`, `[W] 0 512`, `[C]`, `[W,B] 8 512`. -/
def trace_S4 : List disk_write := [bio_C, bio_W 0 512, bio_C, bio_WB 8 512]

/-- A hand-built epoch of three ops that ends with a barrier. -/
def epoch_A : epoch :=
  { checkpoint_epoch := 0, has_barrier := true, overlaps := false,
    ops := [{ abs_index := 1, op := bio_W 0 512 }, { abs_index := 2, op := bio_W 8 512 },
            { abs_index := 3, op := bio_WB 16 512 }] }

/-- A second hand-built epoch of three ops that ends with a barrier. -/
def epoch_B : epoch :=
  { checkpoint_epoch := 0, has_barrier := true, overlaps := false,
    ops := [{ abs_index := 4, op := bio_W 24 512 }, { abs_index := 5, op := bio_W 32 512 },
            { abs_index := 6, op := bio_B }] }

/-- A trace without any barrier, with a checkpoint before its only write:
`[C]`, `[W] 0 512`. -/
def trace_checkpoint_no_barrier : List disk_write := [bio_C, bio_W 0 512]

/-- A trace of one epoch, without checkpoints: `[W] 0 512`, `[W] 8 512`,
`[B] 0 0`. -/
def trace_one_epoch : List disk_write := [bio_W 0 512, bio_W 8 512, bio_B]

/-- A trace whose first epoch ends before the only checkpoint: `[W] 0 512`,
`[B] 0 0`, `[C]`, `[W] 8 512`, `[B] 0 0`. -/
def trace_checkpoint_after_barrier : List disk_write :=
  [bio_W 0 512, bio_B, bio_C, bio_W 8 512, bio_B]

/-- Whether an epoch ends with a barrier: it is flagged `has_barrier`, or its
last op is a barrier write. -/
def ends_with_barrier (e : epoch) : Bool :=
  e.has_barrier || ((e.ops.getLast?).map (fun o => o.op.is_barrier_write)).getD false

/-- Follows the spec's words (section 8, invariant 7): "the checkpoint-epoch
value of the last fully-durable epoch" of a state, an epoch being fully durable
when it is emitted in full together with its terminating barrier; -1, the
initial checkpoint value, when the state has no such epoch. The state holds
the first `num_epochs - 1` epochs in full, and the target epoch in full when
`target_in_full` is set. -/
def last_durable_checkpoint (epochs : List epoch) (num_epochs : Nat) (target_in_full : Bool) :
    Int :=
  let in_full := epochs.take (if target_in_full then num_epochs else num_epochs - 1)
  match (in_full.filter ends_with_barrier).getLast? with
  | none => -1
  | some e => toSigned e.checkpoint_epoch

/-- The walk behind `checkpoints_at_epoch_ends`: `seen` checkpoint records have
been passed, and `opened` tells whether a record has been passed since the last
barrier. -/
def checkpoints_at_epoch_ends.go : Nat → Bool → List disk_write → List Nat
  | seen, opened, [] => if opened then [seen] else []
  | seen, _, w :: rest =>
    if w.is_barrier_write then seen :: checkpoints_at_epoch_ends.go seen false rest
    else if w.is_checkpoint then checkpoints_at_epoch_ends.go (seen + 1) true rest
    else checkpoints_at_epoch_ends.go seen true rest

/-- Follows the spec's words: for each epoch of the trace, in order, "the
number of checkpoint records in the trace up to the end of that epoch". An
epoch ends with its barrier, or with the trace; a record that is a barrier
write counts as a barrier, not as a checkpoint. -/
def checkpoints_at_epoch_ends (data : List disk_write) : List Nat :=
  checkpoints_at_epoch_ends.go 0 false data

/-- The value of the `int` counter `curr_checkpoint_epoch` when `seen`
checkpoint records have been passed: it starts at -1. -/
def checkpoint_counter (seen : Nat) : Int := (seen : Int) - 1

/-- The value stored in the `unsigned int` field `checkpoint_epoch` when `seen`
checkpoint records have been passed: the counter `seen - 1`, converted. -/
def stored_checkpoint (seen : Nat) : Nat := toUnsigned ((seen : Int) - 1)

/-- The records of a trace that become ops (all but the checkpoint records; a
barrier write is never taken for a checkpoint), each paired with its 0-based
position in the trace, `position` being the position of the first record. The
position is stored in an `unsigned int`. -/
def indexed_ops : Nat → List disk_write → List epoch_op
  | _, [] => []
  | position, w :: rest =>
    if !w.is_barrier_write && w.is_checkpoint then indexed_ops (position + 1) rest
    else { abs_index := position % 2 ^ 32, op := w } :: indexed_ops (position + 1) rest

/-- The `epoch_op`s of all epochs, concatenated in order. -/
def all_epoch_ops (epochs : List epoch) : List epoch_op :=
  (epochs.map (fun e => e.ops)).flatten

/-- Whether the trace holds a barrier that `InitDataVector` splits. -/
def has_split_barrier (data : List disk_write) : Bool :=
  data.any (fun w => w.is_barrier_write && is_split_barrier w)

/-- The draws `d` are outcomes that the distributions of `gen_one_state` can
give on `epochs`: `num_epochs` in `[1, E]`, `num_requests` in
`[1, |target.ops|]` when the target has ops, and, when `subset_epoch` is
called, `indices` a rearrangement of `0 .. slots - 1`. -/
def Draws.in_range (epochs : List epoch) (d : Draws) : Prop :=
  1 ≤ d.num_epochs ∧
  ∃ target, epochs[d.num_epochs - 1]? = some target ∧
    (target.ops.length ≠ 0 → 1 ≤ d.num_requests ∧ d.num_requests ≤ target.ops.length) ∧
    (d.num_requests < target.ops.length → d.indices.Perm (List.range (slots target)))

/-- A split barrier followed by an epoch that ends with a barrier: `[W] 0 512`,
`[W,B,F] 8 512`, `[W] 16 512`, `[B] 0 0`. -/
def trace_split_then_epoch : List disk_write :=
  [bio_W 0 512, bio_WBF 8 512, bio_W 16 512, bio_B]

/-- Whether `w` is the data half of a barrier of the trace `data` that
`InitDataVector` splits. -/
def is_data_half_of (data : List disk_write) (w : disk_write) : Bool :=
  data.any (fun b => b.is_barrier_write && is_split_barrier b && decide (w = split_data_half b))

/-- The ops of an epoch before its last op: none but the first satisfies
`is_barrier_write`, and the first does so only when it is the data half of a
split barrier of the trace. -/
def ops_ok (data : List disk_write) (ops : List epoch_op) : Prop :=
  (∀ o ∈ ops.tail, o.op.is_barrier_write = false) ∧
  (∀ o, ops.head? = some o →
    o.op.is_barrier_write = false ∨ is_data_half_of data o.op = true)

/-- What holds of the barriers of an epoch built from the trace `data`: the
ops before the last are as `ops_ok` says, and an epoch flagged `has_barrier`
ends with a barrier write that is not split. -/
def epoch_barriers_ok (data : List disk_write) (e : epoch) : Prop :=
  ops_ok data e.ops.dropLast ∧
  (e.has_barrier = true →
    ∃ o, e.ops.getLast? = some o ∧ o.op.is_barrier_write = true ∧
      is_split_barrier o.op = false)

/-- Follows the spec's words (section 3, invariants; section 4.2): the ops the
epochs are to hold in all, "the original trace minus checkpoints, modulo the
flush-split transformation": checkpoint records are removed, a barrier with
write and flush (or flush_seq) set and FUA clear is replaced by its flag half
followed by its data half, every other record stays as it is. -/
def expected_ops : List disk_write → List disk_write
  | [] => []
  | w :: rest =>
    if w.is_checkpoint then expected_ops rest
    else if w.is_barrier_write && is_split_barrier w then
      split_flag_half w :: split_data_half w :: expected_ops rest
    else w :: expected_ops rest

/-- The ops of all epochs, concatenated in order. -/
def all_ops (epochs : List epoch) : List disk_write :=
  (epochs.map (fun e => e.ops.map epoch_op.op)).flatten

/-! ## Theorems -/

/-! ### The retry loop -/

theorem max_retries_pos (n : Nat) : 0 < max_retries n := by
  unfold max_retries kMinRetries
  split <;> omega

theorem max_retries_lt (n : Nat) : max_retries n < 2 ^ 64 := by
  unfold max_retries kMinRetries
  split
  · norm_num
  · exact Nat.mod_lt _ (by norm_num)

/-- What the loop guarantees about the variables it leaves behind, in terms of
the number `n` of `gen_one_state` invocations it made. -/
theorem GenerateCrashState.loop_spec {σ : Type} (gen : GenOneState σ)
    (completed : List (List Nat)) (maxRetries : Nat) (hmax : maxRetries < 2 ^ 64) :
    ∀ (fuel : Nat) (v : LoopVars σ), 0 < fuel → v.retries + fuel = maxRetries →
      ∃ (w : LoopVars σ) (n : Nat),
        GenerateCrashState.loop gen completed maxRetries fuel v = some w ∧
        1 ≤ n ∧ w.retries = v.retries + n ∧ w.retries ≤ maxRetries ∧
        (w.new_state, w.crash_state, w.log_data, w.strategy)
          = Nat.iterate (genStep gen) n (v.new_state, v.crash_state, v.log_data, v.strategy) ∧
        w.crash_state_hash = w.crash_state.map epoch_op.abs_index ∧
        w.exists_ = count completed w.crash_state_hash ∧
        (w.new_state = true → w.retries < maxRetries → w.exists_ = 0) := by
  intro fuel
  induction fuel with
  | zero => intro v h; omega
  | succ k ih =>
    intro v _ hsum
    have hr : (v.retries + 1) % 2 ^ 64 = v.retries + 1 := Nat.mod_eq_of_lt (by omega)
    simp only [GenerateCrashState.loop, hr]
    by_cases hbrk : (!(gen v.strategy v.crash_state v.log_data).1
        || decide (v.retries + 1 ≥ maxRetries)) = true
    · rw [if_pos hbrk]
      refine ⟨_, 1, rfl, le_refl _, rfl, by simp only; omega, rfl, rfl, rfl, ?_⟩
      intro h1 h2
      simp only [Bool.or_eq_true, Bool.not_eq_true', decide_eq_true_eq] at hbrk
      simp only at h1 h2
      rcases hbrk with h | h
      · rw [h] at h1; cases h1
      · omega
    · rw [if_neg hbrk]
      simp only [Bool.or_eq_true, Bool.not_eq_true', decide_eq_true_eq, not_or] at hbrk
      by_cases hex : count completed
          ((gen v.strategy v.crash_state v.log_data).2.1.map epoch_op.abs_index) > 0
      · rw [if_pos hex]
        obtain ⟨w, n, hw, hn, hret, hle, hit, hh, he, hz⟩ :=
          ih { crash_state := (gen v.strategy v.crash_state v.log_data).2.1,
               retries := v.retries + 1,
               exists_ := count completed
                 ((gen v.strategy v.crash_state v.log_data).2.1.map epoch_op.abs_index),
               new_state := (gen v.strategy v.crash_state v.log_data).1,
               crash_state_hash :=
                 (gen v.strategy v.crash_state v.log_data).2.1.map epoch_op.abs_index,
               log_data := (gen v.strategy v.crash_state v.log_data).2.2.1,
               strategy := (gen v.strategy v.crash_state v.log_data).2.2.2 }
            (by omega) (by simp only; omega)
        refine ⟨w, n + 1, hw, by omega, by simp only at hret; omega, hle, ?_, hh, he, hz⟩
        rw [hit, Function.iterate_succ_apply]
        rfl
      · rw [if_neg hex]
        refine ⟨_, 1, rfl, le_refl _, rfl, by simp only; omega, rfl, rfl, rfl, ?_⟩
        intro _ _
        simp only
        omega

/-- `GenerateCrashState` always returns, and its result is determined by the
last of the `retries` invocations of `gen_one_state` it made. -/
theorem GenerateCrashState_spec {σ : Type} (gen : GenOneState σ) (p : Permuter σ)
    (log_data : PermuteTestResult) :
    ∃ r : CallResult σ, GenerateCrashState gen p log_data = some r ∧
      1 ≤ r.vars.retries ∧
      r.vars.retries ≤ max_retries p.completed_permutations_.length ∧
      (r.vars.new_state, r.vars.crash_state, r.vars.log_data, r.vars.strategy)
        = genCalls gen r.vars.retries p.strategy log_data ∧
      r.vars.crash_state_hash = r.vars.crash_state.map epoch_op.abs_index ∧
      r.res = r.vars.crash_state.map epoch_op.op ∧
      r.log_data = r.vars.log_data ∧
      r.permuter.strategy = r.vars.strategy ∧
      r.ret = (r.vars.new_state
        && decide (r.vars.crash_state_hash ∉ p.completed_permutations_)) ∧
      r.permuter.completed_permutations_ =
        (if r.vars.crash_state_hash ∈ p.completed_permutations_
          then p.completed_permutations_
          else r.vars.crash_state_hash :: p.completed_permutations_) := by
  obtain ⟨w, n, hw, hn, hret, hle, hit, hh, he, _⟩ :=
    GenerateCrashState.loop_spec gen p.completed_permutations_
      (max_retries p.completed_permutations_.length) (max_retries_lt _)
      (max_retries p.completed_permutations_.length)
      { crash_state := [], retries := 0, exists_ := 0, new_state := true,
        crash_state_hash := [], log_data := log_data, strategy := p.strategy }
      (max_retries_pos _) (by simp)
  simp only [Nat.zero_add] at hret
  unfold GenerateCrashState
  simp only [hw]
  by_cases hmem : w.crash_state_hash ∈ p.completed_permutations_
  · have hex : w.exists_ ≠ 0 := by rw [he]; simp [count, hmem]
    rw [if_neg hex]
    refine ⟨_, rfl, by simp only; omega, hle, ?_, hh, rfl, rfl, rfl, ?_, ?_⟩
    · simp only [genCalls, hret]; exact hit
    · simp [hmem]
    · simp [hmem]
  · have hex : w.exists_ = 0 := by rw [he]; simp [count, hmem]
    rw [if_pos hex]
    refine ⟨_, rfl, by simp only; omega, hle, ?_, hh, rfl, rfl, rfl, ?_, ?_⟩
    · simp only [genCalls, hret]; exact hit
    · simp [hmem]
    · simp [hmem, insert]

/-- Facts about a whole sequence of calls: it always runs to its end, the dedup
set only grows from one call to every later one, and each call returns `true`
only on a key that was absent before it and is present after it. -/
theorem calls_spec {σ : Type} (gen : GenOneState σ) :
    ∀ (logs : List PermuteTestResult) (p : Permuter σ),
      ∃ rs, calls gen p logs = some rs ∧ rs.length = logs.length ∧
        (∀ b ∈ rs,
          p.completed_permutations_ ⊆ b.1.completed_permutations_ ∧
          b.1.completed_permutations_ ⊆ b.2.permuter.completed_permutations_ ∧
          b.2.vars.crash_state_hash = b.2.vars.crash_state.map epoch_op.abs_index ∧
          (b.2.ret = true →
            b.2.vars.crash_state_hash ∉ b.1.completed_permutations_ ∧
            b.2.vars.crash_state_hash ∈ b.2.permuter.completed_permutations_)) ∧
        rs.Pairwise (fun a b =>
          a.2.permuter.completed_permutations_ ⊆ b.1.completed_permutations_) := by
  intro logs
  induction logs with
  | nil => intro p; exact ⟨[], rfl, rfl, by simp, List.Pairwise.nil⟩
  | cons l ls ih =>
    intro p
    obtain ⟨r, hr, -, -, -, hh, -, -, -, hret, hset⟩ := GenerateCrashState_spec gen p l
    obtain ⟨rs, hrs, hlen, hall, hpw⟩ := ih r.permuter
    have hsub : p.completed_permutations_ ⊆ r.permuter.completed_permutations_ := by
      rw [hset]
      split
      · exact fun _ h => h
      · exact fun _ h => List.mem_cons_of_mem _ h
    refine ⟨(p, r) :: rs, ?_, by simp [hlen], ?_, ?_⟩
    · simp only [calls, hr, hrs]
    · intro b hb
      rcases List.mem_cons.1 hb with rfl | hb
      · refine ⟨fun _ h => h, hsub, hh, ?_⟩
        intro ht
        simp only
        rw [hret] at ht
        simp only [Bool.and_eq_true, decide_eq_true_eq] at ht
        refine ⟨ht.2, ?_⟩
        rw [hset, if_neg ht.2]
        exact List.mem_cons_self _ _
      · obtain ⟨h1, h2⟩ := hall b hb
        exact ⟨fun _ h => h1 (hsub h), h2⟩
    · exact List.Pairwise.cons (fun b hb => (hall b hb).1) hpw

/-- C1. Uniqueness of the crash states the driver returns. For every strategy
`gen_one_state`, every permuter and every sequence of `GenerateCrashState`
calls on it: every call returns; any two calls of the sequence that both return
`true` have different fingerprints (the `abs_index` sequence of the generated
state, which is the key looked up in `completed_permutations_`); a call returns
`true` only if its fingerprint was not in the set before the call, the
fingerprint is in the set after it, and every key in the set after a call is
still in the set before every later call and after it. -/
theorem GenerateCrashState_unique {σ : Type} (gen : GenOneState σ) (p : Permuter σ)
    (logs : List PermuteTestResult) :
    ∃ rs, calls gen p logs = some rs ∧ rs.length = logs.length ∧
      rs.Pairwise (fun a b => a.2.ret = true → b.2.ret = true →
        a.2.vars.crash_state.map epoch_op.abs_index
          ≠ b.2.vars.crash_state.map epoch_op.abs_index) ∧
      (∀ b ∈ rs, b.2.ret = true →
        b.2.vars.crash_state.map epoch_op.abs_index ∉ b.1.completed_permutations_ ∧
        b.2.vars.crash_state.map epoch_op.abs_index
          ∈ b.2.permuter.completed_permutations_) ∧
      (∀ b ∈ rs, b.1.completed_permutations_ ⊆ b.2.permuter.completed_permutations_) ∧
      rs.Pairwise (fun a b =>
        a.2.permuter.completed_permutations_ ⊆ b.1.completed_permutations_) := by
  obtain ⟨rs, hrs, hlen, hall, hpw⟩ := calls_spec gen logs p
  refine ⟨rs, hrs, hlen, ?_, ?_, fun b hb => (hall b hb).2.1, hpw⟩
  · refine List.Pairwise.imp_of_mem ?_ hpw
    intro a b ha hb hab hta htb heq
    obtain ⟨-, -, hha, hfa⟩ := hall a ha
    obtain ⟨-, -, hhb, hfb⟩ := hall b hb
    have h1 := (hfa hta).2
    have h2 := (hfb htb).1
    rw [hha] at h1
    rw [hhb] at h2
    rw [heq] at h1
    exact h2 (hab h1)
  · intro b hb ht
    obtain ⟨-, -, hh, hf⟩ := hall b hb
    rw [← hh]
    exact hf ht

/-- C2. `GenerateCrashState` always returns, after `retries ≥ 1` invocations of
`gen_one_state`; it returns `true` exactly when the last of these invocations
returned `true` and the fingerprint of the state that invocation produced is
not in the dedup set. So it returns `false` when the strategy signals
exhaustion and when the fingerprint is already known (as at the retry cap). In
every case `res` holds the `op` fields of the state the last invocation
produced, and the log record and the strategy are as that invocation left
them. -/
theorem GenerateCrashState_true_iff {σ : Type} (gen : GenOneState σ) (p : Permuter σ)
    (log_data : PermuteTestResult) :
    ∃ r : CallResult σ, GenerateCrashState gen p log_data = some r ∧
      1 ≤ r.vars.retries ∧
      (r.ret = true ↔
        (genCalls gen r.vars.retries p.strategy log_data).1 = true ∧
        (genCalls gen r.vars.retries p.strategy log_data).2.1.map epoch_op.abs_index
          ∉ p.completed_permutations_) ∧
      ((genCalls gen r.vars.retries p.strategy log_data).1 = false → r.ret = false) ∧
      ((genCalls gen r.vars.retries p.strategy log_data).2.1.map epoch_op.abs_index
          ∈ p.completed_permutations_ → r.ret = false) ∧
      r.res = (genCalls gen r.vars.retries p.strategy log_data).2.1.map epoch_op.op ∧
      r.log_data = (genCalls gen r.vars.retries p.strategy log_data).2.2.1 ∧
      r.permuter.strategy = (genCalls gen r.vars.retries p.strategy log_data).2.2.2 := by
  obtain ⟨r, hr, h1, -, hit, hh, hres, hlog, hstrat, hret, -⟩ :=
    GenerateCrashState_spec gen p log_data
  refine ⟨r, hr, h1, ?_, ?_, ?_, ?_, ?_, ?_⟩
  · rw [← hit, hret, hh]
    simp
  · rw [← hit, hret]
    intro h
    simp only at h
    simp [h]
  · rw [← hit, hret, hh]
    intro h
    simp only at h
    simp [h]
  · rw [← hit, hres]
  · rw [← hit, hlog]
  · rw [← hit, hstrat]

/-! ### The epoch builder -/

theorem find_overlaps_nil (start end_ : Nat) : find_overlaps start end_ [] = ([], false) := rfl

/-- The list `overlaps` starts empty and ranges are only inserted from inside
the walk over its elements, so it stays empty and no epoch is ever flagged. -/
theorem InitDataVector.scan_overlaps :
    ∀ (data : List disk_write) (v : BuildVars) (current_epoch : epoch),
      v.overlaps = [] → current_epoch.overlaps = false →
      (∀ e ∈ v.epochs_, e.overlaps = false) →
      ∀ e ∈ (InitDataVector.scan v current_epoch data).epochs_, e.overlaps = false := by
  intro data
  induction data with
  | nil =>
    intro v cur _ hc hall e he
    simp only [InitDataVector.scan, List.mem_append, List.mem_singleton] at he
    rcases he with he | rfl
    · exact hall e he
    · exact hc
  | cons w rest ih =>
    intro v cur hv hc hall
    have hpush : ∀ (x : epoch), x.overlaps = false →
        ∀ e ∈ v.epochs_ ++ [x], e.overlaps = false := by
      intro x hx e he
      rcases List.mem_append.1 he with he | he
      · exact hall e he
      · rw [List.mem_singleton.1 he]; exact hx
    simp only [InitDataVector.scan]
    split_ifs with h1 h2 h3 h4 h5 h6
    · exact hpush _ hc
    · exact ih _ _ hv rfl (hpush _ hc)
    · exact hpush _ hc
    · exact ih _ _ hv rfl (hpush _ hc)
    · exact ih _ _ hv hc hall
    · refine ih _ _ ?_ ?_ hall
      · simp only [hv, find_overlaps_nil]
      · simp only [hv, find_overlaps_nil, hc, Bool.or_false]
    · refine ih _ _ ?_ ?_ hall
      · simp only [hv, find_overlaps_nil]
      · simp only [hv, find_overlaps_nil, hc, Bool.or_false]

theorem InitDataVector_overlaps_false (data : List disk_write) :
    ∀ e ∈ InitDataVector data, e.overlaps = false := by
  unfold InitDataVector
  split
  · intro e he; cases he
  · exact InitDataVector.scan_overlaps data _ _ rfl rfl (fun e he => by cases he)

/-- C9 (the code departs from the claim). In scenario S3 the second write
starts inside the sector range of the first, and both are non-barrier ops of
epoch 0, yet `InitDataVector` leaves `overlaps = false` on that epoch; indeed
for every trace every epoch it builds has `overlaps = false`. -/
theorem InitDataVector_S3_no_overlap_flag :
    InitDataVector trace_S3 =
      [{ checkpoint_epoch := 4294967295, has_barrier := true, overlaps := false,
         ops := [{ abs_index := 0, op := bio_W 0 4096 },
                 { abs_index := 1, op := bio_W 2048 2048 },
                 { abs_index := 2, op := bio_B }] }] ∧
    ((bio_W 0 4096).write_sector ≤ (bio_W 2048 2048).write_sector ∧
      (bio_W 2048 2048).write_sector ≤ (bio_W 0 4096).write_sector + (bio_W 0 4096).size) ∧
    ∀ data : List disk_write, ((InitDataVector data).all fun e => !e.overlaps) = true := by
  refine ⟨by decide, by decide, ?_⟩
  intro data
  rw [List.all_eq_true]
  intro e he
  rw [InitDataVector_overlaps_false data e he]
  rfl

/-- C7 (the code departs from the claim). On scenario S1 the epoch that
`InitDataVector` emits at the split barrier has the flag half (a default record
with only the flush flag) as its last op, but `has_barrier = false`: the epoch
is pushed before the flag is set. -/
theorem InitDataVector_S1_has_barrier_false :
    InitDataVector trace_S1 =
      [{ checkpoint_epoch := 4294967295, has_barrier := false, overlaps := false,
         ops := [{ abs_index := 0, op := bio_W 0 512 },
                 { abs_index := 1, op := split_flag_half (bio_WBF 8 512) }] }] ∧
    is_split_barrier (bio_WBF 8 512) = true ∧
    split_flag_half (bio_WBF 8 512) = { disk_write.default with flush_flag := true } := by
  decide

/-- C6 (the code departs from the claim). On scenario S1, where the split
barrier is the last record, the epochs hold the write and the flag half only:
the data half is in no epoch, so the concatenated ops differ from the trace
with its barrier replaced by flag half and data half. When the split barrier is
directly followed by another barrier, the data half comes after that barrier
instead of directly after its flag half. -/
theorem InitDataVector_S1_drops_data_half :
    all_ops (InitDataVector trace_S1)
      = [bio_W 0 512, split_flag_half (bio_WBF 8 512)] ∧
    expected_ops trace_S1
      = [bio_W 0 512, split_flag_half (bio_WBF 8 512), split_data_half (bio_WBF 8 512)] ∧
    all_ops (InitDataVector trace_S1) ≠ expected_ops trace_S1 ∧
    all_ops (InitDataVector trace_split_then_barrier)
      = [bio_W 0 512, split_flag_half (bio_WBF 8 512), bio_B,
         split_data_half (bio_WBF 8 512), bio_W 16 512] ∧
    expected_ops trace_split_then_barrier
      = [bio_W 0 512, split_flag_half (bio_WBF 8 512), split_data_half (bio_WBF 8 512),
         bio_B, bio_W 16 512] := by
  decide

/-- C10 (as stated it fails). On scenario S4 the single epoch does not have
`checkpoint_epoch = 0`. -/
theorem InitDataVector_S4_checkpoint_epoch_ne_zero :
    ¬ ∃ e : epoch, InitDataVector trace_S4 = [e] ∧ e.checkpoint_epoch = 0 ∧
        e.has_barrier = true ∧
        e.ops = [{ abs_index := 1, op := bio_W 0 512 }, { abs_index := 3, op := bio_WB 8 512 }] := by
  rintro ⟨e, he, hc, -, -⟩
  have h : InitDataVector trace_S4 =
      [{ checkpoint_epoch := 1, has_barrier := true, overlaps := false,
         ops := [{ abs_index := 1, op := bio_W 0 512 },
                 { abs_index := 3, op := bio_WB 8 512 }] }] := by decide
  rw [h] at he
  injection he with he _
  rw [← he] at hc
  exact absurd hc (by decide)

/-- C10 (amended). On scenario S4, `[C]`, `[W] 0 512`, `[C]`, `[W,B] 8 512`,
`InitDataVector` yields exactly one epoch, with `checkpoint_epoch = 1` (two
checkpoints were counted, starting from -1), `has_barrier = true` and two ops:
the write at `abs_index` 1 and the terminal barrier at `abs_index` 3; no
checkpoint record is among the ops. -/
theorem InitDataVector_S4 :
    InitDataVector trace_S4 =
      [{ checkpoint_epoch := 1, has_barrier := true, overlaps := false,
         ops := [{ abs_index := 1, op := bio_W 0 512 },
                 { abs_index := 3, op := bio_WB 8 512 }] }] ∧
    ((all_ops (InitDataVector trace_S4)).all fun w => !w.is_checkpoint) = true := by
  decide

/-- C4 (the code departs from the claim). On the epochs built from scenario S1,
with the draws `num_epochs = 1`, `num_requests = 1` and the shuffle `[1, 0]` of
the two slots, `gen_one_state` returns the state that consists of the flag half
alone: the op that terminates epoch 0 is in the state while the write of epoch
0 is not. -/
theorem gen_one_state_S1_barrier_without_epoch :
    (InitDataVector trace_S1).map (fun e => e.ops)
      = [[{ abs_index := 0, op := bio_W 0 512 },
          { abs_index := 1, op := split_flag_half (bio_WBF 8 512) }]] ∧
    (InitDataVector trace_S1).map slots = [2] ∧
    List.Perm [1, 0] (List.range 2) ∧
    gen_one_state (InitDataVector trace_S1)
        { num_epochs := 1, num_requests := 1, indices := [1, 0] } []
        { crash_state := [], last_checkpoint := 0 }
      = some (true, [{ abs_index := 1, op := split_flag_half (bio_WBF 8 512) }],
          { crash_state := [1], last_checkpoint := 0 }) ∧
    ({ abs_index := 0, op := bio_W 0 512 } : epoch_op)
      ∉ [({ abs_index := 1, op := split_flag_half (bio_WBF 8 512) } : epoch_op)] := by
  decide

/-! ### The random strategy -/

theorem set_middle {α : Type} (pre : List α) (m : α) (mid post : List α) (o : α) :
    (pre ++ (m :: mid ++ post)).set pre.length o = (pre ++ [o]) ++ (mid ++ post) := by
  rw [List.set_append_right _ _ (le_refl _)]
  simp

/-- The copy loop overwrites the `os.length` elements from `curr_iter` on. -/
theorem gen_one_state.copy_spec :
    ∀ (os pre mid post : List epoch_op), mid.length = os.length →
      gen_one_state.copy os (pre ++ (mid ++ post)) pre.length
        = some (pre ++ (os ++ post), pre.length + os.length) := by
  intro os
  induction os with
  | nil =>
    intro pre mid post h
    have : mid = [] := List.length_eq_zero.1 h
    subst this
    simp [gen_one_state.copy]
  | cons o os ih =>
    intro pre mid post h
    cases mid with
    | nil => simp at h
    | cons m mid =>
      have hlt : pre.length < (pre ++ (m :: mid ++ post)).length := by simp
      simp only [gen_one_state.copy]
      rw [if_pos hlt, set_middle]
      have hlen : mid.length = os.length := by simpa using h
      have := ih (pre ++ [o]) mid post hlen
      simp only [List.length_append, List.length_singleton] at this
      rw [this]
      simp [Nat.add_assoc, Nat.add_comm 1]

/-- The logging loop overwrites the `os.length` entries of `crash_state` from
`i` on with the `abs_index` values. -/
theorem gen_one_state.log_spec :
    ∀ (os : List epoch_op) (pre mid post : List Nat), mid.length = os.length →
      gen_one_state.log os pre.length (pre ++ (mid ++ post))
        = some (pre ++ (os.map epoch_op.abs_index ++ post)) := by
  intro os
  induction os with
  | nil =>
    intro pre mid post h
    have : mid = [] := List.length_eq_zero.1 h
    subst this
    simp [gen_one_state.log]
  | cons o os ih =>
    intro pre mid post h
    cases mid with
    | nil => simp at h
    | cons m mid =>
      have hlt : pre.length < (pre ++ (m :: mid ++ post)).length := by simp
      simp only [gen_one_state.log]
      rw [if_pos hlt, set_middle]
      have hlen : mid.length = os.length := by simpa using h
      have := ih (pre ++ [o.abs_index]) mid post hlen
      simp only [List.length_append, List.length_singleton] at this
      rw [this]
      simp

theorem subset_epoch.selected_nil_left (ops : List epoch_op) :
    subset_epoch.selected [] ops = [] := by
  simp [subset_epoch.selected]

theorem subset_epoch.selected_cons (b : Nat) (bs : List Nat) (o : epoch_op)
    (os : List epoch_op) :
    subset_epoch.selected (b :: bs) (o :: os)
      = if b = 1 then o :: subset_epoch.selected bs os else subset_epoch.selected bs os := by
  unfold subset_epoch.selected
  by_cases h : b = 1 <;> simp [List.filter_cons, h]

/-- As many ops are selected as the bitmap has entries equal to 1. -/
theorem subset_epoch.selected_length :
    ∀ (bm : List Nat) (ops : List epoch_op), bm.length ≤ ops.length →
      (subset_epoch.selected bm ops).length = bm.count 1 := by
  intro bm
  induction bm with
  | nil => intro ops _; simp [subset_epoch.selected_nil_left]
  | cons b bs ih =>
    intro ops h
    cases ops with
    | nil => simp at h
    | cons o os =>
      have h2 : bs.length ≤ os.length := by simpa using h
      rw [subset_epoch.selected_cons]
      by_cases hb : b = 1
      · rw [if_pos hb, hb, List.count_cons_self, List.length_cons, ih os h2]
      · rw [if_neg hb, List.count_cons_of_ne (fun h => hb h.symm), ih os h2]

/-- The selected ops are a subsequence of the first `s` ops when no entry from
position `s` on is 1. -/
theorem subset_epoch.selected_sublist :
    ∀ (bm : List Nat) (ops : List epoch_op) (s : Nat),
      (∀ j, bm[j]? = some 1 → j < s) →
      (subset_epoch.selected bm ops).Sublist (ops.take s) := by
  intro bm
  induction bm with
  | nil => intro ops s _; simp [subset_epoch.selected_nil_left]
  | cons b bs ih =>
    intro ops s h
    cases ops with
    | nil => simp [subset_epoch.selected]
    | cons o os =>
      rw [subset_epoch.selected_cons]
      have hrest : ∀ j, bs[j]? = some 1 → j < s - 1 := by
        intro j hj
        have := h (j + 1) (by simpa using hj)
        omega
      by_cases hb : b = 1
      · have hs : 0 < s := h 0 (by simp [hb])
        obtain ⟨t, rfl⟩ : ∃ t, s = t + 1 := ⟨s - 1, by omega⟩
        rw [if_pos hb, List.take_succ_cons]
        exact List.Sublist.cons₂ o (ih os t hrest)
      · rw [if_neg hb]
        cases s with
        | zero => simpa using ih os 0 hrest
        | succ t =>
          rw [List.take_succ_cons]
          exact List.Sublist.cons o (ih os t hrest)

/-- The loop over `filled` fills the output range with the selected ops when
there are exactly as many of them as the range is long. -/
theorem subset_epoch.place_spec (ops : List epoch_op) (post : List epoch_op) :
    ∀ (bm : List Nat) (filled : Nat) (pre mid : List epoch_op),
      bm.length + filled = ops.length →
      (subset_epoch.selected bm (ops.drop filled)).length = mid.length →
      subset_epoch.place ops (pre.length + mid.length) bm filled (pre ++ (mid ++ post))
          pre.length
        = some (pre ++ (subset_epoch.selected bm (ops.drop filled) ++ post),
            pre.length + mid.length) := by
  intro bm
  induction bm with
  | nil =>
    intro filled pre mid _ hsel
    rw [subset_epoch.selected_nil_left] at hsel
    have : mid = [] := List.length_eq_zero.1 hsel.symm
    subst this
    simp [subset_epoch.place, subset_epoch.selected_nil_left]
  | cons b bs ih =>
    intro filled pre mid hlen hsel
    have hf : filled < ops.length := by simp at hlen; omega
    have hdrop : ops.drop filled = ops[filled] :: ops.drop (filled + 1) :=
      List.drop_eq_getElem_cons hf
    have hget : ops[filled]? = some ops[filled] := List.getElem?_eq_getElem hf
    have hlen2 : bs.length + (filled + 1) = ops.length := by simp at hlen; omega
    rw [hdrop, subset_epoch.selected_cons] at hsel ⊢
    simp only [subset_epoch.place]
    cases mid with
    | nil =>
      have hnil : (if b = 1 then ops[filled] :: subset_epoch.selected bs (ops.drop (filled + 1))
          else subset_epoch.selected bs (ops.drop (filled + 1))) = [] :=
        List.length_eq_zero.1 (by simpa using hsel)
      simp [hnil]
    | cons m mid =>
      have hne : ¬ pre.length = pre.length + (m :: mid).length := by simp
      rw [if_neg hne]
      by_cases hb : b = 1
      · rw [if_pos hb] at hsel ⊢
        rw [if_pos hb, hget]
        have hlt : pre.length < (pre ++ (m :: mid ++ post)).length := by simp
        simp only []
        rw [if_pos hlt, set_middle]
        have hsel2 : (subset_epoch.selected bs (ops.drop (filled + 1))).length = mid.length := by
          simpa using hsel
        have := ih (filled + 1) (pre ++ [ops[filled]]) mid hlen2 hsel2
        simp only [List.length_append, List.length_cons, List.length_nil, Nat.zero_add]
          at this ⊢
        rw [show pre.length + (mid.length + 1) = pre.length + 1 + mid.length by omega, this]
        simp
      · rw [if_neg hb] at hsel ⊢
        rw [if_neg hb]
        have := ih (filled + 1) pre (m :: mid) hlen2 hsel
        simpa using this

/-- The marking loop sets exactly the bitmap entries named by the first
`req_size` shuffled indices, which are distinct and in range. -/
theorem subset_epoch.mark_spec (indices : List Nat) (n : Nat) (hnd : indices.Nodup)
    (hlt : ∀ j ∈ indices, j < n) :
    ∀ (k i : Nat) (bm : List Nat), i + k ≤ indices.length → bm.length = n →
      (∀ j, bm[j]? = some 1 ↔ j ∈ indices.take i) → bm.count 1 = i →
      ∃ bm2, subset_epoch.mark indices k i bm = some bm2 ∧ bm2.length = n ∧
        (∀ j, bm2[j]? = some 1 ↔ j ∈ indices.take (i + k)) ∧ bm2.count 1 = i + k := by
  intro k
  induction k with
  | zero =>
    intro i bm _ hlen hmem hcount
    exact ⟨bm, rfl, hlen, by simpa using hmem, by simpa using hcount⟩
  | succ k ih =>
    intro i bm hik hlen hmem hcount
    have hi : i < indices.length := by omega
    have hget : indices[i]? = some indices[i] := List.getElem?_eq_getElem hi
    have hj : indices[i] < bm.length := by
      rw [hlen]; exact hlt _ (List.getElem_mem hi)
    have hnot : indices[i] ∉ indices.take i := by
      intro h
      obtain ⟨a, ha, heq⟩ := List.mem_take_iff_getElem.1 h
      have ha2 : a < indices.length := by omega
      have := (@List.Nodup.getElem_inj_iff _ indices hnd a ha2 i hi).1 heq
      omega
    have hne : ¬ bm[indices[i]] = 1 := by
      intro h
      exact hnot ((hmem _).1 (by rw [List.getElem?_eq_getElem hj, h]))
    simp only [subset_epoch.mark, hget]
    rw [if_pos hj]
    obtain ⟨bm2, h1, h2, h3, h4⟩ := ih (i + 1) (bm.set indices[i] 1) (by omega)
      (by rw [List.length_set]; exact hlen)
      (by
        intro j
        rw [List.getElem?_set, List.take_succ, hget]
        simp only [Option.toList, List.mem_append, List.mem_singleton]
        by_cases hji : indices[i] = j
        · rw [if_pos hji, if_pos hj]
          simp [hji]
        · rw [if_neg hji, hmem j]
          constructor
          · intro h; exact Or.inl h
          · rintro (h | h)
            · exact h
            · exact absurd h.symm hji)
      (by
        rw [List.count_set _ _ _ _ hj, hcount]
        simp [hne])
    refine ⟨bm2, h1, h2, ?_, ?_⟩
    · intro j
      rw [h3 j, show i + 1 + k = i + (k + 1) by omega]
    · rw [h4]; omega

/-- `subset_epoch` on a range of `mid.length ≤ s` positions, with `indices` a
rearrangement of `0 .. s - 1` and `s` at most the number of ops: it fills the
range with a subsequence of the first `s` ops of the epoch and returns at the
early `return`. -/
theorem subset_epoch_spec (indices : List Nat) (e : epoch) (s : Nat)
    (hperm : indices.Perm (List.range s)) (hs : s ≤ e.ops.length)
    (pre mid post : List epoch_op) (hmid : mid.length ≤ s) :
    ∃ sub, subset_epoch indices (pre ++ (mid ++ post)) pre.length (pre.length + mid.length) e
        = some (pre ++ (sub ++ post), pre.length + mid.length, false) ∧
      sub.Sublist (e.ops.take s) ∧ sub.length = mid.length := by
  have hnd : indices.Nodup := hperm.nodup_iff.2 (List.nodup_range s)
  have hlt : ∀ j ∈ indices, j < s := fun j hj => List.mem_range.1 (hperm.mem_iff.1 hj)
  have hlen : indices.length = s := by rw [hperm.length_eq, List.length_range]
  obtain ⟨bm, hbm, hbl, hbmem, hbc⟩ :=
    subset_epoch.mark_spec indices e.ops.length hnd (fun j hj => by have := hlt j hj; omega)
      mid.length 0 (List.replicate e.ops.length 0) (by omega) (List.length_replicate _ _)
      (by
        intro j
        rw [List.getElem?_replicate]
        by_cases h : j < e.ops.length <;> simp [h])
      (by rw [List.count_replicate]; simp)
  simp only [Nat.zero_add] at hbmem hbc
  have hsel : (subset_epoch.selected bm (e.ops.drop 0)).length = mid.length := by
    rw [List.drop_zero, subset_epoch.selected_length bm e.ops (by omega), hbc]
  have hplace := subset_epoch.place_spec e.ops post bm 0 pre mid (by omega) hsel
  rw [List.drop_zero] at hplace
  refine ⟨subset_epoch.selected bm e.ops, ?_, ?_, by rw [← hsel, List.drop_zero]⟩
  · unfold subset_epoch
    have hreq : ¬ pre.length + mid.length - pre.length > e.ops.length := by omega
    rw [if_neg hreq]
    simp only [Nat.add_sub_cancel_left, hbm, hplace, if_true]
  · refine subset_epoch.selected_sublist bm e.ops s ?_
    intro j hj
    exact hlt j (List.mem_of_mem_take ((hbmem j).1 hj))

theorem resize_length {α : Type} (l : List α) (n : Nat) (d : α) :
    (resize l n d).length = n := by
  unfold resize
  rw [List.length_append, List.length_take, List.length_replicate]
  omega

/-- The epochs before the target are copied whole, one after the other. -/
theorem gen_one_state.emit_prefix (ne nr : Nat) (target : epoch) (indices : List Nat) :
    ∀ (es tail : List epoch) (i : Nat) (pre mid post : List epoch_op),
      i + es.length ≤ ne - 1 → mid.length = (es.map (fun e => e.ops.length)).sum →
      gen_one_state.emit ne nr target indices (es ++ tail) i (pre ++ (mid ++ post)) pre.length
        = gen_one_state.emit ne nr target indices tail (i + es.length)
            ((pre ++ (es.map (fun e => e.ops)).flatten) ++ post)
            (pre ++ (es.map (fun e => e.ops)).flatten).length := by
  intro es
  induction es with
  | nil =>
    intro tail i pre mid post _ hmid
    have : mid = [] := List.length_eq_zero.1 (by simpa using hmid)
    subst this
    simp
  | cons e es ih =>
    intro tail i pre mid post hi hmid
    simp only [List.map_cons, List.sum_cons, List.length_cons] at hmid hi
    have hcond : ¬ (i = ne - 1 ∧ nr < target.ops.length) := by
      intro h; omega
    have hsplit : mid = mid.take e.ops.length ++ mid.drop e.ops.length :=
      (List.take_append_drop _ _).symm
    have h1 : (mid.take e.ops.length).length = e.ops.length := by
      rw [List.length_take]; omega
    have h2 : (mid.drop e.ops.length).length = (es.map (fun e => e.ops.length)).sum := by
      rw [List.length_drop]; omega
    have hcopy := gen_one_state.copy_spec e.ops pre (mid.take e.ops.length)
      (mid.drop e.ops.length ++ post) h1
    rw [← List.append_assoc (mid.take e.ops.length), ← hsplit] at hcopy
    rw [List.cons_append, gen_one_state.emit, if_neg hcond, hcopy]
    have := ih tail (i + 1) (pre ++ e.ops) (mid.drop e.ops.length) post (by omega) h2
    simp only [List.length_append, List.append_assoc] at this
    simp only [this, List.map_cons, List.flatten_cons, List.length_cons, List.length_append,
      List.append_assoc]
    rw [show i + 1 + es.length = i + (es.length + 1) by omega]

/-- The target epoch when it is emitted whole. -/
theorem gen_one_state.emit_last_whole (ne nr : Nat) (target : epoch) (indices : List Nat)
    (e : epoch) (i : Nat) (pre mid : List epoch_op)
    (hcond : ¬ (i = ne - 1 ∧ nr < target.ops.length)) (hmid : mid.length = e.ops.length) :
    gen_one_state.emit ne nr target indices [e] i (pre ++ mid) pre.length
      = some (pre ++ e.ops, pre.length + e.ops.length) := by
  have hcopy := gen_one_state.copy_spec e.ops pre mid [] hmid
  simp only [List.append_nil] at hcopy
  simp only [gen_one_state.emit, if_neg hcond, hcopy]

/-- The target epoch when only `num_requests` of its ops are emitted. -/
theorem gen_one_state.emit_last_subset (ne nr : Nat) (target : epoch) (indices : List Nat)
    (i : Nat) (pre mid : List epoch_op)
    (hi : i = ne - 1) (hnr : nr < target.ops.length) (hmid : mid.length = nr)
    (hperm : indices.Perm (List.range (slots target))) :
    ∃ sub, gen_one_state.emit ne nr target indices [target] i (pre ++ mid) pre.length
        = some (pre ++ sub, pre.length + nr) ∧
      sub.Sublist (target.ops.take (slots target)) ∧ sub.length = nr := by
  have hs : slots target ≤ target.ops.length := by
    unfold slots; split <;> [split; skip] <;> omega
  have hms : mid.length ≤ slots target := by
    unfold slots; split <;> [split; skip] <;> omega
  obtain ⟨sub, hsub, hsl, hlen⟩ :=
    subset_epoch_spec indices target (slots target) hperm hs pre mid [] hms
  simp only [List.append_nil, hmid] at hsub
  refine ⟨sub, ?_, hsl, by rw [hlen, hmid]⟩
  have hcond : i = ne - 1 ∧ nr < target.ops.length := ⟨hi, hnr⟩
  simp only [gen_one_state.emit, if_pos hcond, hsub]

/-- What one `gen_one_state` call returns on a non-empty list of epochs, for
every outcome of its draws: `true`, the state made of the epochs before the
target followed by `sub` (the whole target, or a subsequence of its first
`slots` ops), and the log record holding the `abs_index` projection of the
state. -/
theorem gen_one_state_spec (epochs : List epoch) (d : Draws) (res : List epoch_op)
    (log_data : PermuteTestResult) (target : epoch)
    (hne1 : 1 ≤ d.num_epochs)
    (htarget : epochs[d.num_epochs - 1]? = some target)
    (hreq : target.ops.length ≠ 0 →
      1 ≤ d.num_requests ∧ d.num_requests ≤ target.ops.length)
    (hshuffle : d.num_requests < target.ops.length →
      d.indices.Perm (List.range (slots target))) :
    ∃ (sub : List epoch_op) (lc : Int),
      gen_one_state epochs d res log_data
        = some (true,
            ((epochs.take (d.num_epochs - 1)).map (fun e => e.ops)).flatten ++ sub,
            { crash_state :=
                (((epochs.take (d.num_epochs - 1)).map (fun e => e.ops)).flatten ++ sub).map
                  epoch_op.abs_index,
              last_checkpoint := lc }) ∧
      sub.length = (if target.ops.length = 0 then 0 else d.num_requests) ∧
      ((if target.ops.length = 0 then 0 else d.num_requests) = target.ops.length →
        sub = target.ops ∧ lc = toSigned target.checkpoint_epoch) ∧
      ((if target.ops.length = 0 then 0 else d.num_requests) ≠ target.ops.length →
        sub.Sublist (target.ops.take (slots target)) ∧
        (d.num_epochs ≤ 1 → lc = 0) ∧
        (∀ prev, 1 < d.num_epochs → epochs[d.num_epochs - 2]? = some prev →
          lc = toSigned prev.checkpoint_epoch)) := by
  obtain ⟨hlt, -⟩ := List.getElem?_eq_some.1 htarget
  have hlen0 : ¬ epochs.length = 0 := by omega
  have hrange : ¬ (d.num_epochs < 1 ∨ epochs.length < d.num_epochs) := by omega
  have hdraw : ¬ (target.ops.length ≠ 0 ∧
      (d.num_requests < 1 ∨ target.ops.length < d.num_requests)) := by
    rintro ⟨h0, h⟩
    have := hreq h0
    omega
  have htake : epochs.take d.num_epochs = epochs.take (d.num_epochs - 1) ++ [target] := by
    have := @List.take_succ _ epochs (d.num_epochs - 1)
    rw [htarget, show d.num_epochs - 1 + 1 = d.num_epochs by omega] at this
    simpa using this
  generalize hnr : (if target.ops.length = 0 then 0 else d.num_requests) = nr
  have hnrle : nr ≤ target.ops.length := by
    rw [← hnr]; split
    · omega
    · exact (hreq ‹_›).2
  generalize hfront : epochs.take (d.num_epochs - 1) = front at htake
  have hfl : front.length = d.num_epochs - 1 := by
    rw [← hfront, List.length_take]; omega
  generalize htotal : (front.map (fun e => e.ops.length)).sum + nr = total
  -- the output vector after `resize`, split at the start of the target epoch
  generalize hres0 : resize res total epoch_op.default = res0
  have hres0len : res0.length = total := by rw [← hres0, resize_length]
  have hsplit : res0 = [] ++ (res0.take (total - nr) ++ res0.drop (total - nr)) := by simp
  have hm1 : (res0.take (total - nr)).length = (front.map (fun e => e.ops.length)).sum := by
    rw [List.length_take]; omega
  have hm2 : (res0.drop (total - nr)).length = nr := by
    rw [List.length_drop]; omega
  have hpre := gen_one_state.emit_prefix d.num_epochs nr target d.indices front [target] 0 []
    (res0.take (total - nr)) (res0.drop (total - nr)) (by omega) hm1
  rw [← hsplit] at hpre
  simp only [List.nil_append, Nat.zero_add, List.length_nil] at hpre
  -- the target epoch
  have hlast : ∃ sub, gen_one_state.emit d.num_epochs nr target d.indices [target] front.length
        ((front.map (fun e => e.ops)).flatten ++ res0.drop (total - nr))
        ((front.map (fun e => e.ops)).flatten).length
        = some ((front.map (fun e => e.ops)).flatten ++ sub,
            ((front.map (fun e => e.ops)).flatten).length + nr) ∧
      sub.length = nr ∧ (nr = target.ops.length → sub = target.ops) ∧
      (nr ≠ target.ops.length → sub.Sublist (target.ops.take (slots target))) := by
    by_cases hfull : nr = target.ops.length
    · refine ⟨target.ops, ?_, hfull.symm, fun _ => rfl, fun h => absurd hfull h⟩
      rw [gen_one_state.emit_last_whole d.num_epochs nr target d.indices target front.length _
        (res0.drop (total - nr)) (by omega) (by omega), hfull]
    · have hnrlt : nr < target.ops.length := by omega
      have hd : d.num_requests = nr := by
        rw [← hnr]; rw [if_neg (by omega)]
      obtain ⟨sub, h1, h2, h3⟩ := gen_one_state.emit_last_subset d.num_epochs nr target d.indices
        front.length ((front.map (fun e => e.ops)).flatten) (res0.drop (total - nr)) hfl hnrlt hm2
        (hshuffle (by omega))
      exact ⟨sub, h1, h3, fun h => absurd h hfull, fun _ => h2⟩
  obtain ⟨sub, hemit, hsublen, hwhole, hpart⟩ := hlast
  have hout : ((front.map (fun e => e.ops)).flatten ++ sub).length = total := by
    rw [List.length_append, List.length_flatten, List.map_map, hsublen, ← htotal]
    rfl
  -- the logging loop
  generalize hcs0 : resize log_data.crash_state total 0 = cs0
  have hcs0len : cs0.length = total := by rw [← hcs0, resize_length]
  have hlog := gen_one_state.log_spec ((front.map (fun e => e.ops)).flatten ++ sub) [] cs0 []
    (by rw [hcs0len, hout])
  simp only [List.nil_append, List.append_nil, List.length_nil] at hlog
  -- the checkpoint reported
  have hlc : ∃ lc : Int,
      (if nr ≠ target.ops.length then
        (if d.num_epochs > 1 then
          (epochs[d.num_epochs - 2]?).map (fun prev => toSigned prev.checkpoint_epoch)
         else some 0)
       else some (toSigned target.checkpoint_epoch)) = some lc ∧
      (nr = target.ops.length → lc = toSigned target.checkpoint_epoch) ∧
      (nr ≠ target.ops.length → (d.num_epochs ≤ 1 → lc = 0) ∧
        (∀ prev, 1 < d.num_epochs → epochs[d.num_epochs - 2]? = some prev →
          lc = toSigned prev.checkpoint_epoch)) := by
    by_cases hfull : nr = target.ops.length
    · refine ⟨_, ?_, fun _ => rfl, fun h => absurd hfull h⟩
      rw [if_neg (by simpa using hfull)]
    · by_cases hone : d.num_epochs > 1
      · have hp : d.num_epochs - 2 < epochs.length := by omega
        refine ⟨toSigned epochs[d.num_epochs - 2].checkpoint_epoch, ?_,
          fun h => absurd h hfull, fun _ => ⟨fun h => by omega, ?_⟩⟩
        · rw [if_pos hfull, if_pos hone, List.getElem?_eq_getElem hp]; rfl
        · intro prev _ hprev
          rw [List.getElem?_eq_getElem hp] at hprev
          injection hprev with hprev
          rw [hprev]
      · refine ⟨0, ?_, fun h => absurd h hfull, fun _ => ⟨fun _ => rfl, fun _ h => by omega⟩⟩
        rw [if_pos hfull, if_neg hone]
  obtain ⟨lc, hlceq, hlc1, hlc2⟩ := hlc
  refine ⟨sub, lc, ?_, hsublen, fun h => ⟨hwhole h, hlc1 h⟩, fun h => ⟨hpart h, hlc2 h⟩⟩
  unfold gen_one_state
  rw [if_neg hlen0, if_neg hrange]
  simp only [htarget]
  rw [if_neg hdraw]
  simp only [hnr, hfront, htotal, hres0, hcs0, hlceq, htake, hpre, hemit, hlog]

/-- C3. For every list of epochs that has an epoch `target` at position
`num_epochs - 1` (so the list is non-empty and `num_epochs` is in `[1, E]`),
every `num_requests` in `[1, |target.ops|]` (0 when the target is empty) and
every shuffle of the slots, `gen_one_state` returns `true` and writes the state
`epochs[0].ops ++ ... ++ epochs[num_epochs-2].ops ++ sub`, where `sub` is all of
`target.ops` when `num_requests = |target.ops|`, and otherwise consists of
exactly `num_requests` ops that form a subsequence of `target.ops` in original
order, taken among its first `slots` ops, hence without the last op when
`has_barrier` is set. -/
theorem gen_one_state_state (epochs : List epoch) (d : Draws) (res : List epoch_op)
    (log_data : PermuteTestResult) (target : epoch)
    (hne1 : 1 ≤ d.num_epochs)
    (htarget : epochs[d.num_epochs - 1]? = some target)
    (hreq : target.ops.length ≠ 0 →
      1 ≤ d.num_requests ∧ d.num_requests ≤ target.ops.length)
    (hshuffle : d.num_requests < target.ops.length →
      d.indices.Perm (List.range (slots target))) :
    epochs ≠ [] ∧ d.num_epochs ≤ epochs.length ∧
    ∃ (sub : List epoch_op) (log_out : PermuteTestResult),
      gen_one_state epochs d res log_data
        = some (true,
            ((epochs.take (d.num_epochs - 1)).map (fun e => e.ops)).flatten ++ sub,
            log_out) ∧
      ((if target.ops.length = 0 then 0 else d.num_requests) = target.ops.length →
        sub = target.ops) ∧
      ((if target.ops.length = 0 then 0 else d.num_requests) ≠ target.ops.length →
        sub.length = d.num_requests ∧ sub.Sublist target.ops ∧
        sub.Sublist (target.ops.take (slots target)) ∧
        (target.has_barrier = true → sub.Sublist target.ops.dropLast)) := by
  obtain ⟨hlt, -⟩ := List.getElem?_eq_some.1 htarget
  refine ⟨?_, by omega, ?_⟩
  · intro h; rw [h] at hlt; simp at hlt
  obtain ⟨sub, lc, hgen, hlen, hwhole, hpart⟩ :=
    gen_one_state_spec epochs d res log_data target hne1 htarget hreq hshuffle
  refine ⟨sub, _, hgen, fun h => (hwhole h).1, ?_⟩
  intro h
  have hsl := (hpart h).1
  have hops : target.ops.length ≠ 0 := by
    intro h0; rw [if_pos h0] at h; exact h h0.symm
  refine ⟨by rw [hlen, if_neg hops], hsl.trans (List.take_sublist _ _), hsl, ?_⟩
  intro hb
  have hslots : slots target = target.ops.length - 1 := by
    unfold slots; rw [if_pos hb, if_neg hops]
  rw [List.dropLast_eq_take, ← hslots]
  exact hsl

theorem gen_one_state_state_witness :
    (1 ≤ (Draws.mk 2 1 [1, 0]).num_epochs ∧
      [epoch_A, epoch_B][(Draws.mk 2 1 [1, 0]).num_epochs - 1]? = some epoch_B) ∧
    ([epoch_A, epoch_B] ≠ [] ∧ (Draws.mk 2 1 [1, 0]).num_epochs ≤ [epoch_A, epoch_B].length ∧
    ∃ (sub : List epoch_op) (log_out : PermuteTestResult),
      gen_one_state [epoch_A, epoch_B] (Draws.mk 2 1 [1, 0]) []
          { crash_state := [], last_checkpoint := 0 }
        = some (true,
            (([epoch_A, epoch_B].take ((Draws.mk 2 1 [1, 0]).num_epochs - 1)).map
              (fun e => e.ops)).flatten ++ sub,
            log_out) ∧
      ((if epoch_B.ops.length = 0 then 0 else (Draws.mk 2 1 [1, 0]).num_requests)
          = epoch_B.ops.length → sub = epoch_B.ops) ∧
      ((if epoch_B.ops.length = 0 then 0 else (Draws.mk 2 1 [1, 0]).num_requests)
          ≠ epoch_B.ops.length →
        sub.length = (Draws.mk 2 1 [1, 0]).num_requests ∧ sub.Sublist epoch_B.ops ∧
        sub.Sublist (epoch_B.ops.take (slots epoch_B)) ∧
        (epoch_B.has_barrier = true → sub.Sublist epoch_B.ops.dropLast))) :=
  ⟨⟨by decide, by decide⟩,
   gen_one_state_state [epoch_A, epoch_B] (Draws.mk 2 1 [1, 0]) []
     { crash_state := [], last_checkpoint := 0 } epoch_B (by decide) (by decide)
     (fun _ => by decide) (fun _ => by decide)⟩

/-- C5. Whenever `gen_one_state` returns `true` (which it does on every list of
epochs with an epoch `target` at position `num_epochs - 1`, for every outcome
of the draws), `res` and `log_data.crash_state` both have length
`total = (sum of |epochs[i].ops| for i < num_epochs - 1) + num_requests`, and
`crash_state[i] = res[i].abs_index` for every `i < total`: the `abs_index`
projection of the state is the logged `crash_state`. -/
theorem gen_one_state_crash_state (epochs : List epoch) (d : Draws) (res : List epoch_op)
    (log_data : PermuteTestResult) (target : epoch)
    (hne1 : 1 ≤ d.num_epochs)
    (htarget : epochs[d.num_epochs - 1]? = some target)
    (hreq : target.ops.length ≠ 0 →
      1 ≤ d.num_requests ∧ d.num_requests ≤ target.ops.length)
    (hshuffle : d.num_requests < target.ops.length →
      d.indices.Perm (List.range (slots target))) :
    ∃ (res_out : List epoch_op) (log_out : PermuteTestResult),
      gen_one_state epochs d res log_data = some (true, res_out, log_out) ∧
      res_out.length
        = ((epochs.take (d.num_epochs - 1)).map (fun e => e.ops.length)).sum
          + (if target.ops.length = 0 then 0 else d.num_requests) ∧
      log_out.crash_state.length = res_out.length ∧
      (∀ i, i < res_out.length →
        log_out.crash_state[i]? = (res_out[i]?).map epoch_op.abs_index) ∧
      log_out.crash_state = res_out.map epoch_op.abs_index := by
  obtain ⟨sub, lc, hgen, hlen, -, -⟩ :=
    gen_one_state_spec epochs d res log_data target hne1 htarget hreq hshuffle
  refine ⟨_, _, hgen, ?_, by simp only [List.length_map], ?_, rfl⟩
  · rw [List.length_append, List.length_flatten, List.map_map, hlen]
    rfl
  · intro i _
    simp only [List.getElem?_map]

theorem gen_one_state_crash_state_witness :
    (1 ≤ (Draws.mk 2 2 [0, 1]).num_epochs ∧
      [epoch_A, epoch_B][(Draws.mk 2 2 [0, 1]).num_epochs - 1]? = some epoch_B) ∧
    ∃ (res_out : List epoch_op) (log_out : PermuteTestResult),
      gen_one_state [epoch_A, epoch_B] (Draws.mk 2 2 [0, 1])
          [{ abs_index := 9, op := bio_B }] { crash_state := [7, 7], last_checkpoint := 0 }
        = some (true, res_out, log_out) ∧
      res_out.length
        = (([epoch_A, epoch_B].take ((Draws.mk 2 2 [0, 1]).num_epochs - 1)).map
            (fun e => e.ops.length)).sum
          + (if epoch_B.ops.length = 0 then 0 else (Draws.mk 2 2 [0, 1]).num_requests) ∧
      log_out.crash_state.length = res_out.length ∧
      (∀ i, i < res_out.length →
        log_out.crash_state[i]? = (res_out[i]?).map epoch_op.abs_index) ∧
      log_out.crash_state = res_out.map epoch_op.abs_index :=
  ⟨⟨by decide, by decide⟩,
   gen_one_state_crash_state [epoch_A, epoch_B] (Draws.mk 2 2 [0, 1])
     [{ abs_index := 9, op := bio_B }] { crash_state := [7, 7], last_checkpoint := 0 }
     epoch_B (by decide) (by decide) (fun _ => by decide) (fun _ => by decide)⟩

/-! ### The epoch builder on a trace cut in two -/

/-- Scanning the records `pre` that come before a non-empty rest of the trace
leaves the builder at the head of the inner loop on that rest; `abs_index` has
advanced by one per record and one epoch was pushed per barrier. -/
theorem InitDataVector.scan_prefix :
    ∀ (pre : List disk_write) (v : BuildVars) (current_epoch : epoch) (rest : List disk_write),
      rest ≠ [] →
      ∃ (v2 : BuildVars) (cur2 : epoch) (es : List epoch),
        InitDataVector.scan v current_epoch (pre ++ rest) = InitDataVector.scan v2 cur2 rest ∧
        v2.abs_index % 2 ^ 32 = (v.abs_index + pre.length) % 2 ^ 32 ∧
        (v.abs_index < 2 ^ 32 → v2.abs_index < 2 ^ 32) ∧
        v2.epochs_ = v.epochs_ ++ es ∧
        es.length = pre.countP (fun w => w.is_barrier_write) ∧
        (current_epoch.has_barrier = false → cur2.has_barrier = false) := by
  intro pre
  induction pre with
  | nil =>
    intro v cur rest _
    exact ⟨v, cur, [], rfl, by simp, fun h => h, by simp, rfl, fun h => h⟩
  | cons w pre ih =>
    intro v cur rest hrest
    have hne : (pre ++ rest).isEmpty = false := by
      cases pre <;> cases rest <;> simp_all
    have hmod : (v.abs_index + 1) % 2 ^ 32 < 2 ^ 32 := Nat.mod_lt _ (by norm_num)
    have habs : ∀ a : Nat, a % 2 ^ 32 = ((v.abs_index + 1) % 2 ^ 32 + pre.length) % 2 ^ 32 →
        a % 2 ^ 32 = (v.abs_index + (w :: pre).length) % 2 ^ 32 := by
      intro a ha
      rw [ha, List.length_cons]
      omega
    rw [List.cons_append]
    by_cases hb : w.is_barrier_write = true
    · rw [List.countP_cons_of_pos _ _ hb]
      by_cases hs : is_split_barrier w = true
      · simp only [InitDataVector.scan, hb, hs, hne, if_true, Bool.false_eq_true, if_false]
        obtain ⟨v2, cur2, es, h1, h2, h3, h4, h5, h6⟩ := ih _ (new_epoch _) rest hrest
        exact ⟨v2, cur2, _, h1, habs _ h2, fun _ => h3 hmod,
          h4.trans (List.append_assoc _ _ _), by simp [h5], fun _ => h6 rfl⟩
      · simp only [InitDataVector.scan, hb, hs, hne, if_true, Bool.false_eq_true, if_false]
        obtain ⟨v2, cur2, es, h1, h2, h3, h4, h5, h6⟩ := ih _ (new_epoch _) rest hrest
        exact ⟨v2, cur2, _, h1, habs _ h2, fun _ => h3 hmod,
          h4.trans (List.append_assoc _ _ _), by simp [h5], fun _ => h6 rfl⟩
    · rw [List.countP_cons_of_neg _ _ hb]
      by_cases hc : w.is_checkpoint = true
      · simp only [InitDataVector.scan, hb, hc, if_true, if_false]
        obtain ⟨v2, cur2, es, h1, h2, h3, h4, h5, h6⟩ := ih _ _ rest hrest
        exact ⟨v2, cur2, es, h1, habs _ h2, fun _ => h3 hmod, h4, h5, fun h => h6 h⟩
      · simp only [InitDataVector.scan, hb, hc, if_false]
        obtain ⟨v2, cur2, es, h1, h2, h3, h4, h5, h6⟩ := ih _ _ rest hrest
        refine ⟨v2, cur2, es, h1, habs _ h2, fun _ => h3 hmod, h4, h5, fun h => h6 ?_⟩
        simp only
        split <;> exact h

/-- Scanning always pushes the epoch under construction (possibly with more
ops appended to it) right after the epochs pushed so far. -/
theorem InitDataVector.scan_epochs :
    ∀ (data : List disk_write) (v : BuildVars) (current_epoch : epoch),
      ∃ (e : epoch) (es : List epoch) (ops2 : List epoch_op),
        (InitDataVector.scan v current_epoch data).epochs_ = v.epochs_ ++ e :: es ∧
        e.ops = current_epoch.ops ++ ops2 := by
  intro data
  induction data with
  | nil =>
    intro v cur
    exact ⟨cur, [], [], rfl, by simp⟩
  | cons w rest ih =>
    intro v cur
    simp only [InitDataVector.scan]
    split_ifs with h1 h2 h3 h4 h5 h6
    · exact ⟨_, [], _, rfl, rfl⟩
    · obtain ⟨e, es, ops2, h, -⟩ := ih _ (new_epoch _)
      exact ⟨_, _, _, h.trans (List.append_assoc _ _ _), rfl⟩
    · exact ⟨_, [], _, rfl, rfl⟩
    · obtain ⟨e, es, ops2, h, -⟩ := ih _ (new_epoch _)
      exact ⟨_, _, _, h.trans (List.append_assoc _ _ _), rfl⟩
    · obtain ⟨e, es, ops2, h, hops⟩ := ih _ _
      exact ⟨e, es, ops2, h, hops⟩
    · obtain ⟨e, es, ops2, h, hops⟩ := ih _ _
      exact ⟨e, es, ({ abs_index := v.abs_index, op := v.data_half } : epoch_op)
        :: { abs_index := v.abs_index, op := w } :: ops2, h, by rw [hops]; simp⟩
    · obtain ⟨e, es, ops2, h, hops⟩ := ih _ _
      exact ⟨e, es, _, h, hops.trans (List.append_assoc _ _ _)⟩

/-- Checkpoint records only move the counters: nothing is pushed, no op is
appended, and a pending data half stays pending. -/
theorem InitDataVector.scan_checkpoints :
    ∀ (cps : List disk_write) (v : BuildVars) (current_epoch : epoch) (rest : List disk_write),
      (∀ c ∈ cps, c.is_barrier_write = false ∧ c.is_checkpoint = true) →
      ∃ (v2 : BuildVars) (cur2 : epoch),
        InitDataVector.scan v current_epoch (cps ++ rest) = InitDataVector.scan v2 cur2 rest ∧
        v2.epochs_ = v.epochs_ ∧ v2.prev_epoch_flush_op = v.prev_epoch_flush_op ∧
        v2.data_half = v.data_half ∧ cur2.ops = current_epoch.ops ∧
        v2.abs_index % 2 ^ 32 = (v.abs_index + cps.length) % 2 ^ 32 ∧
        (v.abs_index < 2 ^ 32 → v2.abs_index < 2 ^ 32) := by
  intro cps
  induction cps with
  | nil =>
    intro v cur rest _
    exact ⟨v, cur, rfl, rfl, rfl, rfl, rfl, by simp, fun h => h⟩
  | cons c cps ih =>
    intro v cur rest hall
    obtain ⟨hb, hc⟩ := hall c (List.mem_cons_self _ _)
    have hmod : (v.abs_index + 1) % 2 ^ 32 < 2 ^ 32 := Nat.mod_lt _ (by norm_num)
    rw [List.cons_append]
    simp only [InitDataVector.scan, hb, hc, if_true, Bool.false_eq_true, if_false]
    obtain ⟨v2, cur2, h1, h2, h3, h4, h5, h6, h7⟩ :=
      ih _ _ rest (fun c hc => hall c (List.mem_cons_of_mem _ hc))
    refine ⟨v2, cur2, h1, h2, h3, h4, h5, ?_, fun _ => h7 hmod⟩
    rw [h6, List.length_cons]
    simp only
    omega

/-- For every trace, the epoch pushed when a split barrier `b` is met ends with
the flag half of `b`, at the `abs_index` that is the position of `b` in the
trace, and carries `has_barrier = false`. -/
theorem InitDataVector_split_epoch (pre rest : List disk_write) (b : disk_write)
    (hb : b.is_barrier_write = true) (hsplit : is_split_barrier b = true) :
    ∃ (es : List epoch) (e1 : epoch) (es2 : List epoch) (ops1 : List epoch_op),
      InitDataVector (pre ++ b :: rest) = es ++ e1 :: es2 ∧
      es.length = pre.countP (fun w => w.is_barrier_write) ∧
      e1.ops = ops1 ++ [{ abs_index := pre.length % 2 ^ 32, op := split_flag_half b }] ∧
      e1.has_barrier = false := by
  have hne : (pre ++ b :: rest).isEmpty = false := by
    cases pre <;> simp
  obtain ⟨v2, cur2, es, h1, h2, h3, h4, h5, h6⟩ :=
    InitDataVector.scan_prefix pre InitDataVector.init (new_epoch InitDataVector.init)
      (b :: rest) (by simp)
  have hv2 : v2.abs_index = pre.length % 2 ^ 32 := by
    have hlt := h3 (by decide)
    have : InitDataVector.init.abs_index = 0 := rfl
    rw [this, Nat.zero_add] at h2
    rw [← h2, Nat.mod_eq_of_lt hlt]
  have hes : v2.epochs_ = es := by rw [h4]; rfl
  have hcur : cur2.has_barrier = false := h6 rfl
  unfold InitDataVector
  rw [hne, h1]
  simp only [Bool.false_eq_true, if_false, InitDataVector.scan, hb, hsplit, if_true]
  by_cases hrest : rest.isEmpty = true
  · rw [if_pos hrest]
    exact ⟨es,
      { cur2 with
        ops := cur2.ops ++ [{ abs_index := pre.length % 2 ^ 32, op := split_flag_half b }] },
      [], cur2.ops, by simp only [hes, hv2], h5, rfl, hcur⟩
  · rw [if_neg hrest]
    obtain ⟨e, es2, ops2, k1, -⟩ := InitDataVector.scan_epochs rest _ (new_epoch _)
    rw [k1]
    exact ⟨es,
      { cur2 with
        ops := cur2.ops ++ [{ abs_index := pre.length % 2 ^ 32, op := split_flag_half b }] },
      e :: es2, cur2.ops,
      by simp only [hes, hv2, List.append_assoc, List.singleton_append], h5, rfl, hcur⟩

/-- C8 (amended). For every trace in which a split flush+data barrier `b` is
followed, after zero or more checkpoint records `cps`, by a record `x` that is
neither a barrier nor a checkpoint: the epoch that ends with the flag half of
`b` (at `abs_index` = position of `b` in the trace, modulo 2^32) is directly
followed by an epoch whose first op is the data half of `b`, and the data half
carries the `abs_index` of the op `x` that comes right after it, which is the
flag half's `abs_index` + 1 + the number of the checkpoint records in between
(modulo 2^32). -/
theorem InitDataVector_data_half (pre cps post : List disk_write) (b x : disk_write)
    (hb : b.is_barrier_write = true) (hsplit : is_split_barrier b = true)
    (hcps : ∀ c ∈ cps, c.is_barrier_write = false ∧ c.is_checkpoint = true)
    (hxb : x.is_barrier_write = false) (hxc : x.is_checkpoint = false) :
    ∃ (es : List epoch) (e1 e2 : epoch) (es2 : List epoch) (ops1 ops2 : List epoch_op),
      InitDataVector (pre ++ b :: (cps ++ x :: post)) = es ++ e1 :: e2 :: es2 ∧
      es.length = pre.countP (fun w => w.is_barrier_write) ∧
      e1.ops = ops1 ++ [{ abs_index := pre.length % 2 ^ 32, op := split_flag_half b }] ∧
      e2.ops = { abs_index := (pre.length + 1 + cps.length) % 2 ^ 32, op := split_data_half b }
        :: { abs_index := (pre.length + 1 + cps.length) % 2 ^ 32, op := x } :: ops2 := by
  have hne : (pre ++ b :: (cps ++ x :: post)).isEmpty = false := by
    cases pre <;> simp
  have hne2 : (cps ++ x :: post).isEmpty = false := by
    cases cps <;> simp
  obtain ⟨v2, cur2, es, h1, h2, h3, h4, h5, -⟩ :=
    InitDataVector.scan_prefix pre InitDataVector.init (new_epoch InitDataVector.init)
      (b :: (cps ++ x :: post)) (by simp)
  have hv2 : v2.abs_index = pre.length % 2 ^ 32 := by
    have hlt := h3 (by decide)
    have : InitDataVector.init.abs_index = 0 := rfl
    rw [this, Nat.zero_add] at h2
    rw [← h2, Nat.mod_eq_of_lt hlt]
  have hes : v2.epochs_ = es := by rw [h4]; rfl
  unfold InitDataVector
  rw [hne, h1]
  simp only [Bool.false_eq_true, if_false, InitDataVector.scan, hb, hsplit, if_true, hne2]
  obtain ⟨v3, cur3, g1, g2, g3, g4, g5, g6, g7⟩ :=
    InitDataVector.scan_checkpoints cps _ (new_epoch _) (x :: post) hcps
  rw [g1]
  simp only [InitDataVector.scan, hxb, hxc, Bool.false_eq_true, if_false]
  obtain ⟨e, es2, ops2, k1, k2⟩ := InitDataVector.scan_epochs post _ _
  rw [k1]
  simp only at g2 g3 g4 g5 g6 g7
  have hv3 : v3.abs_index = (pre.length + 1 + cps.length) % 2 ^ 32 := by
    have hlt := g7 (Nat.mod_lt _ (by norm_num))
    omega
  have hcur3 : cur3.ops = [] := g5
  simp only [g3, if_true, hcur3, g4, hv3, List.nil_append] at k2
  refine ⟨es,
    { cur2 with
      ops := cur2.ops ++ [{ abs_index := pre.length % 2 ^ 32, op := split_flag_half b }] },
    e, es2, cur2.ops, ops2, ?_, h5, rfl, ?_⟩
  · simp only [g2, hes, hv2, List.append_assoc, List.singleton_append]
  · rw [k2]; rfl

theorem InitDataVector_data_half_witness :
    ((bio_WBF 8 512).is_barrier_write = true ∧ is_split_barrier (bio_WBF 8 512) = true ∧
      (∀ c ∈ [bio_C], c.is_barrier_write = false ∧ c.is_checkpoint = true) ∧
      (bio_W 16 512).is_barrier_write = false ∧ (bio_W 16 512).is_checkpoint = false) ∧
    ∃ (es : List epoch) (e1 e2 : epoch) (es2 : List epoch) (ops1 ops2 : List epoch_op),
      InitDataVector ([bio_W 0 512] ++ bio_WBF 8 512 :: ([bio_C] ++ bio_W 16 512 :: []))
        = es ++ e1 :: e2 :: es2 ∧
      es.length = [bio_W 0 512].countP (fun w => w.is_barrier_write) ∧
      e1.ops = ops1 ++ [{ abs_index := [bio_W 0 512].length % 2 ^ 32,
                          op := split_flag_half (bio_WBF 8 512) }] ∧
      e2.ops = { abs_index := ([bio_W 0 512].length + 1 + [bio_C].length) % 2 ^ 32,
                 op := split_data_half (bio_WBF 8 512) }
        :: { abs_index := ([bio_W 0 512].length + 1 + [bio_C].length) % 2 ^ 32,
             op := bio_W 16 512 } :: ops2 :=
  ⟨by decide,
   InitDataVector_data_half [bio_W 0 512] [bio_C] [] (bio_WBF 8 512) (bio_W 16 512)
     (by decide) (by decide) (by decide) (by decide) (by decide)⟩

/-- C8 (as stated it fails). On `[W] 0 512`, `[W,B,F] 8 512`, `[W] 16 512` the
epoch after the one that ends with the flag half starts with the data half,
but the flag half has `abs_index` 1 and the data half has `abs_index` 2: no
index is shared by the two. On scenario S1 alone there is no second epoch. -/
theorem InitDataVector_data_half_other_index :
    (¬ ∃ (e0 e1 : epoch) (rest : List epoch) (i : Nat),
        InitDataVector trace_S1_then_write = e0 :: e1 :: rest ∧
        e0.ops.getLast? = some { abs_index := i, op := split_flag_half (bio_WBF 8 512) } ∧
        e1.ops.head? = some { abs_index := i, op := split_data_half (bio_WBF 8 512) }) ∧
    (InitDataVector trace_S1_then_write).map (fun e => e.ops)
      = [[{ abs_index := 0, op := bio_W 0 512 },
          { abs_index := 1, op := split_flag_half (bio_WBF 8 512) }],
         [{ abs_index := 2, op := split_data_half (bio_WBF 8 512) },
          { abs_index := 2, op := bio_W 16 512 }]] ∧
    (InitDataVector trace_S1).length = 1 := by
  have h : (InitDataVector trace_S1_then_write).map (fun e => e.ops)
      = [[{ abs_index := 0, op := bio_W 0 512 },
          { abs_index := 1, op := split_flag_half (bio_WBF 8 512) }],
         [{ abs_index := 2, op := split_data_half (bio_WBF 8 512) },
          { abs_index := 2, op := bio_W 16 512 }]] := by decide
  refine ⟨?_, h, by decide⟩
  rintro ⟨e0, e1, rest, i, heq, hl, hh⟩
  rw [heq] at h
  simp only [List.map_cons, List.cons.injEq] at h
  obtain ⟨h0, h1, -⟩ := h
  rw [h0] at hl
  rw [h1] at hh
  simp only [List.getLast?, List.getLast, List.head?, Option.some.injEq,
    epoch_op.mk.injEq] at hl hh
  omega

/-! ### The driver: bound on the retries, empty trace, determinism -/

theorem max_retries_le (n : Nat) : max_retries n ≤ max 1000 (2 * n) := by
  unfold max_retries kMinRetries kRetryMultiplier
  have h : (2 * n) % 2 ^ 64 ≤ 2 * n := Nat.mod_le _ _
  split <;> omega

/-- C17. Every `GenerateCrashState` call returns, whatever `gen_one_state`
does, and the number `retries` of `gen_one_state` invocations it has made
(the state it leaves is that after exactly `retries` consecutive invocations)
is at least 1 and at most `max(1000, 2 * |dedup set at entry|)`. -/
theorem GenerateCrashState_terminates {σ : Type} (gen : GenOneState σ) (p : Permuter σ)
    (log_data : PermuteTestResult) :
    ∃ r : CallResult σ, GenerateCrashState gen p log_data = some r ∧
      1 ≤ r.vars.retries ∧
      r.vars.retries ≤ max 1000 (2 * p.completed_permutations_.length) ∧
      (r.vars.new_state, r.vars.crash_state, r.log_data, r.permuter.strategy)
        = genCalls gen r.vars.retries p.strategy log_data := by
  obtain ⟨r, hr, h1, h2, hit, -, -, hlog, hstrat, -, -⟩ :=
    GenerateCrashState_spec gen p log_data
  refine ⟨r, hr, h1, le_trans h2 (max_retries_le _), ?_⟩
  rw [hlog, hstrat, hit]

/-- On an empty epoch vector the driver makes one attempt and returns `false`
with `res` empty and the log record and the generators untouched. -/
theorem GenerateCrashState_no_epochs {ρ : Type} (prng : Prng ρ) (p : Permuter ρ)
    (log_data : PermuteTestResult) :
    ∃ r : CallResult ρ,
      GenerateCrashState (RandomPermuter.gen_one_state prng []) p log_data = some r ∧
      r.ret = false ∧ r.res = [] ∧ r.vars.retries = 1 ∧ r.log_data = log_data ∧
      r.permuter.strategy = p.strategy := by
  obtain ⟨k, hk⟩ : ∃ k, max_retries p.completed_permutations_.length = k + 1 :=
    ⟨max_retries p.completed_permutations_.length - 1, by
      have := max_retries_pos p.completed_permutations_.length; omega⟩
  have hloop : GenerateCrashState.loop (RandomPermuter.gen_one_state prng [])
      p.completed_permutations_ (k + 1) (k + 1)
      { crash_state := [], retries := 0, exists_ := 0, new_state := true,
        crash_state_hash := [], log_data := log_data, strategy := p.strategy }
      = some { crash_state := [], retries := 1, exists_ := count p.completed_permutations_ [],
               new_state := false, crash_state_hash := [], log_data := log_data,
               strategy := p.strategy } := by
    simp [GenerateCrashState.loop, RandomPermuter.gen_one_state]
  unfold GenerateCrashState
  simp only [hk, hloop]
  split <;> exact ⟨_, rfl, rfl, rfl, rfl, rfl, rfl⟩

/-- C16. For the empty trace `InitDataVector` produces an empty epoch vector;
on it `gen_one_state` returns `false` and leaves `res` and the log record as
they are, whatever the draws; and every `GenerateCrashState` call (on any dedup
set) returns `false` with `res` empty after exactly one `gen_one_state`
attempt, the log record being left as it was. -/
theorem GenerateCrashState_empty_trace :
    InitDataVector [] = [] ∧
    (∀ (d : Draws) (res : List epoch_op) (log_data : PermuteTestResult),
      gen_one_state (InitDataVector []) d res log_data = some (false, res, log_data)) ∧
    (∀ {ρ : Type} (prng : Prng ρ) (s : ρ) (res : List epoch_op) (log_data : PermuteTestResult),
      RandomPermuter.gen_one_state prng (InitDataVector []) s res log_data
        = (false, res, log_data, s)) ∧
    (∀ {ρ : Type} (prng : Prng ρ) (p : Permuter ρ) (log_data : PermuteTestResult),
      ∃ r : CallResult ρ,
        GenerateCrashState (RandomPermuter.gen_one_state prng (InitDataVector [])) p log_data
          = some r ∧
        r.ret = false ∧ r.res = [] ∧ r.vars.retries = 1 ∧ r.log_data = log_data) := by
  refine ⟨rfl, fun _ _ _ => rfl, fun _ _ _ _ => rfl, ?_⟩
  intro ρ prng p log_data
  obtain ⟨r, h1, h2, h3, h4, h5, -⟩ := GenerateCrashState_no_epochs prng p log_data
  exact ⟨r, h1, h2, h3, h4, h5⟩

theorem count_eq_of_perm {c1 c2 : List (List Nat)} (h : c1.Perm c2) (key : List Nat) :
    count c1 key = count c2 key := by
  unfold count
  by_cases hk : key ∈ c1
  · rw [if_pos hk, if_pos (h.mem_iff.1 hk)]
  · rw [if_neg hk, if_neg (fun h2 => hk (h.mem_iff.2 h2))]

/-- The retry loop reads the dedup set through `count` only. -/
theorem GenerateCrashState.loop_congr {σ : Type} (gen : GenOneState σ)
    {c1 c2 : List (List Nat)} (h : c1.Perm c2) (maxRetries : Nat) :
    ∀ (fuel : Nat) (v : LoopVars σ),
      GenerateCrashState.loop gen c1 maxRetries fuel v
        = GenerateCrashState.loop gen c2 maxRetries fuel v := by
  intro fuel
  induction fuel with
  | zero => intro v; rfl
  | succ k ih =>
    intro v
    simp only [GenerateCrashState.loop, count_eq_of_perm h, ih]

/-- One call on two permuters that hold the same strategy state and the same
keys in their dedup sets: both return, they return the same boolean, `res` and
log record, and they are again in the same state. -/
theorem GenerateCrashState_perm {σ : Type} (gen : GenOneState σ) (p1 p2 : Permuter σ)
    (hs : p1.strategy = p2.strategy)
    (hd : p1.completed_permutations_.Perm p2.completed_permutations_)
    (log_data : PermuteTestResult) :
    ∃ r1 r2 : CallResult σ,
      GenerateCrashState gen p1 log_data = some r1 ∧
      GenerateCrashState gen p2 log_data = some r2 ∧
      r1.observed = r2.observed ∧ r1.permuter.strategy = r2.permuter.strategy ∧
      r1.permuter.completed_permutations_.Perm r2.permuter.completed_permutations_ := by
  obtain ⟨r1, h1, -, -, -, -, hres1, hlog1, hst1, hret1, hset1⟩ :=
    GenerateCrashState_spec gen p1 log_data
  obtain ⟨r2, h2, -, -, -, -, hres2, hlog2, hst2, hret2, hset2⟩ :=
    GenerateCrashState_spec gen p2 log_data
  have hvars : r1.vars = r2.vars := by
    have e1 := h1
    have e2 := h2
    simp only [GenerateCrashState] at e1 e2
    rw [← hs, ← hd.length_eq,
      ← GenerateCrashState.loop_congr gen hd (max_retries p1.completed_permutations_.length)]
      at e2
    cases hl : GenerateCrashState.loop gen p1.completed_permutations_
        (max_retries p1.completed_permutations_.length)
        (max_retries p1.completed_permutations_.length)
        { crash_state := [], retries := 0, exists_ := 0, new_state := true,
          crash_state_hash := [], log_data := log_data, strategy := p1.strategy } with
    | none => rw [hl] at e1; cases e1
    | some w =>
      rw [hl] at e1 e2
      simp only at e1 e2
      have hv1 : r1.vars = w := by
        split at e1 <;> · injection e1 with e1; rw [← e1]
      have hv2 : r2.vars = w := by
        split at e2 <;> · injection e2 with e2; rw [← e2]
      rw [hv1, hv2]
  have hmem : r1.vars.crash_state_hash ∈ p1.completed_permutations_ ↔
      r2.vars.crash_state_hash ∈ p2.completed_permutations_ := by
    rw [hvars]; exact hd.mem_iff
  refine ⟨r1, r2, h1, h2, ?_, by rw [hst1, hst2, hvars], ?_⟩
  · unfold CallResult.observed
    rw [hret1, hret2, hres1, hres2, hlog1, hlog2, hvars]
    simp only [hd.mem_iff]
  · rw [hset1, hset2]
    by_cases hm : r1.vars.crash_state_hash ∈ p1.completed_permutations_
    · rw [if_pos hm, if_pos (hmem.1 hm)]; exact hd
    · rw [if_neg hm, if_neg (fun h => hm (hmem.2 h)), hvars]
      exact List.Perm.cons _ hd

/-- A sequence of calls on two permuters in the same state (up to the order in
which the dedup set holds its keys) gives the same observations call by call. -/
theorem calls_perm {σ : Type} (gen : GenOneState σ) :
    ∀ (logs : List PermuteTestResult) (p1 p2 : Permuter σ),
      p1.strategy = p2.strategy →
      p1.completed_permutations_.Perm p2.completed_permutations_ →
      ∃ rs1 rs2, calls gen p1 logs = some rs1 ∧ calls gen p2 logs = some rs2 ∧
        rs1.map (fun x => x.2.observed) = rs2.map (fun x => x.2.observed) := by
  intro logs
  induction logs with
  | nil => intro p1 p2 _ _; exact ⟨[], [], rfl, rfl, rfl⟩
  | cons l ls ih =>
    intro p1 p2 hs hd
    obtain ⟨r1, r2, h1, h2, hobs, hs2, hd2⟩ := GenerateCrashState_perm gen p1 p2 hs hd l
    obtain ⟨rs1, rs2, g1, g2, hmap⟩ := ih r1.permuter r2.permuter hs2 hd2
    refine ⟨(p1, r1) :: rs1, (p2, r2) :: rs2, ?_, ?_, ?_⟩
    · simp only [calls, h1, g1]
    · simp only [calls, h2, g2]
    · simp only [List.map_cons, hobs, hmap]

/-- The ops that `subset_epoch` selects depend on the shuffle and on the length
of the range, not on what the output vector held before. -/
theorem subset_epoch_uniform (indices : List Nat) (e : epoch) (s : Nat)
    (hperm : indices.Perm (List.range s)) (hs : s ≤ e.ops.length) (n : Nat) (hn : n ≤ s) :
    ∃ sub : List epoch_op, sub.length = n ∧
      ∀ pre mid post : List epoch_op, mid.length = n →
        subset_epoch indices (pre ++ (mid ++ post)) pre.length (pre.length + mid.length) e
          = some (pre ++ (sub ++ post), pre.length + mid.length, false) := by
  have hnd : indices.Nodup := hperm.nodup_iff.2 (List.nodup_range s)
  have hlt : ∀ j ∈ indices, j < s := fun j hj => List.mem_range.1 (hperm.mem_iff.1 hj)
  have hlen : indices.length = s := by rw [hperm.length_eq, List.length_range]
  obtain ⟨bm, hbm, hbl, -, hbc⟩ :=
    subset_epoch.mark_spec indices e.ops.length hnd (fun j hj => by have := hlt j hj; omega)
      n 0 (List.replicate e.ops.length 0) (by omega) (List.length_replicate _ _)
      (by
        intro j
        rw [List.getElem?_replicate]
        by_cases h : j < e.ops.length <;> simp [h])
      (by rw [List.count_replicate]; simp)
  simp only [Nat.zero_add] at hbc
  have hsel : (subset_epoch.selected bm (e.ops.drop 0)).length = n := by
    rw [List.drop_zero, subset_epoch.selected_length bm e.ops (by omega), hbc]
  refine ⟨subset_epoch.selected bm e.ops, by rw [← hsel, List.drop_zero], ?_⟩
  intro pre mid post hmid
  subst hmid
  have hplace := subset_epoch.place_spec e.ops post bm 0 pre mid (by omega) hsel
  rw [List.drop_zero] at hplace
  unfold subset_epoch
  have hreq : ¬ pre.length + mid.length - pre.length > e.ops.length := by omega
  rw [if_neg hreq]
  simp only [Nat.add_sub_cancel_left, hbm, hplace, if_true]

/-- The target epoch when only `num_requests` of its ops are emitted: the ops
emitted do not depend on what the output vector held before. -/
theorem gen_one_state.emit_last_subset_uniform (ne nr : Nat) (target : epoch)
    (indices : List Nat) (i : Nat) (hi : i = ne - 1) (hnr : nr < target.ops.length)
    (hperm : indices.Perm (List.range (slots target))) :
    ∃ sub : List epoch_op, sub.length = nr ∧
      ∀ pre mid : List epoch_op, mid.length = nr →
        gen_one_state.emit ne nr target indices [target] i (pre ++ mid) pre.length
          = some (pre ++ sub, pre.length + nr) := by
  have hs : slots target ≤ target.ops.length := by
    unfold slots; split <;> [split; skip] <;> omega
  have hms : nr ≤ slots target := by
    unfold slots; split <;> [split; skip] <;> omega
  obtain ⟨sub, hlen, hsub⟩ :=
    subset_epoch_uniform indices target (slots target) hperm hs nr hms
  refine ⟨sub, hlen, ?_⟩
  intro pre mid hmid
  have h := hsub pre mid [] hmid
  simp only [List.append_nil, hmid] at h
  have hcond : i = ne - 1 ∧ nr < target.ops.length := ⟨hi, hnr⟩
  simp only [gen_one_state.emit, if_pos hcond, h]

/-- On a non-empty list of epochs and for every outcome of its draws,
`gen_one_state` returns `true` and overwrites both of its output arguments: the
state and the log record it leaves do not depend on what `res` and `log_data`
held when it was called. -/
theorem gen_one_state_uniform (epochs : List epoch) (d : Draws) (target : epoch)
    (hne1 : 1 ≤ d.num_epochs)
    (htarget : epochs[d.num_epochs - 1]? = some target)
    (hreq : target.ops.length ≠ 0 →
      1 ≤ d.num_requests ∧ d.num_requests ≤ target.ops.length)
    (hshuffle : d.num_requests < target.ops.length →
      d.indices.Perm (List.range (slots target))) :
    ∃ (out : List epoch_op) (lc : Int),
      ∀ (res : List epoch_op) (log_data : PermuteTestResult),
        gen_one_state epochs d res log_data
          = some (true, out,
              { crash_state := out.map epoch_op.abs_index, last_checkpoint := lc }) := by
  obtain ⟨hlt, -⟩ := List.getElem?_eq_some.1 htarget
  have hlen0 : ¬ epochs.length = 0 := by omega
  have hrange : ¬ (d.num_epochs < 1 ∨ epochs.length < d.num_epochs) := by omega
  have hdraw : ¬ (target.ops.length ≠ 0 ∧
      (d.num_requests < 1 ∨ target.ops.length < d.num_requests)) := by
    rintro ⟨h0, h⟩
    have := hreq h0
    omega
  have htake : epochs.take d.num_epochs = epochs.take (d.num_epochs - 1) ++ [target] := by
    have := @List.take_succ _ epochs (d.num_epochs - 1)
    rw [htarget, show d.num_epochs - 1 + 1 = d.num_epochs by omega] at this
    simpa using this
  generalize hnr : (if target.ops.length = 0 then 0 else d.num_requests) = nr
  have hnrle : nr ≤ target.ops.length := by
    rw [← hnr]; split
    · omega
    · exact (hreq ‹_›).2
  generalize hfront : epochs.take (d.num_epochs - 1) = front at htake
  have hfl : front.length = d.num_epochs - 1 := by
    rw [← hfront, List.length_take]; omega
  generalize htotal : (front.map (fun e => e.ops.length)).sum + nr = total
  -- the target epoch
  have hlast : ∃ sub : List epoch_op, sub.length = nr ∧
      ∀ pre mid : List epoch_op, mid.length = nr →
        gen_one_state.emit d.num_epochs nr target d.indices [target] front.length
            (pre ++ mid) pre.length
          = some (pre ++ sub, pre.length + nr) := by
    by_cases hfull : nr = target.ops.length
    · refine ⟨target.ops, hfull.symm, ?_⟩
      intro pre mid hmid
      rw [gen_one_state.emit_last_whole d.num_epochs nr target d.indices target front.length
        pre mid (by omega) (by omega), hfull]
    · have hnrlt : nr < target.ops.length := by omega
      have hd : d.num_requests = nr := by
        rw [← hnr]; rw [if_neg (by omega)]
      exact gen_one_state.emit_last_subset_uniform d.num_epochs nr target d.indices
        front.length hfl hnrlt (hshuffle (by omega))
  obtain ⟨sub, hsublen, hemit⟩ := hlast
  have hout : ((front.map (fun e => e.ops)).flatten ++ sub).length = total := by
    rw [List.length_append, List.length_flatten, List.map_map, hsublen, ← htotal]
    rfl
  -- the checkpoint reported
  have hlc : ∃ lc : Int,
      (if nr ≠ target.ops.length then
        (if d.num_epochs > 1 then
          (epochs[d.num_epochs - 2]?).map (fun prev => toSigned prev.checkpoint_epoch)
         else some 0)
       else some (toSigned target.checkpoint_epoch)) = some lc := by
    by_cases hfull : nr = target.ops.length
    · exact ⟨_, by rw [if_neg (by simpa using hfull)]⟩
    · by_cases hone : d.num_epochs > 1
      · have hp : d.num_epochs - 2 < epochs.length := by omega
        refine ⟨toSigned epochs[d.num_epochs - 2].checkpoint_epoch, ?_⟩
        rw [if_pos hfull, if_pos hone, List.getElem?_eq_getElem hp]; rfl
      · exact ⟨0, by rw [if_pos hfull, if_neg hone]⟩
  obtain ⟨lc, hlceq⟩ := hlc
  refine ⟨(front.map (fun e => e.ops)).flatten ++ sub, lc, ?_⟩
  intro res log_data
  -- the output vector after `resize`, split at the start of the target epoch
  generalize hres0 : resize res total epoch_op.default = res0
  have hres0len : res0.length = total := by rw [← hres0, resize_length]
  have hsplit : res0 = [] ++ (res0.take (total - nr) ++ res0.drop (total - nr)) := by simp
  have hm1 : (res0.take (total - nr)).length = (front.map (fun e => e.ops.length)).sum := by
    rw [List.length_take]; omega
  have hm2 : (res0.drop (total - nr)).length = nr := by
    rw [List.length_drop]; omega
  have hpre := gen_one_state.emit_prefix d.num_epochs nr target d.indices front [target] 0 []
    (res0.take (total - nr)) (res0.drop (total - nr)) (by omega) hm1
  rw [← hsplit] at hpre
  simp only [List.nil_append, Nat.zero_add, List.length_nil] at hpre
  have hemit2 := hemit ((front.map (fun e => e.ops)).flatten) (res0.drop (total - nr)) hm2
  -- the logging loop
  generalize hcs0 : resize log_data.crash_state total 0 = cs0
  have hcs0len : cs0.length = total := by rw [← hcs0, resize_length]
  have hlog := gen_one_state.log_spec ((front.map (fun e => e.ops)).flatten ++ sub) [] cs0 []
    (by rw [hcs0len, hout])
  simp only [List.nil_append, List.append_nil, List.length_nil] at hlog
  unfold gen_one_state
  rw [if_neg hlen0, if_neg hrange]
  simp only [htarget]
  rw [if_neg hdraw]
  simp only [hnr, hfront, htotal, hres0, hcs0, hlceq, htake, hpre, hemit2, hlog]

/-- With a library that keeps the promises of the standard and at least one
epoch, `RandomPermuter::gen_one_state` returns `true`, and the state, the log
record and the generators it leaves are determined by the generators it found:
what `res` and `log_data` held before is overwritten. -/
theorem RandomPermuter.gen_one_state_overwrites {ε : Type} (lib : Library ε)
    (hlib : lib.conforming) (epochs : List epoch) (hne : epochs ≠ [])
    (s : RandomPermuter ε) :
    ∃ (out : List epoch_op) (lc : Int) (s2 : RandomPermuter ε),
      ∀ (res : List epoch_op) (log_data : PermuteTestResult),
        RandomPermuter.gen_one_state (RandomPermuter.prng lib) epochs s res log_data
          = (true, out,
              { crash_state := out.map epoch_op.abs_index, last_checkpoint := lc }, s2) := by
  obtain ⟨huid, hsh⟩ := hlib
  have hlen : 1 ≤ epochs.length := List.length_pos.2 hne
  have hlen0 : ¬ epochs.length = 0 := by omega
  have he := huid 1 epochs.length s.rand hlen
  have hlt : (lib.uniform_int_distribution 1 epochs.length s.rand).1 - 1 < epochs.length := by
    omega
  have htarget := List.getElem?_eq_getElem hlt
  simp only [RandomPermuter.gen_one_state, RandomPermuter.prng, if_neg hlen0, htarget]
  generalize lib.uniform_int_distribution 1 epochs.length s.rand = e at he hlt htarget ⊢
  generalize epochs[e.1 - 1] = target at htarget ⊢
  have hr : target.ops.length ≠ 0 →
      1 ≤ (lib.uniform_int_distribution 1 target.ops.length e.2).1 ∧
      (lib.uniform_int_distribution 1 target.ops.length e.2).1 ≤ target.ops.length :=
    fun h => huid 1 target.ops.length e.2 (by omega)
  generalize lib.uniform_int_distribution 1 target.ops.length e.2 = r at hr ⊢
  have hperm := hsh (GenRandom.call lib) (List.range (slots target)) s.subset_random_
  generalize lib.random_shuffle (GenRandom.call lib) (List.range (slots target))
    s.subset_random_ = sh at hperm ⊢
  by_cases hc : (if target.ops.length = 0 then 0 else r.1) < target.ops.length
  · simp only [if_pos hc]
    obtain ⟨out, lc, h⟩ := permuter.gen_one_state_uniform epochs
      { num_epochs := e.1, num_requests := r.1, indices := sh.1 } target he.1 htarget hr
      (fun _ => hperm)
    exact ⟨out, lc, _, fun res log_data => by rw [h res log_data]⟩
  · simp only [if_neg hc]
    obtain ⟨out, lc, h⟩ := permuter.gen_one_state_uniform epochs
      { num_epochs := e.1, num_requests := r.1, indices := [] } target he.1 htarget hr
      (fun hlt2 => by
        exfalso
        apply hc
        by_cases h0 : target.ops.length = 0
        · simp only at hlt2; omega
        · rw [if_neg h0]; exact hlt2)
    exact ⟨out, lc, _, fun res log_data => by rw [h res log_data]⟩

/-- When `gen_one_state` overwrites its output arguments, the retry loop does
not depend on the `crash_state` and the log record it starts from. -/
theorem GenerateCrashState.loop_overwrites {σ : Type} (gen : GenOneState σ)
    (hgen : ∀ (s : σ) (res res2 : List epoch_op) (log_data log_data2 : PermuteTestResult),
      gen s res log_data = gen s res2 log_data2)
    (completed : List (List Nat)) (maxRetries fuel : Nat) (v w : LoopVars σ)
    (hs : v.strategy = w.strategy) (hr : v.retries = w.retries) :
    GenerateCrashState.loop gen completed maxRetries fuel v
      = GenerateCrashState.loop gen completed maxRetries fuel w := by
  cases fuel with
  | zero => rfl
  | succ k =>
    simp only [GenerateCrashState.loop]
    rw [hs, hr, hgen w.strategy v.crash_state w.crash_state v.log_data w.log_data]

/-- When `gen_one_state` overwrites its output arguments, a call of
`GenerateCrashState` does not depend on the log record it is handed. -/
theorem GenerateCrashState_overwrites {σ : Type} (gen : GenOneState σ)
    (hgen : ∀ (s : σ) (res res2 : List epoch_op) (log_data log_data2 : PermuteTestResult),
      gen s res log_data = gen s res2 log_data2)
    (p : Permuter σ) (log_data log_data2 : PermuteTestResult) :
    GenerateCrashState gen p log_data = GenerateCrashState gen p log_data2 := by
  simp only [GenerateCrashState]
  rw [GenerateCrashState.loop_overwrites gen hgen p.completed_permutations_ _ _
    { crash_state := [], retries := 0, exists_ := 0, new_state := true,
      crash_state_hash := [], log_data := log_data, strategy := p.strategy }
    { crash_state := [], retries := 0, exists_ := 0, new_state := true,
      crash_state_hash := [], log_data := log_data2, strategy := p.strategy } rfl rfl]

/-- When `gen_one_state` overwrites its output arguments, two sequences of as
many calls on the same permuter give the same results. -/
theorem calls_overwrites {σ : Type} (gen : GenOneState σ)
    (hgen : ∀ (s : σ) (res res2 : List epoch_op) (log_data log_data2 : PermuteTestResult),
      gen s res log_data = gen s res2 log_data2) :
    ∀ (logs logs2 : List PermuteTestResult) (p : Permuter σ), logs.length = logs2.length →
      calls gen p logs = calls gen p logs2 := by
  intro logs
  induction logs with
  | nil =>
    intro logs2 p h
    cases logs2 with
    | nil => rfl
    | cons _ _ => simp at h
  | cons l ls ih =>
    intro logs2 p h
    cases logs2 with
    | nil => simp at h
    | cons l2 ls2 =>
      simp only [List.length_cons, Nat.add_right_cancel_iff] at h
      simp only [calls, GenerateCrashState_overwrites gen hgen p l l2]
      cases GenerateCrashState gen p l2 with
      | none => rfl
      | some r => simp only [ih ls2 r.permuter h]

theorem counting_library_conforming : counting_library.conforming := by
  constructor
  · intro a b g hab
    have := Nat.mod_lt g (show 0 < b - a + 1 by omega)
    simp only [counting_library]
    omega
  · intro r v g
    simp only [counting_library]
    exact List.rotate_perm _ _

/-- C15. Determinism. Take two permuters built by the constructor of
`RandomPermuter` (whatever `data` pointer each was handed), initialised with the
same trace, whose dedup sets hold the same keys. The constructor seeds both
generators of both permuters with 42, so the two start in the same generator
state. Handed the same log records, the two return the same boolean, the same
`res` and the same log record (`crash_state`, `last_checkpoint`) on their n-th
`GenerateCrashState` call, for every n: every sequence of calls returns on
both, and the lists of what the callers observe are equal. When the library
keeps the promises of the C++ standard and the trace gives at least one epoch,
the same holds whatever log records the two callers hand in, because every call
overwrites them. -/
theorem GenerateCrashState_deterministic {ε : Type} (lib : Library ε)
    (data arg1 arg2 : List disk_write) (dedup1 dedup2 : List (List Nat))
    (hd : dedup1.Perm dedup2) :
    ((RandomPermuter.new lib arg1).rand = lib.mt19937 42 ∧
      (RandomPermuter.new lib arg1).subset_random_.rand = lib.mt19937 42 ∧
      RandomPermuter.new lib arg2 = RandomPermuter.new lib arg1) ∧
    (∀ logs : List PermuteTestResult,
      ∃ rs1 rs2,
        calls (RandomPermuter.gen_one_state (RandomPermuter.prng lib) (InitDataVector data))
          { completed_permutations_ := dedup1, strategy := RandomPermuter.new lib arg1 } logs
          = some rs1 ∧
        calls (RandomPermuter.gen_one_state (RandomPermuter.prng lib) (InitDataVector data))
          { completed_permutations_ := dedup2, strategy := RandomPermuter.new lib arg2 } logs
          = some rs2 ∧
        rs1.length = logs.length ∧
        rs1.map (fun x => x.2.observed) = rs2.map (fun x => x.2.observed)) ∧
    (lib.conforming → InitDataVector data ≠ [] →
      ∀ logs1 logs2 : List PermuteTestResult, logs1.length = logs2.length →
        ∃ rs1 rs2,
          calls (RandomPermuter.gen_one_state (RandomPermuter.prng lib) (InitDataVector data))
            { completed_permutations_ := dedup1, strategy := RandomPermuter.new lib arg1 } logs1
            = some rs1 ∧
          calls (RandomPermuter.gen_one_state (RandomPermuter.prng lib) (InitDataVector data))
            { completed_permutations_ := dedup2, strategy := RandomPermuter.new lib arg2 } logs2
            = some rs2 ∧
          rs1.length = logs1.length ∧
          rs1.map (fun x => x.2.observed) = rs2.map (fun x => x.2.observed)) := by
  have hsame : ∀ logs : List PermuteTestResult,
      ∃ rs1 rs2,
        calls (RandomPermuter.gen_one_state (RandomPermuter.prng lib) (InitDataVector data))
          { completed_permutations_ := dedup1, strategy := RandomPermuter.new lib arg1 } logs
          = some rs1 ∧
        calls (RandomPermuter.gen_one_state (RandomPermuter.prng lib) (InitDataVector data))
          { completed_permutations_ := dedup2, strategy := RandomPermuter.new lib arg2 } logs
          = some rs2 ∧
        rs1.length = logs.length ∧
        rs1.map (fun x => x.2.observed) = rs2.map (fun x => x.2.observed) := by
    intro logs
    obtain ⟨rs1, rs2, h1, h2, hmap⟩ :=
      calls_perm (RandomPermuter.gen_one_state (RandomPermuter.prng lib) (InitDataVector data))
        logs { completed_permutations_ := dedup1, strategy := RandomPermuter.new lib arg1 }
        { completed_permutations_ := dedup2, strategy := RandomPermuter.new lib arg2 } rfl hd
    obtain ⟨rs, hrs, hlen, -⟩ :=
      calls_spec (RandomPermuter.gen_one_state (RandomPermuter.prng lib) (InitDataVector data))
        logs { completed_permutations_ := dedup1, strategy := RandomPermuter.new lib arg1 }
    rw [h1] at hrs
    injection hrs with hrs
    exact ⟨rs1, rs2, h1, h2, by rw [hrs]; exact hlen, hmap⟩
  refine ⟨⟨rfl, rfl, rfl⟩, hsame, ?_⟩
  intro hlib hne logs1 logs2 hlen
  have hgen : ∀ (s : RandomPermuter ε) (res res2 : List epoch_op)
      (log_data log_data2 : PermuteTestResult),
      RandomPermuter.gen_one_state (RandomPermuter.prng lib) (InitDataVector data) s res log_data
        = RandomPermuter.gen_one_state (RandomPermuter.prng lib) (InitDataVector data) s res2
            log_data2 := by
    intro s res res2 log_data log_data2
    obtain ⟨out, lc, s2, h⟩ :=
      RandomPermuter.gen_one_state_overwrites lib hlib (InitDataVector data) hne s
    rw [h res log_data, h res2 log_data2]
  obtain ⟨rs1, rs2, h1, h2, hl, hmap⟩ := hsame logs1
  rw [calls_overwrites _ hgen logs1 logs2 _ hlen] at h2
  exact ⟨rs1, rs2, h1, h2, hl, hmap⟩

theorem GenerateCrashState_deterministic_witness :
    List.Perm [[0], [0, 1]] [[0, 1], [0]] ∧
    counting_library.conforming ∧ InitDataVector trace_one_epoch ≠ [] ∧
    (((RandomPermuter.new counting_library []).rand = counting_library.mt19937 42 ∧
      (RandomPermuter.new counting_library []).subset_random_.rand
        = counting_library.mt19937 42 ∧
      RandomPermuter.new counting_library [bio_W 0 512]
        = RandomPermuter.new counting_library []) ∧
    (∀ logs : List PermuteTestResult,
      ∃ rs1 rs2,
        calls
          (RandomPermuter.gen_one_state (RandomPermuter.prng counting_library)
            (InitDataVector trace_one_epoch))
          { completed_permutations_ := [[0], [0, 1]],
            strategy := RandomPermuter.new counting_library [] } logs
          = some rs1 ∧
        calls
          (RandomPermuter.gen_one_state (RandomPermuter.prng counting_library)
            (InitDataVector trace_one_epoch))
          { completed_permutations_ := [[0, 1], [0]],
            strategy := RandomPermuter.new counting_library [bio_W 0 512] } logs
          = some rs2 ∧
        rs1.length = logs.length ∧
        rs1.map (fun x => x.2.observed) = rs2.map (fun x => x.2.observed)) ∧
    (counting_library.conforming → InitDataVector trace_one_epoch ≠ [] →
      ∀ logs1 logs2 : List PermuteTestResult, logs1.length = logs2.length →
        ∃ rs1 rs2,
          calls
            (RandomPermuter.gen_one_state (RandomPermuter.prng counting_library)
              (InitDataVector trace_one_epoch))
            { completed_permutations_ := [[0], [0, 1]],
              strategy := RandomPermuter.new counting_library [] } logs1
            = some rs1 ∧
          calls
            (RandomPermuter.gen_one_state (RandomPermuter.prng counting_library)
              (InitDataVector trace_one_epoch))
            { completed_permutations_ := [[0, 1], [0]],
              strategy := RandomPermuter.new counting_library [bio_W 0 512] } logs2
            = some rs2 ∧
          rs1.length = logs1.length ∧
          rs1.map (fun x => x.2.observed) = rs2.map (fun x => x.2.observed))) :=
  ⟨by decide, counting_library_conforming, by decide,
   GenerateCrashState_deterministic counting_library trace_one_epoch [] [bio_W 0 512]
     [[0], [0, 1]] [[0, 1], [0]] (by decide)⟩

/-! ### `subset_epoch` on a full set of slots, and as called by `gen_one_state` -/

/-- C18 (as stated it fails). On `epoch_A` (two writes and a barrier,
`has_barrier = true`, so two slots) `subset_epoch` called with `req_size = 2`
writes the two writes and returns at the early `return`: the barrier is not
written, neither into the output range nor behind it when `res` has room. With
`req_size = 3 = |ops|` the marking loop reads `indices[2]`, past the end of the
two shuffled indices. -/
theorem subset_epoch_no_barrier_appended :
    slots epoch_A = 2 ∧
    subset_epoch [1, 0] [epoch_op.default, epoch_op.default] 0 2 epoch_A
      = some ([{ abs_index := 1, op := bio_W 0 512 }, { abs_index := 2, op := bio_W 8 512 }],
          2, false) ∧
    subset_epoch [1, 0] [epoch_op.default, epoch_op.default, epoch_op.default] 0 2 epoch_A
      = some ([{ abs_index := 1, op := bio_W 0 512 }, { abs_index := 2, op := bio_W 8 512 },
               epoch_op.default], 2, false) ∧
    (¬ ∃ r, subset_epoch [1, 0] [epoch_op.default, epoch_op.default, epoch_op.default] 0 2
        epoch_A = some r ∧ ({ abs_index := 3, op := bio_WB 16 512 } : epoch_op) ∈ r.1) ∧
    subset_epoch [1, 0] [epoch_op.default, epoch_op.default, epoch_op.default] 0 3 epoch_A
      = none := by
  refine ⟨by decide, by decide, by decide, ?_, by decide⟩
  rintro ⟨r, hr, hmem⟩
  have h : subset_epoch [1, 0] [epoch_op.default, epoch_op.default, epoch_op.default] 0 2
      epoch_A
      = some ([{ abs_index := 1, op := bio_W 0 512 }, { abs_index := 2, op := bio_W 8 512 },
               epoch_op.default], 2, false) := by decide
  rw [h] at hr
  injection hr with hr
  rw [← hr] at hmem
  revert hmem
  decide

/-- C18 (amended). For every epoch with `has_barrier = true` and at least one
op, and every shuffle outcome, `subset_epoch` called with
`req_size = slots = |ops| - 1` fills its output range with all ops but the
last, in trace order, leaves the rest of `res` as it was, and returns at the
early `return`: the barrier op is not placed. -/
theorem subset_epoch_all_slots (indices : List Nat) (e : epoch)
    (hb : e.has_barrier = true) (hne : e.ops ≠ [])
    (hperm : indices.Perm (List.range (slots e)))
    (pre mid post : List epoch_op) (hmid : mid.length = slots e) :
    slots e = e.ops.length - 1 ∧
    subset_epoch indices (pre ++ (mid ++ post)) pre.length (pre.length + mid.length) e
      = some (pre ++ (e.ops.dropLast ++ post), pre.length + mid.length, false) := by
  have hlen : e.ops.length ≠ 0 := fun h => hne (List.length_eq_zero.1 h)
  have hslots : slots e = e.ops.length - 1 := by
    unfold slots; rw [if_pos hb, if_neg hlen]
  obtain ⟨sub, hsub, hsl, hsublen⟩ :=
    subset_epoch_spec indices e (slots e) hperm (by omega) pre mid post (by omega)
  have htake : (e.ops.take (slots e)).length = slots e := by
    rw [List.length_take]; omega
  have heq : sub = e.ops.take (slots e) := hsl.eq_of_length (by rw [hsublen, hmid, htake])
  refine ⟨hslots, ?_⟩
  rw [hsub, heq, List.dropLast_eq_take, hslots]

theorem subset_epoch_all_slots_witness :
    (epoch_A.has_barrier = true ∧ epoch_A.ops ≠ [] ∧
      List.Perm [1, 0] (List.range (slots epoch_A)) ∧
      [epoch_op.default, epoch_op.default].length = slots epoch_A) ∧
    (slots epoch_A = epoch_A.ops.length - 1 ∧
    subset_epoch [1, 0] ([] ++ ([epoch_op.default, epoch_op.default] ++ [epoch_op.default]))
        ([] : List epoch_op).length
        (([] : List epoch_op).length + [epoch_op.default, epoch_op.default].length) epoch_A
      = some ([] ++ (epoch_A.ops.dropLast ++ [epoch_op.default]),
          ([] : List epoch_op).length + [epoch_op.default, epoch_op.default].length, false)) :=
  ⟨by decide,
   subset_epoch_all_slots [1, 0] epoch_A (by decide) (by decide) (by decide)
     [] [epoch_op.default, epoch_op.default] [epoch_op.default] (by decide)⟩

/-- C19. In the call of `subset_epoch` that `gen_one_state` makes (it makes one
exactly when `num_requests < |target.ops|`, on the target epoch, with the
output range that starts after the ops of the earlier epochs and is
`num_requests` long): `req_size ≤ slots`; the call runs without any
out-of-bounds read of `indices`, bitmap write or write into `res` and without
a failed assertion (it yields a result); the fill loop writes exactly
`req_size` ops (`res_start` ends at `res_end`); and the code after the early
`return` is not reached. This holds for every list of epochs and every outcome
of the draws. -/
theorem gen_one_state_subset_call (epochs : List epoch) (d : Draws) (res : List epoch_op)
    (target : epoch)
    (hne1 : 1 ≤ d.num_epochs)
    (htarget : epochs[d.num_epochs - 1]? = some target)
    (hreq : 1 ≤ d.num_requests)
    (hsub : d.num_requests < target.ops.length)
    (hshuffle : d.indices.Perm (List.range (slots target))) :
    d.num_requests ≤ slots target ∧
    gen_one_state.emit d.num_epochs d.num_requests target d.indices
        (epochs.take d.num_epochs) 0
        (resize res (((epochs.take (d.num_epochs - 1)).map (fun e => e.ops.length)).sum
          + d.num_requests) epoch_op.default) 0
      = (subset_epoch d.indices
          (((epochs.take (d.num_epochs - 1)).map (fun e => e.ops)).flatten
            ++ (resize res (((epochs.take (d.num_epochs - 1)).map (fun e => e.ops.length)).sum
                + d.num_requests) epoch_op.default).drop
                (((epochs.take (d.num_epochs - 1)).map (fun e => e.ops.length)).sum))
          (((epochs.take (d.num_epochs - 1)).map (fun e => e.ops)).flatten).length
          ((((epochs.take (d.num_epochs - 1)).map (fun e => e.ops)).flatten).length
            + d.num_requests)
          target).map
        (fun r => (r.1,
          (((epochs.take (d.num_epochs - 1)).map (fun e => e.ops)).flatten).length
            + d.num_requests)) ∧
    ∃ sub : List epoch_op,
      subset_epoch d.indices
          (((epochs.take (d.num_epochs - 1)).map (fun e => e.ops)).flatten
            ++ (resize res (((epochs.take (d.num_epochs - 1)).map (fun e => e.ops.length)).sum
                + d.num_requests) epoch_op.default).drop
                (((epochs.take (d.num_epochs - 1)).map (fun e => e.ops.length)).sum))
          (((epochs.take (d.num_epochs - 1)).map (fun e => e.ops)).flatten).length
          ((((epochs.take (d.num_epochs - 1)).map (fun e => e.ops)).flatten).length
            + d.num_requests)
          target
        = some (((epochs.take (d.num_epochs - 1)).map (fun e => e.ops)).flatten ++ sub,
            (((epochs.take (d.num_epochs - 1)).map (fun e => e.ops)).flatten).length
              + d.num_requests,
            false) ∧
      sub.length = d.num_requests := by
  obtain ⟨hlt, -⟩ := List.getElem?_eq_some.1 htarget
  have htake : epochs.take d.num_epochs = epochs.take (d.num_epochs - 1) ++ [target] := by
    have := @List.take_succ _ epochs (d.num_epochs - 1)
    rw [htarget, show d.num_epochs - 1 + 1 = d.num_epochs by omega] at this
    simpa using this
  generalize hfront : epochs.take (d.num_epochs - 1) = front at htake
  have hfl : front.length = d.num_epochs - 1 := by
    rw [← hfront, List.length_take]; omega
  generalize hres0 : resize res ((front.map (fun e => e.ops.length)).sum + d.num_requests)
    epoch_op.default = res0
  have hres0len : res0.length = (front.map (fun e => e.ops.length)).sum + d.num_requests := by
    rw [← hres0, resize_length]
  have hslots : d.num_requests ≤ slots target := by
    unfold slots; split <;> [split; skip] <;> omega
  have hslots2 : slots target ≤ target.ops.length := by
    unfold slots; split <;> [split; skip] <;> omega
  have hsplit : res0 = [] ++ (res0.take ((front.map (fun e => e.ops.length)).sum)
      ++ res0.drop ((front.map (fun e => e.ops.length)).sum)) := by simp
  have hm1 : (res0.take ((front.map (fun e => e.ops.length)).sum)).length
      = (front.map (fun e => e.ops.length)).sum := by
    rw [List.length_take]; omega
  have hm2 : (res0.drop ((front.map (fun e => e.ops.length)).sum)).length
      = d.num_requests := by
    rw [List.length_drop]; omega
  have hpre := gen_one_state.emit_prefix d.num_epochs d.num_requests target d.indices front
    [target] 0 [] (res0.take ((front.map (fun e => e.ops.length)).sum))
    (res0.drop ((front.map (fun e => e.ops.length)).sum)) (by omega) hm1
  rw [← hsplit] at hpre
  simp only [List.nil_append, Nat.zero_add, List.length_nil] at hpre
  obtain ⟨sub, hcall, -, hsublen⟩ :=
    subset_epoch_spec d.indices target (slots target) hshuffle hslots2
      ((front.map (fun e => e.ops)).flatten)
      (res0.drop ((front.map (fun e => e.ops.length)).sum)) [] (by omega)
  simp only [List.append_nil, hm2] at hcall
  refine ⟨hslots, ?_, sub, hcall, by rw [hsublen, hm2]⟩
  rw [htake, hpre]
  have hcond : front.length = d.num_epochs - 1 ∧ d.num_requests < target.ops.length :=
    ⟨hfl, hsub⟩
  simp only [gen_one_state.emit, if_pos hcond, hcall, Option.map_some']

theorem gen_one_state_subset_call_witness :
    (1 ≤ (Draws.mk 2 1 [1, 0]).num_epochs ∧
      [epoch_A, epoch_B][(Draws.mk 2 1 [1, 0]).num_epochs - 1]? = some epoch_B ∧
      1 ≤ (Draws.mk 2 1 [1, 0]).num_requests ∧
      (Draws.mk 2 1 [1, 0]).num_requests < epoch_B.ops.length ∧
      (Draws.mk 2 1 [1, 0]).indices.Perm (List.range (slots epoch_B))) ∧
    ((Draws.mk 2 1 [1, 0]).num_requests ≤ slots epoch_B ∧
    gen_one_state.emit (Draws.mk 2 1 [1, 0]).num_epochs (Draws.mk 2 1 [1, 0]).num_requests epoch_B (Draws.mk 2 1 [1, 0]).indices
        ([epoch_A, epoch_B].take (Draws.mk 2 1 [1, 0]).num_epochs) 0
        (resize ([] : List epoch_op) ((([epoch_A, epoch_B].take ((Draws.mk 2 1 [1, 0]).num_epochs - 1)).map (fun e => e.ops.length)).sum
          + (Draws.mk 2 1 [1, 0]).num_requests) epoch_op.default) 0
      = (subset_epoch (Draws.mk 2 1 [1, 0]).indices
          ((([epoch_A, epoch_B].take ((Draws.mk 2 1 [1, 0]).num_epochs - 1)).map (fun e => e.ops)).flatten
            ++ (resize ([] : List epoch_op) ((([epoch_A, epoch_B].take ((Draws.mk 2 1 [1, 0]).num_epochs - 1)).map (fun e => e.ops.length)).sum
                + (Draws.mk 2 1 [1, 0]).num_requests) epoch_op.default).drop
                ((([epoch_A, epoch_B].take ((Draws.mk 2 1 [1, 0]).num_epochs - 1)).map (fun e => e.ops.length)).sum))
          ((([epoch_A, epoch_B].take ((Draws.mk 2 1 [1, 0]).num_epochs - 1)).map (fun e => e.ops)).flatten).length
          (((([epoch_A, epoch_B].take ((Draws.mk 2 1 [1, 0]).num_epochs - 1)).map (fun e => e.ops)).flatten).length
            + (Draws.mk 2 1 [1, 0]).num_requests)
          epoch_B).map
        (fun r => (r.1,
          ((([epoch_A, epoch_B].take ((Draws.mk 2 1 [1, 0]).num_epochs - 1)).map (fun e => e.ops)).flatten).length
            + (Draws.mk 2 1 [1, 0]).num_requests)) ∧
    ∃ sub : List epoch_op,
      subset_epoch (Draws.mk 2 1 [1, 0]).indices
          ((([epoch_A, epoch_B].take ((Draws.mk 2 1 [1, 0]).num_epochs - 1)).map (fun e => e.ops)).flatten
            ++ (resize ([] : List epoch_op) ((([epoch_A, epoch_B].take ((Draws.mk 2 1 [1, 0]).num_epochs - 1)).map (fun e => e.ops.length)).sum
                + (Draws.mk 2 1 [1, 0]).num_requests) epoch_op.default).drop
                ((([epoch_A, epoch_B].take ((Draws.mk 2 1 [1, 0]).num_epochs - 1)).map (fun e => e.ops.length)).sum))
          ((([epoch_A, epoch_B].take ((Draws.mk 2 1 [1, 0]).num_epochs - 1)).map (fun e => e.ops)).flatten).length
          (((([epoch_A, epoch_B].take ((Draws.mk 2 1 [1, 0]).num_epochs - 1)).map (fun e => e.ops)).flatten).length
            + (Draws.mk 2 1 [1, 0]).num_requests)
          epoch_B
        = some ((([epoch_A, epoch_B].take ((Draws.mk 2 1 [1, 0]).num_epochs - 1)).map (fun e => e.ops)).flatten ++ sub,
            ((([epoch_A, epoch_B].take ((Draws.mk 2 1 [1, 0]).num_epochs - 1)).map (fun e => e.ops)).flatten).length
              + (Draws.mk 2 1 [1, 0]).num_requests,
            false) ∧
      sub.length = (Draws.mk 2 1 [1, 0]).num_requests) :=
  ⟨by decide,
   gen_one_state_subset_call [epoch_A, epoch_B] (Draws.mk 2 1 [1, 0]) [] epoch_B
     (by decide) (by decide) (by decide) (by decide) (by decide)⟩

/-! ### The checkpoint reported by `gen_one_state` -/

/-- C12 (as stated it fails). On `[C]`, `[W] 0 512` (one epoch without a
barrier) the state with the whole epoch reports `last_checkpoint = 0`, although
no epoch of the state ends with a barrier, so that the bound is -1. On
`[W] 0 512`, `[W] 8 512`, `[B] 0 0` the state with one of the two writes
reports `last_checkpoint = 0` as well, while no checkpoint exists and no epoch
is emitted in full. -/
theorem gen_one_state_last_checkpoint_above_bound :
    (InitDataVector trace_checkpoint_no_barrier
        = [{ checkpoint_epoch := 0, has_barrier := false, overlaps := false,
             ops := [{ abs_index := 1, op := bio_W 0 512 }] }] ∧
      gen_one_state (InitDataVector trace_checkpoint_no_barrier)
          { num_epochs := 1, num_requests := 1, indices := [] } []
          { crash_state := [], last_checkpoint := 7 }
        = some (true, [{ abs_index := 1, op := bio_W 0 512 }],
            { crash_state := [1], last_checkpoint := 0 }) ∧
      last_durable_checkpoint (InitDataVector trace_checkpoint_no_barrier) 1 true = -1 ∧
      ¬ ((0 : Int) ≤ last_durable_checkpoint (InitDataVector trace_checkpoint_no_barrier) 1 true)) ∧
    (gen_one_state (InitDataVector trace_one_epoch)
          { num_epochs := 1, num_requests := 1, indices := [0, 1] } []
          { crash_state := [], last_checkpoint := 7 }
        = some (true, [{ abs_index := 0, op := bio_W 0 512 }],
            { crash_state := [0], last_checkpoint := 0 }) ∧
      last_durable_checkpoint (InitDataVector trace_one_epoch) 1 false = -1 ∧
      ¬ ((0 : Int) ≤ last_durable_checkpoint (InitDataVector trace_one_epoch) 1 false)) := by
  decide

/-- C12 (amended). For every list of epochs (in particular the epochs built
from a trace) and every outcome of the draws, `gen_one_state` returns `true`
and `log.last_checkpoint` equals, hence is at most, the `checkpoint_epoch`
(read as a signed 32-bit value) of the last epoch of the state that is emitted
in full, whether or not that epoch ends with a barrier: the target epoch when
`num_requests = |target.ops|`, and otherwise the epoch before the target, when
there is one. -/
theorem gen_one_state_last_checkpoint (epochs : List epoch) (d : Draws) (res : List epoch_op)
    (log_data : PermuteTestResult) (target : epoch)
    (hne1 : 1 ≤ d.num_epochs)
    (htarget : epochs[d.num_epochs - 1]? = some target)
    (hreq : target.ops.length ≠ 0 →
      1 ≤ d.num_requests ∧ d.num_requests ≤ target.ops.length)
    (hshuffle : d.num_requests < target.ops.length →
      d.indices.Perm (List.range (slots target))) :
    ∃ (res_out : List epoch_op) (log_out : PermuteTestResult),
      gen_one_state epochs d res log_data = some (true, res_out, log_out) ∧
      ((if target.ops.length = 0 then 0 else d.num_requests) = target.ops.length →
        log_out.last_checkpoint = toSigned target.checkpoint_epoch ∧
        log_out.last_checkpoint ≤ toSigned target.checkpoint_epoch) ∧
      ((if target.ops.length = 0 then 0 else d.num_requests) ≠ target.ops.length →
        ∀ prev, 1 < d.num_epochs → epochs[d.num_epochs - 2]? = some prev →
          log_out.last_checkpoint = toSigned prev.checkpoint_epoch ∧
          log_out.last_checkpoint ≤ toSigned prev.checkpoint_epoch) := by
  obtain ⟨sub, lc, hgen, -, hwhole, hpart⟩ :=
    gen_one_state_spec epochs d res log_data target hne1 htarget hreq hshuffle
  refine ⟨_, _, hgen, ?_, ?_⟩
  · intro h
    exact ⟨(hwhole h).2, le_of_eq (hwhole h).2⟩
  · intro h prev h1 hprev
    exact ⟨(hpart h).2.2 prev h1 hprev, le_of_eq ((hpart h).2.2 prev h1 hprev)⟩

theorem gen_one_state_last_checkpoint_witness :
    (1 ≤ (Draws.mk 2 1 [0]).num_epochs ∧
      (InitDataVector trace_checkpoint_after_barrier)[(Draws.mk 2 1 [0]).num_epochs - 1]?
        = some { checkpoint_epoch := 0, has_barrier := true, overlaps := false,
                 ops := [{ abs_index := 3, op := bio_W 8 512 },
                         { abs_index := 4, op := bio_B }] }) ∧
    ∃ (res_out : List epoch_op) (log_out : PermuteTestResult),
      gen_one_state (InitDataVector trace_checkpoint_after_barrier) (Draws.mk 2 1 [0]) []
          { crash_state := [], last_checkpoint := 7 }
        = some (true, res_out, log_out) ∧
      ((if [({ abs_index := 3, op := bio_W 8 512 } : epoch_op),
            { abs_index := 4, op := bio_B }].length = 0 then 0
          else (Draws.mk 2 1 [0]).num_requests)
          = [({ abs_index := 3, op := bio_W 8 512 } : epoch_op),
             { abs_index := 4, op := bio_B }].length →
        log_out.last_checkpoint = toSigned 0 ∧ log_out.last_checkpoint ≤ toSigned 0) ∧
      ((if [({ abs_index := 3, op := bio_W 8 512 } : epoch_op),
            { abs_index := 4, op := bio_B }].length = 0 then 0
          else (Draws.mk 2 1 [0]).num_requests)
          ≠ [({ abs_index := 3, op := bio_W 8 512 } : epoch_op),
             { abs_index := 4, op := bio_B }].length →
        ∀ prev, 1 < (Draws.mk 2 1 [0]).num_epochs →
          (InitDataVector trace_checkpoint_after_barrier)[(Draws.mk 2 1 [0]).num_epochs - 2]?
            = some prev →
          log_out.last_checkpoint = toSigned prev.checkpoint_epoch ∧
          log_out.last_checkpoint ≤ toSigned prev.checkpoint_epoch) :=
  ⟨by decide,
   gen_one_state_last_checkpoint (InitDataVector trace_checkpoint_after_barrier)
     (Draws.mk 2 1 [0]) [] { crash_state := [], last_checkpoint := 7 }
     { checkpoint_epoch := 0, has_barrier := true, overlaps := false,
       ops := [{ abs_index := 3, op := bio_W 8 512 }, { abs_index := 4, op := bio_B }] }
     (by decide) (by decide) (fun _ => by decide) (fun _ => by decide)⟩

/-! ### The checkpoint counter of the epoch builder -/

theorem checkpoints_at_epoch_ends.go_opened (seen : Nat) (rest : List disk_write)
    (h : rest ≠ []) :
    checkpoints_at_epoch_ends.go seen true rest
      = checkpoints_at_epoch_ends.go seen false rest := by
  cases rest with
  | nil => exact absurd rfl h
  | cons w rest => simp only [checkpoints_at_epoch_ends.go]

theorem checkpoints_at_epoch_ends.go_bounds :
    ∀ (data : List disk_write) (seen : Nat) (opened : Bool),
      ∀ x ∈ checkpoints_at_epoch_ends.go seen opened data,
        seen ≤ x ∧ x ≤ seen + data.countP disk_write.is_checkpoint := by
  intro data
  induction data with
  | nil =>
    intro seen opened x hx
    cases opened <;> simp [checkpoints_at_epoch_ends.go] at hx
    omega
  | cons w rest ih =>
    intro seen opened x hx
    have hle : rest.countP disk_write.is_checkpoint
        ≤ (w :: rest).countP disk_write.is_checkpoint := by
      rw [List.countP_cons]; omega
    simp only [checkpoints_at_epoch_ends.go] at hx
    split_ifs at hx with h1 h2
    · rcases List.mem_cons.1 hx with rfl | hx
      · omega
      · have := ih seen false x hx; omega
    · have := ih (seen + 1) true x hx
      rw [List.countP_cons_of_pos _ _ h2]
      omega
    · have := ih seen true x hx; omega

theorem checkpoints_at_epoch_ends.go_sorted :
    ∀ (data : List disk_write) (seen : Nat) (opened : Bool),
      (checkpoints_at_epoch_ends.go seen opened data).Pairwise (fun a b => a ≤ b) := by
  intro data
  induction data with
  | nil =>
    intro seen opened
    cases opened <;> simp [checkpoints_at_epoch_ends.go]
  | cons w rest ih =>
    intro seen opened
    simp only [checkpoints_at_epoch_ends.go]
    split_ifs with h1 h2
    · exact List.Pairwise.cons
        (fun x hx => (checkpoints_at_epoch_ends.go_bounds rest seen false x hx).1)
        (ih seen false)
    · exact ih (seen + 1) true
    · exact ih seen true

/-- While scanning, the epoch under construction always carries the current
value of the checkpoint counter, which is the number of checkpoint records
passed so far minus 1. -/
theorem InitDataVector.scan_checkpoint_epoch :
    ∀ (data : List disk_write) (v : BuildVars) (current_epoch : epoch) (seen : Nat),
      v.curr_checkpoint_epoch = (seen : Int) - 1 →
      current_epoch.checkpoint_epoch = stored_checkpoint seen →
      (InitDataVector.scan v current_epoch data).epochs_.map epoch.checkpoint_epoch
        = v.epochs_.map epoch.checkpoint_epoch
          ++ (checkpoints_at_epoch_ends.go seen true data).map stored_checkpoint := by
  intro data
  induction data with
  | nil =>
    intro v cur seen _ hc
    simp [InitDataVector.scan, checkpoints_at_epoch_ends.go, hc]
  | cons w rest ih =>
    intro v cur seen hv hc
    by_cases hb : w.is_barrier_write = true
    · have hgo : checkpoints_at_epoch_ends.go seen true (w :: rest)
          = seen :: checkpoints_at_epoch_ends.go seen false rest := by
        simp only [checkpoints_at_epoch_ends.go, hb, if_true]
      rw [hgo]
      by_cases hrest : rest = []
      · subst hrest
        by_cases hs : is_split_barrier w = true <;>
          simp [InitDataVector.scan, hb, hs, checkpoints_at_epoch_ends.go, hc]
      · have hne : rest.isEmpty = false := by
          cases rest with
          | nil => exact absurd rfl hrest
          | cons _ _ => rfl
        rw [← checkpoints_at_epoch_ends.go_opened seen rest hrest]
        have hnew : ∀ v2 : BuildVars, v2.curr_checkpoint_epoch = v.curr_checkpoint_epoch →
            (new_epoch v2).checkpoint_epoch = stored_checkpoint seen := by
          intro v2 h2
          simp only [new_epoch, h2, hv, stored_checkpoint]
        by_cases hs : is_split_barrier w = true
        · simp only [InitDataVector.scan, hb, hs, if_true, hne, Bool.false_eq_true, if_false]
          rw [ih _ _ seen]
          · simp [hc]
          · exact hv
          · exact hnew _ rfl
        · simp only [InitDataVector.scan, hb, hs, if_true, hne, Bool.false_eq_true, if_false]
          rw [ih _ _ seen]
          · simp [hc]
          · exact hv
          · exact hnew _ rfl
    · by_cases hcp : w.is_checkpoint = true
      · have hgo : checkpoints_at_epoch_ends.go seen true (w :: rest)
            = checkpoints_at_epoch_ends.go (seen + 1) true rest := by
          simp only [checkpoints_at_epoch_ends.go, hb, hcp, if_true, Bool.false_eq_true,
            if_false]
        rw [hgo]
        simp only [InitDataVector.scan, hb, hcp, if_true, Bool.false_eq_true, if_false]
        have hv2 : v.curr_checkpoint_epoch + 1 = ((seen + 1 : Nat) : Int) - 1 := by
          rw [hv]; push_cast; ring
        rw [ih _ _ (seen + 1)]
        · exact hv2
        · simp only [hv2, stored_checkpoint]
      · have hgo : checkpoints_at_epoch_ends.go seen true (w :: rest)
            = checkpoints_at_epoch_ends.go seen true rest := by
          simp only [checkpoints_at_epoch_ends.go, hb, hcp, Bool.false_eq_true, if_false]
        rw [hgo]
        simp only [InitDataVector.scan, hb, hcp, Bool.false_eq_true, if_false]
        rw [ih _ _ seen]
        · exact hv
        · simp only
          split <;> exact hc

/-- The `checkpoint_epoch` values of the epochs of a trace, as stored. -/
theorem InitDataVector_checkpoint_epochs (data : List disk_write) :
    (InitDataVector data).map epoch.checkpoint_epoch
      = (checkpoints_at_epoch_ends data).map stored_checkpoint := by
  unfold InitDataVector checkpoints_at_epoch_ends
  by_cases hd : data = []
  · subst hd
    simp [checkpoints_at_epoch_ends.go]
  · have hne : data.isEmpty = false := by
      cases data with
      | nil => exact absurd rfl hd
      | cons _ _ => rfl
    rw [← checkpoints_at_epoch_ends.go_opened 0 data hd, hne]
    simp only [Bool.false_eq_true, if_false]
    rw [InitDataVector.scan_checkpoint_epoch data InitDataVector.init
      (new_epoch InitDataVector.init) 0 rfl rfl]
    rfl

theorem toSigned_stored_checkpoint (seen : Nat) (h : seen ≤ 2 ^ 31) :
    toSigned (stored_checkpoint seen) = checkpoint_counter seen := by
  unfold checkpoint_counter
  cases seen with
  | zero => decide
  | succ k =>
    have hk : stored_checkpoint (k + 1) = k := by
      unfold stored_checkpoint toUnsigned
      have : ((k + 1 : Nat) : Int) - 1 = (k : Int) := by push_cast; ring
      rw [this]
      omega
    rw [hk]
    unfold toSigned
    have hlt : k % 2 ^ 32 = k := Nat.mod_eq_of_lt (by omega)
    rw [hlt, if_pos (by omega)]
    push_cast
    ring

/-- C11 (as stated it fails). On `[W] 0 512`, `[B] 0 0`, `[C]`, `[W] 8 512`,
`[B] 0 0` the two epochs end after 0 and after 1 checkpoint records, and their
stored `checkpoint_epoch` values are 4294967295 and 0: the first is not -1, and
the stored values are not non-decreasing. -/
theorem InitDataVector_checkpoint_epoch_not_monotone :
    (InitDataVector trace_checkpoint_after_barrier).map epoch.checkpoint_epoch
      = [4294967295, 0] ∧
    checkpoints_at_epoch_ends trace_checkpoint_after_barrier = [0, 1] ∧
    (InitDataVector trace_checkpoint_after_barrier).map (fun e => (e.checkpoint_epoch : Int))
      ≠ (checkpoints_at_epoch_ends trace_checkpoint_after_barrier).map checkpoint_counter ∧
    ¬ ((InitDataVector trace_checkpoint_after_barrier).map epoch.checkpoint_epoch).Pairwise
        (fun a b => a ≤ b) := by
  decide

/-- C11 (amended). For every trace with fewer than 2^31 checkpoint records, the
`checkpoint_epoch` of each epoch built by `InitDataVector`, an unsigned 32-bit
value, holds the number of checkpoint records in the trace up to the end of
that epoch minus 1, converted to unsigned (4294967295 for an epoch that ends
before any checkpoint). Read as a signed 32-bit value it equals that number
minus 1 (-1 before any checkpoint), and the signed readings are non-decreasing
along the epoch sequence. -/
theorem InitDataVector_checkpoint_epoch_signed (data : List disk_write)
    (h : data.countP disk_write.is_checkpoint < 2 ^ 31) :
    (InitDataVector data).map epoch.checkpoint_epoch
      = (checkpoints_at_epoch_ends data).map stored_checkpoint ∧
    stored_checkpoint 0 = 4294967295 ∧
    (InitDataVector data).map (fun e => toSigned e.checkpoint_epoch)
      = (checkpoints_at_epoch_ends data).map checkpoint_counter ∧
    ((InitDataVector data).map (fun e => toSigned e.checkpoint_epoch)).Pairwise
      (fun a b => a ≤ b) := by
  have hstored := InitDataVector_checkpoint_epochs data
  have hsigned : (InitDataVector data).map (fun e => toSigned e.checkpoint_epoch)
      = (checkpoints_at_epoch_ends data).map checkpoint_counter := by
    have : (InitDataVector data).map (fun e => toSigned e.checkpoint_epoch)
        = ((InitDataVector data).map epoch.checkpoint_epoch).map toSigned := by
      rw [List.map_map]; rfl
    rw [this, hstored, List.map_map]
    apply List.map_congr_left
    intro c hc
    have hb := (checkpoints_at_epoch_ends.go_bounds data 0 false c hc).2
    exact toSigned_stored_checkpoint c (by omega)
  refine ⟨hstored, by decide, hsigned, ?_⟩
  rw [hsigned, List.pairwise_map]
  refine List.Pairwise.imp ?_ (checkpoints_at_epoch_ends.go_sorted data 0 false)
  intro a b hab
  unfold checkpoint_counter
  omega

theorem InitDataVector_checkpoint_epoch_signed_witness :
    trace_checkpoint_after_barrier.countP disk_write.is_checkpoint < 2 ^ 31 ∧
    ((InitDataVector trace_checkpoint_after_barrier).map epoch.checkpoint_epoch
      = (checkpoints_at_epoch_ends trace_checkpoint_after_barrier).map stored_checkpoint ∧
    stored_checkpoint 0 = 4294967295 ∧
    (InitDataVector trace_checkpoint_after_barrier).map (fun e => toSigned e.checkpoint_epoch)
      = (checkpoints_at_epoch_ends trace_checkpoint_after_barrier).map checkpoint_counter ∧
    ((InitDataVector trace_checkpoint_after_barrier).map
        (fun e => toSigned e.checkpoint_epoch)).Pairwise (fun a b => a ≤ b)) :=
  ⟨by decide, InitDataVector_checkpoint_epoch_signed trace_checkpoint_after_barrier (by decide)⟩

/-! ### `abs_index` on traces without split barriers -/

/-- Without split barriers no data half is ever pending, and the ops pushed
are the records that are no checkpoints, each with the value of the counter
`abs_index` at its position. -/
theorem InitDataVector.scan_indexed :
    ∀ (data : List disk_write) (v : BuildVars) (current_epoch : epoch) (position : Nat),
      has_split_barrier data = false → v.prev_epoch_flush_op = false →
      v.abs_index = position % 2 ^ 32 →
      all_epoch_ops (InitDataVector.scan v current_epoch data).epochs_
        = all_epoch_ops v.epochs_ ++ (current_epoch.ops ++ indexed_ops position data) := by
  intro data
  induction data with
  | nil =>
    intro v cur n _ _ _
    simp [InitDataVector.scan, all_epoch_ops, indexed_ops]
  | cons w rest ih =>
    intro v cur n hns hprev habs
    have hw : (w.is_barrier_write && is_split_barrier w) = false := by
      simp only [has_split_barrier, List.any_cons, Bool.or_eq_false_iff] at hns
      exact hns.1
    have hrest : has_split_barrier rest = false := by
      simp only [has_split_barrier, List.any_cons, Bool.or_eq_false_iff] at hns
      exact hns.2
    have hnext : (v.abs_index + 1) % 2 ^ 32 = (n + 1) % 2 ^ 32 := by
      rw [habs]; omega
    by_cases hb : w.is_barrier_write = true
    · have hs : is_split_barrier w = false := by
        rw [hb, Bool.true_and] at hw; exact hw
      have hidx : indexed_ops n (w :: rest)
          = { abs_index := n % 2 ^ 32, op := w } :: indexed_ops (n + 1) rest := by
        simp [indexed_ops, hb]
      rw [hidx]
      by_cases hre : rest = []
      · subst hre
        simp [InitDataVector.scan, hb, hs, all_epoch_ops, indexed_ops, habs]
      · have hne : rest.isEmpty = false := by
          cases rest with
          | nil => exact absurd rfl hre
          | cons _ _ => rfl
        simp only [InitDataVector.scan, hb, hs, if_true, hne, Bool.false_eq_true, if_false]
        rw [ih _ _ (n + 1) hrest]
        · simp [all_epoch_ops, new_epoch, habs]
        · exact hprev
        · exact hnext
    · by_cases hc : w.is_checkpoint = true
      · have hidx : indexed_ops n (w :: rest) = indexed_ops (n + 1) rest := by
          simp [indexed_ops, hb, hc]
        rw [hidx]
        simp only [InitDataVector.scan, hb, hc, if_true, Bool.false_eq_true, if_false]
        rw [ih _ _ (n + 1) hrest]
        · exact hprev
        · exact hnext
      · have hidx : indexed_ops n (w :: rest)
            = { abs_index := n % 2 ^ 32, op := w } :: indexed_ops (n + 1) rest := by
          simp [indexed_ops, hb, hc]
        rw [hidx]
        simp only [InitDataVector.scan, hb, hc, hprev, Bool.false_eq_true, if_false]
        rw [ih _ _ (n + 1) hrest]
        · simp [habs]
        · rfl
        · exact hnext

theorem InitDataVector_indexed (data : List disk_write) (hns : has_split_barrier data = false) :
    all_epoch_ops (InitDataVector data) = indexed_ops 0 data := by
  unfold InitDataVector
  by_cases hd : data = []
  · subst hd; rfl
  · have hne : data.isEmpty = false := by
      cases data with
      | nil => exact absurd rfl hd
      | cons _ _ => rfl
    rw [hne]
    simp only [Bool.false_eq_true, if_false]
    rw [InitDataVector.scan_indexed data InitDataVector.init (new_epoch InitDataVector.init) 0
      hns rfl rfl]
    rfl

/-- Every op listed by `indexed_ops` is the record at the position it is
paired with. -/
theorem indexed_ops_position :
    ∀ (data : List disk_write) (position : Nat) (o : epoch_op),
      o ∈ indexed_ops position data →
      ∃ k, k < data.length ∧ data[k]? = some o.op ∧
        o.abs_index = (position + k) % 2 ^ 32 := by
  intro data
  induction data with
  | nil => intro n o ho; simp [indexed_ops] at ho
  | cons w rest ih =>
    intro n o ho
    have hstep : ∀ o, o ∈ indexed_ops (n + 1) rest →
        ∃ k, k < (w :: rest).length ∧ (w :: rest)[k]? = some o.op ∧
          o.abs_index = (n + k) % 2 ^ 32 := by
      intro o ho
      obtain ⟨k, hk, hget, habs⟩ := ih (n + 1) o ho
      refine ⟨k + 1, by simp; omega, by simpa using hget, ?_⟩
      rw [habs]; congr 1; omega
    simp only [indexed_ops] at ho
    split_ifs at ho with h
    · exact hstep o ho
    · rcases List.mem_cons.1 ho with rfl | ho
      · exact ⟨0, by simp, by simp, by simp⟩
      · exact hstep o ho

theorem mem_all_epoch_ops {epochs : List epoch} {e : epoch} {o : epoch_op}
    (he : e ∈ epochs) (ho : o ∈ e.ops) : o ∈ all_epoch_ops epochs := by
  unfold all_epoch_ops
  rw [List.mem_flatten]
  exact ⟨e.ops, List.mem_map.2 ⟨e, he, rfl⟩, ho⟩

/-- On a trace without split barriers and with at most 2^32 records, every op
of every epoch sits in the trace at the position its `abs_index` names. -/
theorem InitDataVector_abs_index_position (data : List disk_write)
    (hns : has_split_barrier data = false) (hlen : data.length ≤ 2 ^ 32) :
    ∀ o ∈ all_epoch_ops (InitDataVector data), data[o.abs_index]? = some o.op := by
  intro o ho
  rw [InitDataVector_indexed data hns] at ho
  obtain ⟨k, hk, hget, habs⟩ := indexed_ops_position data 0 o ho
  rw [Nat.zero_add, Nat.mod_eq_of_lt (by omega)] at habs
  rw [habs]; exact hget

/-- C14 (as stated it fails). Scenario S4 has no split barrier; with its two
checkpoint records removed the write is at position 0 and the barrier at
position 1, while their `abs_index` values are 1 and 3. -/
theorem InitDataVector_S4_abs_index_counts_checkpoints :
    has_split_barrier trace_S4 = false ∧
    trace_S4.filter (fun w => !w.is_checkpoint) = [bio_W 0 512, bio_WB 8 512] ∧
    all_epoch_ops (InitDataVector trace_S4)
      = [{ abs_index := 1, op := bio_W 0 512 }, { abs_index := 3, op := bio_WB 8 512 }] ∧
    ¬ (∀ o ∈ all_epoch_ops (InitDataVector trace_S4),
        (trace_S4.filter (fun w => !w.is_checkpoint))[o.abs_index]? = some o.op) := by
  decide

/-- C14 (amended). For every trace without split flush+data barriers (and with
at most 2^32 records), the `abs_index` of every `epoch_op` built by
`InitDataVector` equals the 0-based position of its op in the trace itself,
checkpoint records included: the record of the trace at position `abs_index` is
the op, and the ops of all epochs in order are the non-checkpoint records of
the trace, each with its position. -/
theorem InitDataVector_abs_index (data : List disk_write)
    (hns : has_split_barrier data = false) (hlen : data.length ≤ 2 ^ 32) :
    all_epoch_ops (InitDataVector data) = indexed_ops 0 data ∧
    ∀ e ∈ InitDataVector data, ∀ o ∈ e.ops, data[o.abs_index]? = some o.op := by
  refine ⟨InitDataVector_indexed data hns, ?_⟩
  intro e he o ho
  exact InitDataVector_abs_index_position data hns hlen o (mem_all_epoch_ops he ho)

theorem InitDataVector_abs_index_witness :
    (has_split_barrier trace_S4 = false ∧ trace_S4.length ≤ 2 ^ 32) ∧
    (all_epoch_ops (InitDataVector trace_S4) = indexed_ops 0 trace_S4 ∧
    ∀ e ∈ InitDataVector trace_S4, ∀ o ∈ e.ops, trace_S4[o.abs_index]? = some o.op) :=
  ⟨by decide, InitDataVector_abs_index trace_S4 (by decide) (by decide)⟩

/-! ### Fingerprints -/

/-- For draws within the ranges of their distributions `gen_one_state` returns
`true`, the logged `crash_state` is the `abs_index` projection of the state,
and every element of the state is an op of one of the epochs. -/
theorem gen_one_state_mem (epochs : List epoch) (d : Draws) (res : List epoch_op)
    (log_data : PermuteTestResult) (hin : d.in_range epochs) :
    ∃ (out : List epoch_op) (log_out : PermuteTestResult),
      gen_one_state epochs d res log_data = some (true, out, log_out) ∧
      log_out.crash_state = out.map epoch_op.abs_index ∧
      ∀ o ∈ out, o ∈ all_epoch_ops epochs := by
  obtain ⟨hne1, target, htarget, hreq, hshuffle⟩ := hin
  obtain ⟨sub, lc, hgen, -, hwhole, hpart⟩ :=
    gen_one_state_spec epochs d res log_data target hne1 htarget hreq hshuffle
  refine ⟨_, _, hgen, rfl, ?_⟩
  have htm : target ∈ epochs := List.getElem?_mem htarget
  have hsubmem : ∀ o ∈ sub, o ∈ target.ops := by
    intro o ho
    by_cases h : (if target.ops.length = 0 then 0 else d.num_requests) = target.ops.length
    · rw [(hwhole h).1] at ho; exact ho
    · exact List.mem_of_mem_take (((hpart h).1).subset ho)
  intro o ho
  rcases List.mem_append.1 ho with ho | ho
  · unfold all_epoch_ops
    rw [List.mem_flatten] at ho ⊢
    obtain ⟨l, hl, hol⟩ := ho
    obtain ⟨e, he, rfl⟩ := List.mem_map.1 hl
    exact ⟨e.ops, List.mem_map.2 ⟨e, List.mem_of_mem_take he, rfl⟩, hol⟩
  · exact mem_all_epoch_ops htm (hsubmem o ho)

/-- Two lists of ops whose elements are all determined by their `abs_index`
are equal as soon as their `abs_index` projections are. -/
theorem eq_of_map_abs_index_eq (data : List disk_write) :
    ∀ (l1 l2 : List epoch_op),
      (∀ o ∈ l1, data[o.abs_index]? = some o.op) →
      (∀ o ∈ l2, data[o.abs_index]? = some o.op) →
      l1.map epoch_op.abs_index = l2.map epoch_op.abs_index → l1 = l2 := by
  intro l1
  induction l1 with
  | nil =>
    intro l2 _ _ h
    cases l2 with
    | nil => rfl
    | cons _ _ => simp at h
  | cons a l1 ih =>
    intro l2 h1 h2 h
    cases l2 with
    | nil => simp at h
    | cons b l2 =>
      simp only [List.map_cons, List.cons.injEq] at h
      have ha := h1 a (List.mem_cons_self _ _)
      have hb := h2 b (List.mem_cons_self _ _)
      rw [h.1, hb] at ha
      have hab : a = b := by
        cases a; cases b
        simp only [Option.some.injEq] at ha
        simp only at h
        simp [h.1, ha]
      rw [hab, ih l2 (fun o ho => h1 o (List.mem_cons_of_mem _ ho))
        (fun o ho => h2 o (List.mem_cons_of_mem _ ho)) h.2]

/-- C20 (as stated it fails). On `[W] 0 512`, `[W,B,F] 8 512`, `[W] 16 512` the
second epoch holds the data half and the write, both at `abs_index` 2. With
`num_epochs = 2` and `num_requests = 1` the two shuffles of its two slots give
two states that end with different ops and have the same `abs_index` sequence
`[0, 1, 2]`. -/
theorem gen_one_state_fingerprint_collision :
    gen_one_state (InitDataVector trace_S1_then_write)
        { num_epochs := 2, num_requests := 1, indices := [0, 1] } []
        { crash_state := [], last_checkpoint := 0 }
      = some (true,
          [{ abs_index := 0, op := bio_W 0 512 },
           { abs_index := 1, op := split_flag_half (bio_WBF 8 512) },
           { abs_index := 2, op := split_data_half (bio_WBF 8 512) }],
          { crash_state := [0, 1, 2], last_checkpoint := -1 }) ∧
    gen_one_state (InitDataVector trace_S1_then_write)
        { num_epochs := 2, num_requests := 1, indices := [1, 0] } []
        { crash_state := [], last_checkpoint := 0 }
      = some (true,
          [{ abs_index := 0, op := bio_W 0 512 },
           { abs_index := 1, op := split_flag_half (bio_WBF 8 512) },
           { abs_index := 2, op := bio_W 16 512 }],
          { crash_state := [0, 1, 2], last_checkpoint := -1 }) ∧
    split_data_half (bio_WBF 8 512) ≠ bio_W 16 512 ∧
    (InitDataVector trace_S1_then_write).map slots = [2, 2] ∧
    List.Perm [0, 1] (List.range 2) ∧ List.Perm [1, 0] (List.range 2) := by
  decide

/-- C20 (amended). For every trace without split flush+data barriers and with
at most 2^32 records, and any two crash states that `gen_one_state` produces
from the epochs `InitDataVector` built from it, under any outcomes of the
draws and whatever `res` and the log record held before: if their `abs_index`
sequences (the logged `crash_state`s) are equal, then the two states are equal,
so they are the same sequence of ops. -/
theorem gen_one_state_fingerprint_injective (data : List disk_write)
    (hns : has_split_barrier data = false) (hlen : data.length ≤ 2 ^ 32)
    (d1 d2 : Draws) (res1 res2 : List epoch_op) (log1 log2 : PermuteTestResult)
    (h1 : d1.in_range (InitDataVector data)) (h2 : d2.in_range (InitDataVector data)) :
    ∃ (out1 out2 : List epoch_op) (l1 l2 : PermuteTestResult),
      gen_one_state (InitDataVector data) d1 res1 log1 = some (true, out1, l1) ∧
      gen_one_state (InitDataVector data) d2 res2 log2 = some (true, out2, l2) ∧
      l1.crash_state = out1.map epoch_op.abs_index ∧
      l2.crash_state = out2.map epoch_op.abs_index ∧
      (l1.crash_state = l2.crash_state →
        out1 = out2 ∧ out1.map epoch_op.op = out2.map epoch_op.op) := by
  obtain ⟨out1, l1, g1, c1, m1⟩ := gen_one_state_mem (InitDataVector data) d1 res1 log1 h1
  obtain ⟨out2, l2, g2, c2, m2⟩ := gen_one_state_mem (InitDataVector data) d2 res2 log2 h2
  refine ⟨out1, out2, l1, l2, g1, g2, c1, c2, ?_⟩
  intro h
  rw [c1, c2] at h
  have heq := eq_of_map_abs_index_eq data out1 out2
    (fun o ho => InitDataVector_abs_index_position data hns hlen o (m1 o ho))
    (fun o ho => InitDataVector_abs_index_position data hns hlen o (m2 o ho)) h
  exact ⟨heq, by rw [heq]⟩

theorem gen_one_state_fingerprint_injective_witness :
    (has_split_barrier trace_one_epoch = false ∧ trace_one_epoch.length ≤ 2 ^ 32 ∧
      (Draws.mk 1 1 [0, 1]).in_range (InitDataVector trace_one_epoch) ∧
      (Draws.mk 1 2 [1, 0]).in_range (InitDataVector trace_one_epoch)) ∧
    ∃ (out1 out2 : List epoch_op) (l1 l2 : PermuteTestResult),
      gen_one_state (InitDataVector trace_one_epoch) (Draws.mk 1 1 [0, 1]) []
          { crash_state := [], last_checkpoint := 0 } = some (true, out1, l1) ∧
      gen_one_state (InitDataVector trace_one_epoch) (Draws.mk 1 2 [1, 0])
          [epoch_op.default] { crash_state := [5], last_checkpoint := 1 }
        = some (true, out2, l2) ∧
      l1.crash_state = out1.map epoch_op.abs_index ∧
      l2.crash_state = out2.map epoch_op.abs_index ∧
      (l1.crash_state = l2.crash_state →
        out1 = out2 ∧ out1.map epoch_op.op = out2.map epoch_op.op) :=
  ⟨⟨by decide, by decide,
    ⟨by decide,
     { checkpoint_epoch := 4294967295, has_barrier := true, overlaps := false,
       ops := [{ abs_index := 0, op := bio_W 0 512 }, { abs_index := 1, op := bio_W 8 512 },
               { abs_index := 2, op := bio_B }] },
     by decide, fun _ => by decide, fun _ => by decide⟩,
    ⟨by decide,
     { checkpoint_epoch := 4294967295, has_barrier := true, overlaps := false,
       ops := [{ abs_index := 0, op := bio_W 0 512 }, { abs_index := 1, op := bio_W 8 512 },
               { abs_index := 2, op := bio_B }] },
     by decide, fun _ => by decide, fun _ => by decide⟩⟩,
   gen_one_state_fingerprint_injective trace_one_epoch (by decide) (by decide)
     (Draws.mk 1 1 [0, 1]) (Draws.mk 1 2 [1, 0]) [] [epoch_op.default]
     { crash_state := [], last_checkpoint := 0 } { crash_state := [5], last_checkpoint := 1 }
     ⟨by decide,
      { checkpoint_epoch := 4294967295, has_barrier := true, overlaps := false,
        ops := [{ abs_index := 0, op := bio_W 0 512 }, { abs_index := 1, op := bio_W 8 512 },
                { abs_index := 2, op := bio_B }] },
      by decide, fun _ => by decide, fun _ => by decide⟩
     ⟨by decide,
      { checkpoint_epoch := 4294967295, has_barrier := true, overlaps := false,
        ops := [{ abs_index := 0, op := bio_W 0 512 }, { abs_index := 1, op := bio_W 8 512 },
                { abs_index := 2, op := bio_B }] },
      by decide, fun _ => by decide, fun _ => by decide⟩⟩

/-! ### Barriers inside the epochs -/

theorem ops_ok_nil (data : List disk_write) : ops_ok data [] :=
  ⟨fun o ho => by simp at ho, fun o ho => by simp at ho⟩

theorem ops_ok_concat (data : List disk_write) (ops : List epoch_op) (x : epoch_op)
    (h : ops_ok data ops) (hx : x.op.is_barrier_write = false) :
    ops_ok data (ops ++ [x]) := by
  cases ops with
  | nil =>
    refine ⟨fun o ho => by simp at ho, fun o ho => ?_⟩
    simp only [List.nil_append, List.head?_cons, Option.some.injEq] at ho
    rw [← ho]; exact Or.inl hx
  | cons a ops =>
    refine ⟨fun o ho => ?_, fun o ho => h.2 o (by simpa using ho)⟩
    simp only [List.cons_append, List.tail_cons, List.mem_append, List.mem_singleton] at ho
    rcases ho with ho | rfl
    · exact h.1 o (by simpa using ho)
    · exact hx

theorem ops_ok_data_half (data : List disk_write) (a x : epoch_op)
    (ha : is_data_half_of data a.op = true) (hx : x.op.is_barrier_write = false) :
    ops_ok data ([] ++ [a] ++ [x]) := by
  refine ⟨fun o ho => ?_, fun o ho => ?_⟩
  · simp only [List.nil_append, List.singleton_append, List.tail_cons, List.mem_singleton]
      at ho
    rw [ho]; exact hx
  · simp only [List.nil_append, List.singleton_append, List.head?_cons, Option.some.injEq]
      at ho
    rw [← ho]; exact Or.inr ha

theorem ops_ok_dropLast (data : List disk_write) (ops : List epoch_op) (h : ops_ok data ops) :
    ops_ok data ops.dropLast := by
  refine ⟨fun o ho => ?_, fun o ho => ?_⟩
  · rw [List.tail_dropLast] at ho
    exact h.1 o (List.mem_of_mem_dropLast ho)
  · rw [List.head?_dropLast] at ho
    split at ho
    · exact h.2 o ho
    · cases ho

/-- The epoch pushed at a barrier or at a flag half. -/
theorem epoch_barriers_ok_push (data : List disk_write) (e : epoch) (ops : List epoch_op)
    (x : epoch_op) (hops : e.ops = ops ++ [x]) (h : ops_ok data ops)
    (hx : e.has_barrier = true →
      x.op.is_barrier_write = true ∧ is_split_barrier x.op = false) :
    epoch_barriers_ok data e := by
  refine ⟨by rw [hops, List.dropLast_concat]; exact h, fun hb => ⟨x, ?_, hx hb⟩⟩
  rw [hops, List.getLast?_concat]

theorem is_data_half_of_mem (data : List disk_write) (b : disk_write) (hmem : b ∈ data)
    (hb : b.is_barrier_write = true) (hs : is_split_barrier b = true) :
    is_data_half_of data (split_data_half b) = true := by
  unfold is_data_half_of
  rw [List.any_eq_true]
  exact ⟨b, hmem, by simp [hb, hs]⟩

/-- While scanning the trace `all`, every epoch pushed is as
`epoch_barriers_ok` says. -/
theorem InitDataVector.scan_barriers (all : List disk_write) :
    ∀ (data : List disk_write) (v : BuildVars) (current_epoch : epoch),
      (∀ w ∈ data, w ∈ all) →
      (∀ e ∈ v.epochs_, epoch_barriers_ok all e) →
      current_epoch.has_barrier = false →
      ops_ok all current_epoch.ops →
      (v.prev_epoch_flush_op = true →
        current_epoch.ops = [] ∧ is_data_half_of all v.data_half = true) →
      ∀ e ∈ (InitDataVector.scan v current_epoch data).epochs_, epoch_barriers_ok all e := by
  intro data
  induction data with
  | nil =>
    intro v cur _ hall hcb hcur _ e he
    simp only [InitDataVector.scan, List.mem_append, List.mem_singleton] at he
    rcases he with he | rfl
    · exact hall e he
    · exact ⟨ops_ok_dropLast all _ hcur, fun hb => by rw [hcb] at hb; cases hb⟩
  | cons w rest ih =>
    intro v cur hmem hall hcb hcur hprev
    have hwmem : w ∈ all := hmem w (List.mem_cons_self _ _)
    have hrmem : ∀ x ∈ rest, x ∈ all := fun x hx => hmem x (List.mem_cons_of_mem _ hx)
    have hpush : ∀ (x : epoch), epoch_barriers_ok all x →
        ∀ e ∈ v.epochs_ ++ [x], epoch_barriers_ok all e := by
      intro x hx e he
      rcases List.mem_append.1 he with he | he
      · exact hall e he
      · rw [List.mem_singleton.1 he]; exact hx
    by_cases hb : w.is_barrier_write = true
    · by_cases hs : is_split_barrier w = true
      · have hgood : epoch_barriers_ok all
            { cur with ops := cur.ops ++ [{ abs_index := v.abs_index, op := split_flag_half w }] } :=
          epoch_barriers_ok_push all _ cur.ops _ rfl hcur
            (fun h => by rw [hcb] at h; cases h)
        simp only [InitDataVector.scan, hb, hs, if_true]
        split
        · exact hpush _ hgood
        · exact ih _ _ hrmem (hpush _ hgood) rfl (ops_ok_nil all)
            (fun _ => ⟨rfl, is_data_half_of_mem all w hwmem hb hs⟩)
      · have hs2 : is_split_barrier w = false := by
          cases h : is_split_barrier w
          · rfl
          · exact absurd h hs
        have hgood : epoch_barriers_ok all
            { cur with ops := cur.ops ++ [{ abs_index := v.abs_index, op := w }],
                       has_barrier := true } :=
          epoch_barriers_ok_push all _ cur.ops _ rfl hcur (fun _ => ⟨hb, hs2⟩)
        simp only [InitDataVector.scan, hb, hs, if_true, Bool.false_eq_true, if_false]
        split
        · exact hpush _ hgood
        · exact ih _ _ hrmem (hpush _ hgood) rfl (ops_ok_nil all)
            (fun h => ⟨rfl, (hprev h).2⟩)
    · have hb2 : w.is_barrier_write = false := by
        cases h : w.is_barrier_write
        · rfl
        · exact absurd h hb
      by_cases hc : w.is_checkpoint = true
      · simp only [InitDataVector.scan, hb, hc, if_true, Bool.false_eq_true, if_false]
        exact ih _ _ hrmem hall hcb hcur hprev
      · simp only [InitDataVector.scan, hb, hc, Bool.false_eq_true, if_false]
        by_cases hp : v.prev_epoch_flush_op = true
        · obtain ⟨hnil, hdh⟩ := hprev hp
          refine ih _ _ hrmem hall ?_ ?_ (fun h => by cases h)
          · simp only [hp, if_true]; exact hcb
          · simp only [hp, if_true, hnil]
            exact ops_ok_data_half all _ _ hdh hb2
        · refine ih _ _ hrmem hall ?_ ?_ (fun h => by cases h)
          · simp only [hp, if_false]; exact hcb
          · simp only [hp, if_false]
            exact ops_ok_concat all _ _ hcur hb2

theorem InitDataVector_barriers (data : List disk_write) :
    ∀ e ∈ InitDataVector data, epoch_barriers_ok data e := by
  unfold InitDataVector
  split
  · intro e he; cases he
  · exact InitDataVector.scan_barriers data data _ _ (fun w hw => hw)
      (fun e he => by cases he) rfl (ops_ok_nil data) (fun h => by cases h)

/-- C13 (as stated it fails). On `[W] 0 512`, `[W,B,F] 8 512`, `[W] 16 512`,
`[B] 0 0` the second epoch holds the data half of the split barrier, the write
and the barrier. The data half is the record `[W,B] 8 512`, a barrier write, so
this epoch holds two ops that satisfy `is_barrier_write`, and the first of
them is not its last element. -/
theorem InitDataVector_data_half_is_barrier :
    (InitDataVector trace_split_then_epoch).map
        (fun e => e.ops.map (fun o => (o.abs_index, o.op.is_barrier_write)))
      = [[(0, false), (1, false)], [(2, true), (2, false), (3, true)]] ∧
    split_data_half (bio_WBF 8 512) = bio_WB 8 512 ∧
    ¬ (∀ e ∈ InitDataVector trace_split_then_epoch,
        (e.ops.filter (fun o => o.op.is_barrier_write)).length ≤ 1 ∧
        ∀ o ∈ e.ops.dropLast, o.op.is_barrier_write = false) := by
  decide

/-- C13 (amended). For every trace and every epoch built by `InitDataVector`:
no op other than the first and the last satisfies `is_barrier_write`; the first
op, when it is not also the last, satisfies `is_barrier_write` only if it is
the data half of a split barrier of the trace (carried over to the head of this
epoch); so at most one op before the last is a barrier write; and whenever
`has_barrier` is true the last element of `ops` is a barrier write that is not
split. -/
theorem InitDataVector_barrier_positions (data : List disk_write) (e : epoch)
    (he : e ∈ InitDataVector data) :
    (∀ o ∈ e.ops.dropLast.tail, o.op.is_barrier_write = false) ∧
    (∀ o, e.ops.dropLast.head? = some o →
      o.op.is_barrier_write = false ∨ is_data_half_of data o.op = true) ∧
    (e.ops.dropLast.filter (fun o => o.op.is_barrier_write)).length ≤ 1 ∧
    (e.has_barrier = true →
      ∃ o, e.ops.getLast? = some o ∧ o.op.is_barrier_write = true ∧
        is_split_barrier o.op = false) := by
  obtain ⟨⟨h1, h2⟩, h3⟩ := InitDataVector_barriers data e he
  refine ⟨h1, h2, ?_, h3⟩
  cases hd : e.ops.dropLast with
  | nil => simp
  | cons a t =>
    rw [hd] at h1
    have ht : t.filter (fun o => o.op.is_barrier_write) = [] := by
      rw [List.filter_eq_nil_iff]
      intro o ho
      rw [h1 o (by simpa using ho)]
      simp
    rw [List.filter_cons, ht]
    split <;> simp

theorem InitDataVector_barrier_positions_witness :
    (({ checkpoint_epoch := 4294967295, has_barrier := true, overlaps := false,
        ops := [{ abs_index := 2, op := bio_WB 8 512 }, { abs_index := 2, op := bio_W 16 512 },
                { abs_index := 3, op := bio_B }] } : epoch)
      ∈ InitDataVector trace_split_then_epoch) ∧
    ((∀ o ∈ ([{ abs_index := 2, op := bio_WB 8 512 }, { abs_index := 2, op := bio_W 16 512 },
              { abs_index := 3, op := bio_B }] : List epoch_op).dropLast.tail,
        o.op.is_barrier_write = false) ∧
    (∀ o, ([{ abs_index := 2, op := bio_WB 8 512 }, { abs_index := 2, op := bio_W 16 512 },
            { abs_index := 3, op := bio_B }] : List epoch_op).dropLast.head? = some o →
      o.op.is_barrier_write = false ∨ is_data_half_of trace_split_then_epoch o.op = true) ∧
    (([{ abs_index := 2, op := bio_WB 8 512 }, { abs_index := 2, op := bio_W 16 512 },
       { abs_index := 3, op := bio_B }] : List epoch_op).dropLast.filter
        (fun o => o.op.is_barrier_write)).length ≤ 1 ∧
    (true = true →
      ∃ o, ([{ abs_index := 2, op := bio_WB 8 512 }, { abs_index := 2, op := bio_W 16 512 },
             { abs_index := 3, op := bio_B }] : List epoch_op).getLast? = some o ∧
        o.op.is_barrier_write = true ∧ is_split_barrier o.op = false)) :=
  ⟨by decide,
   InitDataVector_barrier_positions trace_split_then_epoch
     { checkpoint_epoch := 4294967295, has_barrier := true, overlaps := false,
       ops := [{ abs_index := 2, op := bio_WB 8 512 }, { abs_index := 2, op := bio_W 16 512 },
               { abs_index := 3, op := bio_B }] }
     (by decide)⟩

end permuter

end fs_testing
